import Mathlib

/-!
# Bridge indexer: a shallow embedding of the L1/L2 processors and their stores

Sources embedded here:

* `indexer/database/bridge_transactions.go` (transaction deposits / withdrawals store),
* `indexer/database/bridge_transfers.go` (standard-bridge deposits / withdrawals store),
* `indexer/processor/l1_processor.go`, `indexer/processor/l2_processor.go`,
* `op-chain-ops/contracts/common.go` (`parseAddress`).

Conventions.

* `common.Hash`, `common.Address`, `uuid.UUID` are opaque identifiers (natural numbers; the
  hash 0 is the all-zero hash `common.Hash{}`, and a `uuid.UUID` is a value drawn by
  `uuid.New()`, which is never `uuid.Nil`);
  `big.Int` / `database.U256` values are natural numbers; Go `uint` / `uint64` values are
  natural numbers with an explicit `% 2 ^ 64` wherever the source does arithmetic on them.
* A nullable pointer (`*uuid.UUID`, `*common.Address`, a `nil`-able row) is an `Option`.
* A database table is the list of its rows, oldest first.  gorm calls are embedded by their SQL
  reading: `Where(&T{Col: v}).Take(&row)` is `SELECT .. WHERE col = v LIMIT 1`,
  `Create(&rows)` is one multi-row `INSERT`, `Save(&row)` is an `UPDATE` by primary key.
  gorm leaves a struct condition out when its value is the zero value of the type, and `Save`
  runs an `INSERT` for a value whose primary key is the zero value: the lookups by withdrawal
  hash of `bridge_transactions.go` are embedded with both (`gormWhereTake`,
  `gormSaveStruct`).  The other struct conditions are embedded as the equality they build for
  a value that is not the zero value: a GUID drawn by `uuid.New()`, a nonce wrapped as
  `U256{Int: nonce}` with a non-nil pointer, and, in the two list queries, an address other
  than the zero address.  Constraints that only the SQL schema declares (foreign keys,
  `UNIQUE`, `NOT NULL`) are not part of the embedding; the primary keys declared in the
  struct tags are.  The database answers every statement: the errors of a gorm call are those
  of its SQL reading (no row, duplicate key, unknown column, empty slice), and a lost
  connection is not part of the embedding.
* Go functions that mutate the database return the new database together with the returned
  `error` (`none` is `nil`).
-/

namespace Indexer

/-! ## Basic types -/

abbrev Hash := Nat
abbrev Address := Nat
abbrev UUID := Nat
abbrev Bytes := List Nat
abbrev U256 := Nat

/-- Go `common.Hash{}`: the all-zero hash.  It is the zero value of `common.Hash`, and what a
`NULL` hash column scans to. -/
def emptyHash : Hash := 0

/-- Go `error` values that occur in the embedded code. -/
inductive GoError where
  /-- Go `errors.New(msg)` -/
  | New (msg : String)
  /-- Go `fmt.Errorf(format, hash)` with one `%s` argument -/
  | Errorf (format : String) (arg : Hash)
  /-- Go `gorm.ErrRecordNotFound` -/
  | ErrRecordNotFound
  /-- Go `gorm.ErrEmptySlice` -/
  | ErrEmptySlice
  /-- an error reported by the SQL database for a statement -/
  | sql (msg : String)
  /-- an error returned by a collaborator whose code is outside the embedded sources -/
  | external (code : Nat)
deriving DecidableEq, Repr

deriving instance DecidableEq for Except

/-- How a Go function call ends: it returns `nil`, returns an error, or panics. -/
inductive Outcome where
  | nil
  | err (e : GoError)
  | panic (reason : String)
deriving DecidableEq, Repr

/-- A Go call that returns `(value, error)` and may also panic. -/
inductive Res (α : Type) where
  | ok (a : α)
  | err (e : GoError)
  | panic (reason : String)
deriving DecidableEq, Repr

/-! ## Data model (`database` package) -/

/-- Go `database.Transaction` (bridge_transactions.go) -/
structure Transaction where
  FromAddress : Address
  ToAddress : Address
  Amount : U256
  Data : Bytes
  Timestamp : Nat
deriving DecidableEq, Repr

/-- Go `database.TransactionDeposit` (bridge_transactions.go); primary key `DepositHash`. -/
structure TransactionDeposit where
  DepositHash : Hash
  InitiatedL1EventGUID : UUID
  Version : U256
  OpaqueData : Bytes
  Tx : Transaction
  GasLimit : U256
deriving DecidableEq, Repr

/-- Go `database.TransactionWithdrawal` (bridge_transactions.go); primary key `WithdrawalHash`. -/
structure TransactionWithdrawal where
  WithdrawalHash : Hash
  InitiatedL2EventGUID : UUID
  ProvenL1EventGUID : Option UUID
  FinalizedL1EventGUID : Option UUID
  Nonce : U256
  Tx : Transaction
  GasLimit : U256
deriving DecidableEq, Repr

/-- Go `database.TokenPair` (bridge_transfers.go) -/
structure TokenPair where
  L1TokenAddress : Address
  L2TokenAddress : Address
deriving DecidableEq, Repr

/-- Go `database.BridgeDeposit` (bridge_transfers.go); primary key `GUID`. -/
structure BridgeDeposit where
  GUID : UUID
  InitiatedL1EventGUID : UUID
  CrossDomainMessengerNonce : U256
  DepositHash : Hash
  FinalizedL2EventGUID : Option UUID
  Tx : Transaction
  TokenPair : Indexer.TokenPair
deriving DecidableEq, Repr

/-- Go `database.BridgeWithdrawal` (bridge_transfers.go); primary key `GUID`. -/
structure BridgeWithdrawal where
  GUID : UUID
  InitiatedL2EventGUID : UUID
  CrossDomainMessengerNonce : U256
  WithdrawalHash : Hash
  FinalizedL1EventGUID : Option UUID
  Tx : Transaction
  TokenPair : Indexer.TokenPair
deriving DecidableEq, Repr

/-- Go `database.BlockHeader`: hash (primary key), parent hash, number, timestamp. -/
structure BlockHeader where
  Hash : Indexer.Hash
  ParentHash : Indexer.Hash
  Number : U256
  Timestamp : Nat
deriving DecidableEq, Repr

/-- Go `database.L1BlockHeader` -/
structure L1BlockHeader where
  BlockHeader : Indexer.BlockHeader
deriving DecidableEq, Repr

/-- Go `database.L2BlockHeader` -/
structure L2BlockHeader where
  BlockHeader : Indexer.BlockHeader
deriving DecidableEq, Repr

/-- Go `types.Log` (go-ethereum): the fields the processors read. -/
structure Log where
  Address : Indexer.Address
  Topics : List Hash
  Data : Bytes
  BlockHash : Hash
  TxHash : Hash
  Index : Nat
deriving DecidableEq, Repr

/-- Go `types.Header` (go-ethereum): `Hash` is the value of the method `header.Hash()`. -/
structure Header where
  Hash : Indexer.Hash
  ParentHash : Indexer.Hash
  Number : U256
  Time : Nat
deriving DecidableEq, Repr

/-- Go `database.ContractEvent`: GUID, block hash, transaction hash, log index, event signature
(topic 0), timestamp copied from the block. -/
structure ContractEvent where
  GUID : UUID
  BlockHash : Hash
  TransactionHash : Hash
  EventSignature : Hash
  LogIndex : Nat
  Timestamp : Nat
deriving DecidableEq, Repr

/-- Go `database.L1ContractEvent` -/
structure L1ContractEvent where
  ContractEvent : Indexer.ContractEvent
deriving DecidableEq, Repr

/-- Go `database.L2ContractEvent` -/
structure L2ContractEvent where
  ContractEvent : Indexer.ContractEvent
deriving DecidableEq, Repr

/-- Go `database.OutputProposal` -/
structure OutputProposal where
  OutputRoot : Hash
  L2OutputIndex : U256
  L2BlockNumber : U256
  L1ContractEventGUID : UUID
deriving DecidableEq, Repr

/-- Go `database.LegacyStateBatch` -/
structure LegacyStateBatch where
  Index : Nat
  Root : Hash
  Size : Nat
  PrevTotal : Nat
  L1ContractEventGUID : UUID
deriving DecidableEq, Repr

/-- A write call received by the `Blocks` or `ContractEvents` sub-store.  The implementation of
these two sub-stores is outside the embedded sources, so the database keeps the calls they
received; what each call returns is supplied by the environment of the processor. -/
inductive StoreCall where
  | StoreL1BlockHeaders (headers : List L1BlockHeader)
  | StoreL2BlockHeaders (headers : List L2BlockHeader)
  | StoreL1ContractEvents (events : List L1ContractEvent)
  | StoreL2ContractEvents (events : List L2ContractEvent)
  | StoreOutputProposals (outputs : List OutputProposal)
deriving DecidableEq, Repr

/-- Go `database.DB`: the tables written by the code embedded here, and the write calls received by
the `Blocks` / `ContractEvents` sub-stores (oldest first). -/
structure DB where
  calls : List StoreCall
  transaction_deposits : List TransactionDeposit
  transaction_withdrawals : List TransactionWithdrawal
  bridge_deposits : List BridgeDeposit
  bridge_withdrawals : List BridgeWithdrawal
deriving DecidableEq, Repr

/-- The database with no rows and no calls received. -/
def DB.empty : DB := ⟨[], [], [], [], []⟩

/-! ## gorm primitives -/

/-- Go `db.gorm.Create(&rows)`: one `INSERT` of all rows.  An empty slice is refused
(`gorm.ErrEmptySlice`); a primary key already in the table, or repeated inside `rows`, makes
the statement fail and nothing is inserted. -/
def gormCreate {α κ : Type} [DecidableEq κ] (pk : α → κ) (rows table : List α) :
    Except GoError (List α) :=
  if rows.isEmpty then .error .ErrEmptySlice
  else if (rows.map pk).Nodup ∧ ∀ k ∈ rows.map pk, k ∉ table.map pk then .ok (table ++ rows)
  else .error (.sql "duplicate key value violates unique constraint")

/-- Go `db.gorm.Where(cond).Take(&row)`: the first row satisfying the condition, or
`gorm.ErrRecordNotFound`. -/
def gormTake {α : Type} (cond : α → Bool) (table : List α) : Except GoError α :=
  match table.find? cond with
  | some row => .ok row
  | none => .error .ErrRecordNotFound

/-- Go `db.gorm.Save(&row)` for a value whose primary key is not the zero value: the row with
the primary key of `row` is overwritten by `row` (the row is inserted when the key is not in
the table). -/
def gormSave {α κ : Type} [DecidableEq κ] (pk : α → κ) (row : α) (table : List α) : List α :=
  if table.any (fun r => decide (pk r = pk row)) then
    table.map (fun r => if pk r = pk row then row else r)
  else table ++ [row]

/-- Go `db.gorm.Where(&T{Col: v}).Take(&row)`, a struct condition with one field set.  gorm
builds the condition `col = v` only from a field whose value is not the zero value of its type
(`field.ValueOf` reports `isZero`, also through a serializer): with the zero value the
statement has no `WHERE` clause, and `Take` returns the first row of the table. -/
def gormWhereTake {α κ : Type} [BEq κ] (col : α → κ) (zero v : κ) (table : List α) :
    Except GoError α :=
  if v == zero then gormTake (fun _ => true) table
  else gormTake (fun row => col row == v) table

/-- Go `db.gorm.Save(&row)` of one struct.  When the primary key of the value is the zero value
gorm runs `Create`, an `INSERT` that the table refuses when it holds a row with that key;
otherwise it runs the `UPDATE` by primary key, and inserts the row when the update affected no
row. -/
def gormSaveStruct {α κ : Type} [DecidableEq κ] (pk : α → κ) (zero : κ) (row : α)
    (table : List α) : Except GoError (List α) :=
  if pk row = zero then gormCreate pk [row] table
  else .ok (gormSave pk row table)

/-! ## `bridgeTransactionsDB` (bridge_transactions.go) -/

/-- Go `StoreTransactionDeposits` -/
def StoreTransactionDeposits (deposits : List TransactionDeposit) (db : DB) :
    DB × Option GoError :=
  match gormCreate (fun d => d.DepositHash) deposits db.transaction_deposits with
  | .ok table => ({ db with transaction_deposits := table }, none)
  | .error e => (db, some e)

/-- Go `StoreTransactionWithdrawals` -/
def StoreTransactionWithdrawals (withdrawals : List TransactionWithdrawal) (db : DB) :
    DB × Option GoError :=
  match gormCreate (fun w => w.WithdrawalHash) withdrawals db.transaction_withdrawals with
  | .ok table => ({ db with transaction_withdrawals := table }, none)
  | .error e => (db, some e)

/-- Go `TransactionWithdrawalByHash`: `(nil, nil)` when `Take` finds no row.  The condition is
the struct `&BridgeWithdrawal{WithdrawalHash: withdrawalHash}`, whose only field set is the
hash. -/
def TransactionWithdrawalByHash (withdrawalHash : Hash) (db : DB) :
    Except GoError (Option TransactionWithdrawal) :=
  match gormWhereTake (fun w => w.WithdrawalHash) emptyHash withdrawalHash
      db.transaction_withdrawals with
  | .error e => if e = .ErrRecordNotFound then .ok none else .error e
  | .ok withdrawal => .ok (some withdrawal)

/-- Go `MarkTransactionWithdrawalProvenEvent` -/
def MarkTransactionWithdrawalProvenEvent (withdrawalHash : Hash) (provenL1EventGuid : UUID)
    (db : DB) : DB × Option GoError :=
  match gormWhereTake (fun w => w.WithdrawalHash) emptyHash withdrawalHash
      db.transaction_withdrawals with
  | .error e => (db, some e)
  | .ok withdrawal =>
    let withdrawal := { withdrawal with ProvenL1EventGUID := some provenL1EventGuid }
    match gormSaveStruct (fun w => w.WithdrawalHash) emptyHash withdrawal
        db.transaction_withdrawals with
    | .error e => (db, some e)
    | .ok table => ({ db with transaction_withdrawals := table }, none)

/-- Go `MarkTransactionWithdrawalFinalizedEvent` -/
def MarkTransactionWithdrawalFinalizedEvent (withdrawalHash : Hash)
    (finalizedL1EventGuid : UUID) (db : DB) : DB × Option GoError :=
  match gormWhereTake (fun w => w.WithdrawalHash) emptyHash withdrawalHash
      db.transaction_withdrawals with
  | .error e => (db, some e)
  | .ok withdrawal =>
    if withdrawal.ProvenL1EventGUID = none then
      (db, some (.Errorf "cannot mark unproven withdrawal %s as finalized"
        withdrawal.WithdrawalHash))
    else
      let withdrawal := { withdrawal with FinalizedL1EventGUID := some finalizedL1EventGuid }
      match gormSaveStruct (fun w => w.WithdrawalHash) emptyHash withdrawal
          db.transaction_withdrawals with
      | .error e => (db, some e)
      | .ok table => ({ db with transaction_withdrawals := table }, none)

/-! ## `bridgeTransfersDB` (bridge_transfers.go) -/

/-- Columns of table `bridge_deposits` that hold a number, by their gorm column name (the
snake-case form of the field name of `BridgeDeposit` and of its embedded structs), with the
field each one stores. -/
def bridge_deposits_column : String → Option (BridgeDeposit → Nat)
  | "guid" => some (fun d => d.GUID)
  | "initiated_l1_event_guid" => some (fun d => d.InitiatedL1EventGUID)
  | "cross_domain_messenger_nonce" => some (fun d => d.CrossDomainMessengerNonce)
  | "deposit_hash" => some (fun d => d.DepositHash)
  | "from_address" => some (fun d => d.Tx.FromAddress)
  | "to_address" => some (fun d => d.Tx.ToAddress)
  | "amount" => some (fun d => d.Tx.Amount)
  | "timestamp" => some (fun d => d.Tx.Timestamp)
  | "l1_token_address" => some (fun d => d.TokenPair.L1TokenAddress)
  | "l2_token_address" => some (fun d => d.TokenPair.L2TokenAddress)
  | _ => none

/-- Columns of table `bridge_withdrawals` that hold a number, as for `bridge_deposits`. -/
def bridge_withdrawals_column : String → Option (BridgeWithdrawal → Nat)
  | "guid" => some (fun w => w.GUID)
  | "initiated_l2_event_guid" => some (fun w => w.InitiatedL2EventGUID)
  | "cross_domain_messenger_nonce" => some (fun w => w.CrossDomainMessengerNonce)
  | "withdrawal_hash" => some (fun w => w.WithdrawalHash)
  | "from_address" => some (fun w => w.Tx.FromAddress)
  | "to_address" => some (fun w => w.Tx.ToAddress)
  | "amount" => some (fun w => w.Tx.Amount)
  | "timestamp" => some (fun w => w.Tx.Timestamp)
  | "l1_token_address" => some (fun w => w.TokenPair.L1TokenAddress)
  | "l2_token_address" => some (fun w => w.TokenPair.L2TokenAddress)
  | _ => none

/-- The first row of `table` whose `key` is greatest. -/
def greatestBy {α : Type} (key : α → Nat) : List α → Option α
  | [] => none
  | row :: rest =>
    match greatestBy key rest with
    | none => some row
    | some best => if key best > key row then some best else some row

/-- Go `db.gorm.Order(column ++ " DESC").Take(&row)`: `SELECT .. ORDER BY column DESC LIMIT 1`.
The database rejects the statement when the table has no column of that name; otherwise the
row with the greatest value is taken, or `gorm.ErrRecordNotFound` on an empty table. -/
def gormOrderDescTake {α : Type} (columns : String → Option (α → Nat)) (column : String)
    (table : List α) : Except GoError α :=
  match columns column with
  | none => .error (.sql ("column " ++ column ++ " does not exist"))
  | some key =>
    match greatestBy key table with
    | some row => .ok row
    | none => .error .ErrRecordNotFound

/-- Go `StoreBridgeDeposits` -/
def StoreBridgeDeposits (deposits : List BridgeDeposit) (db : DB) : DB × Option GoError :=
  match gormCreate (fun d => d.GUID) deposits db.bridge_deposits with
  | .ok table => ({ db with bridge_deposits := table }, none)
  | .error e => (db, some e)

/-- Go `BridgeDepositByMessageNonce`: `(nil, nil)` when no deposit has the nonce. -/
def BridgeDepositByMessageNonce (nonce : U256) (db : DB) :
    Except GoError (Option BridgeDeposit) :=
  match gormTake (fun d => d.CrossDomainMessengerNonce == nonce) db.bridge_deposits with
  | .error e => if e = .ErrRecordNotFound then .ok none else .error e
  | .ok deposit => .ok (some deposit)

/-- Go `LatestBridgeDepositMessageNonce`: the source orders by the column name
`cross_domain_messager_nonce`. -/
def LatestBridgeDepositMessageNonce (db : DB) : Except GoError (Option U256) :=
  match gormOrderDescTake bridge_deposits_column "cross_domain_messager_nonce"
      db.bridge_deposits with
  | .error e => if e = .ErrRecordNotFound then .ok none else .error e
  | .ok deposit => .ok (some deposit.CrossDomainMessengerNonce)

/-- Go `MarkFinalizedBridgeDepositEvent` -/
def MarkFinalizedBridgeDepositEvent (guid finalizationEventGUID : UUID) (db : DB) :
    DB × Option GoError :=
  match gormTake (fun d => d.GUID == guid) db.bridge_deposits with
  | .error e => (db, some e)
  | .ok deposit =>
    let deposit := { deposit with FinalizedL2EventGUID := some finalizationEventGUID }
    ({ db with bridge_deposits := gormSave (fun d => d.GUID) deposit db.bridge_deposits }, none)

/-- Go `StoreBridgeWithdrawals` -/
def StoreBridgeWithdrawals (withdrawals : List BridgeWithdrawal) (db : DB) :
    DB × Option GoError :=
  match gormCreate (fun w => w.GUID) withdrawals db.bridge_withdrawals with
  | .ok table => ({ db with bridge_withdrawals := table }, none)
  | .error e => (db, some e)

/-- Go `MarkFinalizedBridgeWithdrawalEvent` -/
def MarkFinalizedBridgeWithdrawalEvent (guid finalizedL1EventGuid : UUID) (db : DB) :
    DB × Option GoError :=
  match gormTake (fun w => w.GUID == guid) db.bridge_withdrawals with
  | .error e => (db, some e)
  | .ok withdrawal =>
    let withdrawal := { withdrawal with FinalizedL1EventGUID := some finalizedL1EventGuid }
    ({ db with bridge_withdrawals :=
        gormSave (fun w => w.GUID) withdrawal db.bridge_withdrawals }, none)

/-- Go `BridgeWithdrawalByMessageNonce`: `(nil, nil)` when no withdrawal has the nonce. -/
def BridgeWithdrawalByMessageNonce (nonce : U256) (db : DB) :
    Except GoError (Option BridgeWithdrawal) :=
  match gormTake (fun w => w.CrossDomainMessengerNonce == nonce) db.bridge_withdrawals with
  | .error e => if e = .ErrRecordNotFound then .ok none else .error e
  | .ok withdrawal => .ok (some withdrawal)

/-- Go `LatestBridgeWithdrawalMessageNonce`: the source orders by the column name
`sent_message_nonce`. -/
def LatestBridgeWithdrawalMessageNonce (db : DB) : Except GoError (Option U256) :=
  match gormOrderDescTake bridge_withdrawals_column "sent_message_nonce"
      db.bridge_withdrawals with
  | .error e => if e = .ErrRecordNotFound then .ok none else .error e
  | .ok withdrawal => .ok (some withdrawal.CrossDomainMessengerNonce)

/-! ## `bridgeTransfersDB`: the list queries (bridge_transfers.go) -/

/-- The rows of the tables `l1_contract_events` and `l2_contract_events`.  The sub-store that
writes these tables is outside the embedded sources, so the list queries take their rows as a
parameter. -/
structure ContractEventTables where
  l1_contract_events : List L1ContractEvent
  l2_contract_events : List L2ContractEvent
deriving DecidableEq, Repr

/-- Go `BridgeDepositWithTransactionHashes` -/
structure BridgeDepositWithTransactionHashes where
  BridgeDeposit : Indexer.BridgeDeposit
  L1TransactionHash : Hash
  FinalizedL2TransactionHash : Hash
deriving DecidableEq, Repr

/-- Go `BridgeWithdrawalWithTransactionHashes` -/
structure BridgeWithdrawalWithTransactionHashes where
  BridgeWithdrawal : Indexer.BridgeWithdrawal
  L2TransactionHash : Hash
  ProvenL1TransactionHash : Hash
  FinalizedL1TransactionHash : Hash
deriving DecidableEq, Repr

/-- SQL `left LEFT JOIN right ON cond`: every row of `left` paired with each row of `right`
that matches it, or with `NULL` (`none`) once when no row matches. -/
def leftJoin {α β : Type} (left : List α) (right : List β) (cond : α → β → Bool) :
    List (α × Option β) :=
  left.flatMap (fun l =>
    match right.filter (cond l) with
    | [] => [(l, none)]
    | found => found.map (fun r => (l, some r)))

/-- SQL `ORDER BY key DESC`: greatest key first; rows with equal keys keep their order (SQL
leaves the order of such rows open). -/
def orderByDesc {α : Type} (key : α → Nat) (rows : List α) : List α :=
  rows.insertionSort (fun a b => key b ≤ key a)

/-- Go `query.Scan(&dest)` of gorm with a slice destination: `Scan` hands the result to
`ScanRows` only when it has a first row (`if rows.Next()`), and `ScanRows` then empties the
slice and appends one entry per row; a result without rows leaves `dest` as it was. -/
def gormScan {α : Type} (rows : List α) (dest : List (Option α)) : List (Option α) :=
  match rows with
  | [] => dest
  | _ :: _ => rows.map some

/-- The value a joined `transaction_hash` column scans to: the hash of the joined event, or
the all-zero hash when the join found no event (`NULL`). -/
def scanTransactionHash (event : Option ContractEvent) : Hash :=
  match event with
  | some event => event.TransactionHash
  | none => emptyHash

/-- Go `BridgeDepositsByAddress`.  The slice is made with length 100 (`make(.., 100)`: one
hundred `nil` pointers) before `Scan`. -/
def BridgeDepositsByAddress (tables : ContractEventTables) (address : Address) (db : DB) :
    Except GoError (List (Option BridgeDepositWithTransactionHashes)) :=
  -- LEFT JOIN l1_contract_events ON bridge_deposits.initiated_l1_event_guid = guid
  let initiatedJoinQuery := leftJoin db.bridge_deposits tables.l1_contract_events
    (fun d e => d.InitiatedL1EventGUID == e.ContractEvent.GUID)
  -- LEFT JOIN l2_contract_events ON bridge_deposits.finalized_l2_event_guid = guid
  let finalizedJoinQuery := leftJoin initiatedJoinQuery tables.l2_contract_events
    (fun r e => r.1.FinalizedL2EventGUID == some e.ContractEvent.GUID)
  -- add in cursoring options
  let filteredQuery :=
    (orderByDesc (fun r => r.1.1.Tx.Timestamp)
      (finalizedJoinQuery.filter (fun r => r.1.1.Tx.FromAddress == address))).take 100
  let deposits : List (Option BridgeDepositWithTransactionHashes) := List.replicate 100 none
  .ok (gormScan (filteredQuery.map (fun r =>
    { BridgeDeposit := r.1.1
      L1TransactionHash := scanTransactionHash (r.1.2.map (fun e => e.ContractEvent))
      FinalizedL2TransactionHash := scanTransactionHash (r.2.map (fun e => e.ContractEvent)) }))
    deposits)

/-- Go `BridgeWithdrawalsByAddress`.  The four query variables of the source
(`withdrawalsQuery`, `initiatedJoinQuery`, `finalizedJoinQuery`, `provenJoinQuery`) are one
gorm handle: a chain method called on the handle that `Table(..)` returned extends the
statement of that handle in place and returns the same handle.  The statement that
`filteredQuery` runs therefore carries the four joins in the order of the calls.  The slice is
made with length 100 before `Scan`. -/
def BridgeWithdrawalsByAddress (tables : ContractEventTables) (address : Address) (db : DB) :
    Except GoError (List (Option BridgeWithdrawalWithTransactionHashes)) :=
  -- LEFT JOIN l2_contract_events ON bridge_withdrawals.initiated_l2_event_guid = guid
  let initiatedJoinQuery := leftJoin db.bridge_withdrawals tables.l2_contract_events
    (fun w e => w.InitiatedL2EventGUID == e.ContractEvent.GUID)
  -- LEFT JOIN l1_contract_events AS finalized_l1_contract_events
  --   ON bridge_withdrawals.finalized_l1_event_guid = finalized_l1_contract_events.guid
  let finalizedJoinQuery := leftJoin initiatedJoinQuery tables.l1_contract_events
    (fun r e => r.1.FinalizedL1EventGUID == some e.ContractEvent.GUID)
  -- LEFT JOIN transaction_withdrawals
  --   ON bridge_withdrawals.withdrawal_hash = transaction_withdrawals.withdrawal_hash
  let provenJoinQuery := leftJoin finalizedJoinQuery db.transaction_withdrawals
    (fun r t => r.1.1.WithdrawalHash == t.WithdrawalHash)
  -- LEFT JOIN l1_contract_events AS proven_l1_contract_events
  --   ON transaction_withdrawals.proven_l1_event_guid = proven_l1_contract_events.guid
  let provenJoinQuery := leftJoin provenJoinQuery tables.l1_contract_events
    (fun r e => (r.2.bind (fun t => t.ProvenL1EventGUID)) == some e.ContractEvent.GUID)
  -- add in cursoring options
  let filteredQuery :=
    (orderByDesc (fun r => r.1.1.1.1.Tx.Timestamp)
      (provenJoinQuery.filter (fun r => r.1.1.1.1.Tx.FromAddress == address))).take 100
  let withdrawals : List (Option BridgeWithdrawalWithTransactionHashes) :=
    List.replicate 100 none
  .ok (gormScan (filteredQuery.map (fun r =>
    { BridgeWithdrawal := r.1.1.1.1
      L2TransactionHash := scanTransactionHash (r.1.1.1.2.map (fun e => e.ContractEvent))
      ProvenL1TransactionHash := scanTransactionHash (r.2.map (fun e => e.ContractEvent))
      FinalizedL1TransactionHash :=
        scanTransactionHash (r.1.1.2.map (fun e => e.ContractEvent)) }))
    withdrawals)

/-! ## Go maps and the processed events of a batch -/

/-- A Go `map[K]V`: the latest binding of a key is the first one in the list. -/
abbrev GoMap (κ ν : Type) := List (κ × ν)

/-- Go `m[k]` with the comma-ok result: `none` when the key is missing. -/
def GoMap.get {κ ν : Type} [DecidableEq κ] (m : GoMap κ ν) (k : κ) : Option ν :=
  (m.find? (fun kv => decide (kv.1 = k))).map (fun kv => kv.2)

/-- Go `m[k] = v` -/
def GoMap.set {κ ν : Type} (m : GoMap κ ν) (k : κ) (v : ν) : GoMap κ ν :=
  (k, v) :: m

/-- Go `ProcessedContractEventLogIndexKey{blockHash, index}` -/
abbrev ProcessedContractEventLogIndexKey := Hash × Nat

/-- Go `ProcessedContractEvents`: the fields the processors read (`eventByLogIndex`, `eventLog`) and
the events in the order they were added.  Both maps hold pointers, so a missing key reads as
`nil`. -/
structure ProcessedContractEvents where
  events : List ContractEvent
  eventByLogIndex : GoMap ProcessedContractEventLogIndexKey ContractEvent
  eventLog : GoMap UUID Log
deriving DecidableEq, Repr

/-- Go `NewProcessedContractEvents()` -/
def NewProcessedContractEvents : ProcessedContractEvents := ⟨[], [], []⟩

/-- Modelled from the spec: `ProcessedContractEvents.AddLog` (its file is not among the sources).
The spec: the helper accumulates all logs of a batch, assigning a fresh GUID to each, and
indexes them by (block hash, log index); a contract event carries block hash, transaction hash,
log index, event signature (topic 0) and the timestamp copied from the block.  `guid` is the
value `uuid.New()` returns for this log. -/
def ProcessedContractEvents.AddLog (p : ProcessedContractEvents) (guid : UUID) (log : Log)
    (time : Nat) : ProcessedContractEvents × ContractEvent :=
  let contractEvent : ContractEvent :=
    { GUID := guid, BlockHash := log.BlockHash, TransactionHash := log.TxHash,
      EventSignature := log.Topics.headD 0, LogIndex := log.Index, Timestamp := time }
  ({ events := p.events ++ [contractEvent],
     eventByLogIndex := p.eventByLogIndex.set (log.BlockHash, log.Index) contractEvent,
     eventLog := p.eventLog.set guid log }, contractEvent)

/-- Modelled from the spec: `database.BlockHeaderFromGethHeader` (its file is not among the
sources).  The spec: a block header row is hash, parent hash, number, timestamp; the L2 process
function builds the same row inline from `header.Hash()`, `ParentHash`, `Number`, `Time`. -/
def BlockHeaderFromGethHeader (header : Header) : BlockHeader :=
  { Hash := header.Hash, ParentHash := header.ParentHash, Number := header.Number,
    Timestamp := header.Time }

/-! ## Decoded events (types of the bindings, with the fields the processors read) -/

/-- Go `types.DepositTx` (go-ethereum): `To` is a pointer, `nil` for a contract creation. -/
structure DepositTx where
  SourceHash : Hash
  From : Address
  To : Option Address
  Mint : U256
  Value : U256
  Gas : Nat
  Data : Bytes
deriving DecidableEq, Repr

/-- A decoded portal `TransactionDeposited` event. -/
structure OptimismPortalTransactionDepositEvent where
  RawEvent : ContractEvent
  DepositTx : Indexer.DepositTx
  Version : U256
  OpaqueData : Bytes
deriving DecidableEq, Repr

/-- A decoded portal `WithdrawalProven` event. -/
structure OptimismPortalWithdrawalProvenEvent where
  RawEvent : ContractEvent
  WithdrawalHash : Hash
deriving DecidableEq, Repr

/-- A decoded portal `WithdrawalFinalized` event. -/
structure OptimismPortalWithdrawalFinalizedEvent where
  RawEvent : ContractEvent
  WithdrawalHash : Hash
deriving DecidableEq, Repr

/-- The answer of the portal view call `provenWithdrawals(hash)`. -/
structure OptimismPortalProvenWithdrawal where
  OutputRoot : Hash
  Timestamp : U256
  L2OutputIndex : U256
deriving DecidableEq, Repr

/-- A decoded standard-bridge initiated event (`DepositInitiated` on L1,
`WithdrawalInitiated` on L2). -/
structure StandardBridgeInitiatedEvent where
  RawEvent : ContractEvent
  CrossDomainMessengerNonce : U256
  LocalToken : Address
  RemoteToken : Address
  From : Address
  To : Address
  Amount : U256
  ExtraData : Bytes
deriving DecidableEq, Repr

/-- A decoded standard-bridge finalized event (`WithdrawalFinalized` on L1,
`DepositFinalized` on L2). -/
structure StandardBridgeFinalizedEvent where
  RawEvent : ContractEvent
  CrossDomainMessengerNonce : U256
deriving DecidableEq, Repr

/-- A decoded `MessagePassed` event of the L2-to-L1 message passer. -/
structure L2ToL1MessagePasserMessagePassed where
  RawEvent : ContractEvent
  WithdrawalHash : Hash
  Nonce : U256
  Sender : Address
  Target : Address
  Value : U256
  GasLimit : U256
  Data : Bytes
deriving DecidableEq, Repr

/-- Go `bindings.L2OutputOracleOutputProposed` -/
structure L2OutputOracleOutputProposed where
  OutputRoot : Hash
  L2OutputIndex : U256
  L2BlockNumber : U256
deriving DecidableEq, Repr

/-- Go `legacy_bindings.StateCommitmentChainStateBatchAppended` -/
structure StateCommitmentChainStateBatchAppended where
  BatchIndex : U256
  BatchRoot : Hash
  BatchSize : U256
  PrevTotalElements : U256
deriving DecidableEq, Repr

/-! ## Contract address sets -/

/-- Go `reflect.StructField`: the name of a field and its position in the struct. -/
structure StructField where
  Name : String
  Index : Nat
deriving DecidableEq, Repr

/-- The reflection view of a struct value all of whose fields have type `common.Address`: the
field names with the field values, in declaration order. -/
abbrev StructValue := List (String × Address)

/-- Go `reflect.VisibleFields(reflect.TypeOf(c))` for a struct without embedded structs: one
descriptor per field, in declaration order. -/
def VisibleFields (v : StructValue) : List StructField :=
  v.enum.map (fun entry => { Name := entry.2.1, Index := entry.1 })

/-- Go `v.FieldByName(name).Interface().(common.Address)`: the value of the field with this
name; `none` when the struct has no such field. -/
def FieldByName (v : StructValue) (name : String) : Option Address :=
  (v.find? (fun entry => entry.1 == name)).map (fun entry => entry.2)

/-- Go `L1Contracts` (l1_processor.go) -/
structure L1Contracts where
  OptimismPortal : Address
  L2OutputOracle : Address
  L1CrossDomainMessenger : Address
  L1StandardBridge : Address
  L1ERC721Bridge : Address
deriving DecidableEq, Repr

/-- Go `reflect.ValueOf(c)` for the value `c` of type `L1Contracts`. -/
def L1Contracts.reflect (c : L1Contracts) : StructValue :=
  [("OptimismPortal", c.OptimismPortal), ("L2OutputOracle", c.L2OutputOracle),
   ("L1CrossDomainMessenger", c.L1CrossDomainMessenger),
   ("L1StandardBridge", c.L1StandardBridge), ("L1ERC721Bridge", c.L1ERC721Bridge)]

/-- Go `L1Contracts.ToSlice`: for every visible field of the struct, in the order
`reflect.VisibleFields` lists them, the value `FieldByName` finds under the name of the field.
(A name that resolved to no field would panic in `Interface()`; the names are those of the same
struct.) -/
def L1Contracts.ToSlice (c : L1Contracts) : List Address :=
  let fields := VisibleFields c.reflect
  let v := c.reflect
  fields.filterMap (fun field => FieldByName v field.Name)

/-- Go `L2Contracts` (l2_processor.go) -/
structure L2Contracts where
  L2CrossDomainMessenger : Address
  L2StandardBridge : Address
  L2ERC721Bridge : Address
  L2ToL1MessagePasser : Address
deriving DecidableEq, Repr

/-- Go `reflect.ValueOf(c)` for the value `c` of type `L2Contracts`. -/
def L2Contracts.reflect (c : L2Contracts) : StructValue :=
  [("L2CrossDomainMessenger", c.L2CrossDomainMessenger),
   ("L2StandardBridge", c.L2StandardBridge), ("L2ERC721Bridge", c.L2ERC721Bridge),
   ("L2ToL1MessagePasser", c.L2ToL1MessagePasser)]

/-- Go `L2Contracts.ToSlice`: as `L1Contracts.ToSlice`. -/
def L2Contracts.ToSlice (c : L2Contracts) : List Address :=
  let fields := VisibleFields c.reflect
  let v := c.reflect
  fields.filterMap (fun field => FieldByName v field.Name)

/-- Go `DevL1Contracts()` (l1_processor.go): the addresses `0x69..00` to `0x69..04`. -/
def DevL1Contracts : L1Contracts :=
  { OptimismPortal := 0x6900000000000000000000000000000000000000
    L2OutputOracle := 0x6900000000000000000000000000000000000001
    L1CrossDomainMessenger := 0x6900000000000000000000000000000000000002
    L1StandardBridge := 0x6900000000000000000000000000000000000003
    L1ERC721Bridge := 0x6900000000000000000000000000000000000004 }

/-- Go `L2ContractPredeploys()` (l2_processor.go) -/
def L2ContractPredeploys : L2Contracts :=
  { L2CrossDomainMessenger := 0x4200000000000000000000000000000000000007
    L2StandardBridge := 0x4200000000000000000000000000000000000010
    L2ERC721Bridge := 0x4200000000000000000000000000000000000014
    L2ToL1MessagePasser := 0x4200000000000000000000000000000000000016 }

/-! ## Collaborators of the processors

The chain client, the ABI decoders, the event extractors of `processor/events.go`, the
`Blocks` / `ContractEvents` sub-stores and `uuid.New()` are outside the embedded sources.  The
processors take what these return as parameters. -/

/-- Collaborators of the L1 processor. -/
structure L1Env where
  /-- Go `rawEthClient.FilterLogs` for `FromBlock`, `ToBlock`, `Addresses` -/
  FilterLogs : U256 → U256 → List Address → Except GoError (List Log)
  /-- Go `checkpointAbi.l2OutputOracle.Events["OutputProposed"].ID` -/
  outputProposedEventSig : Hash
  /-- Go `checkpointAbi.legacyStateCommitmentChain.Events["StateBatchAppended"].ID` -/
  legacyStateBatchAppendedEventSig : Hash
  /-- Go `UnpackLog(&outputProposed, log, "OutputProposed", ..)` -/
  UnpackOutputProposed : Log → Except GoError L2OutputOracleOutputProposed
  /-- Go `UnpackLog(&stateBatchAppended, log, "StateBatchAppended", ..)` -/
  UnpackStateBatchAppended : Log → Except GoError StateCommitmentChainStateBatchAppended
  /-- the GUID `uuid.New()` gives the event of the `i`-th log of the batch -/
  eventGUID : Nat → UUID
  /-- what a write call to `Blocks` / `ContractEvents` returns, given the calls received before -/
  storeResult : List StoreCall → StoreCall → Option GoError
  /-- Go `db.Blocks.LatestL2BlockHeader()` -/
  LatestL2BlockHeader : Except GoError (Option L2BlockHeader)
  OptimismPortalTransactionDepositEvents :
    ProcessedContractEvents → Except GoError (List OptimismPortalTransactionDepositEvent)
  OptimismPortalWithdrawalProvenEvents :
    ProcessedContractEvents → Except GoError (List OptimismPortalWithdrawalProvenEvent)
  OptimismPortalWithdrawalFinalizedEvents :
    ProcessedContractEvents → Except GoError (List OptimismPortalWithdrawalFinalizedEvent)
  /-- Go `OptimismPortalQueryProvenWithdrawal(rawEthClient, portal, withdrawalHash)` -/
  OptimismPortalQueryProvenWithdrawal :
    Address → Hash → Except GoError OptimismPortalProvenWithdrawal
  StandardBridgeInitiatedEvents :
    ProcessedContractEvents → Except GoError (List StandardBridgeInitiatedEvent)
  StandardBridgeFinalizedEvents :
    ProcessedContractEvents → Except GoError (List StandardBridgeFinalizedEvent)
  /-- Go `derive.UnmarshalDepositLogEvent(log)`; the argument is a pointer and may be `nil` -/
  UnmarshalDepositLogEvent : Option Log → Res DepositTx
  /-- the GUID `uuid.New()` gives the `i`-th bridge deposit of the batch -/
  bridgeGUID : Nat → UUID

/-- Collaborators of the L2 processor. -/
structure L2Env where
  /-- Go `rawEthClient.FilterLogs` for `FromBlock`, `ToBlock`, `Addresses` -/
  FilterLogs : U256 → U256 → List Address → Except GoError (List Log)
  /-- the GUID `uuid.New()` gives the event of the `i`-th log of the batch -/
  eventGUID : Nat → UUID
  /-- what a write call to `Blocks` / `ContractEvents` returns, given the calls received before -/
  storeResult : List StoreCall → StoreCall → Option GoError
  L2ToL1MessagePasserMessagesPassed :
    ProcessedContractEvents → Except GoError (List L2ToL1MessagePasserMessagePassed)
  /-- the error of `bindings.L2ToL1MessagePasserMetaData.GetAbi()` -/
  GetAbi : Option GoError
  StandardBridgeInitiatedEvents :
    ProcessedContractEvents → Except GoError (List StandardBridgeInitiatedEvent)
  StandardBridgeFinalizedEvents :
    ProcessedContractEvents → Except GoError (List StandardBridgeFinalizedEvent)
  /-- Go `UnpackLog(&msgPassedData, msgPassedLog, "MessagePassed", ..)`; the log is a pointer and
  may be `nil` -/
  UnpackMessagePassed : Option Log → Res L2ToL1MessagePasserMessagePassed
  /-- the GUID `uuid.New()` gives the `i`-th bridge withdrawal of the batch -/
  bridgeGUID : Nat → UUID

/-- A write call to the `Blocks` / `ContractEvents` sub-stores: the call is recorded and its
result is the one the environment supplies. -/
def DB.store (storeResult : List StoreCall → StoreCall → Option GoError) (call : StoreCall)
    (db : DB) : DB × Option GoError :=
  ({ db with calls := db.calls ++ [call] }, storeResult db.calls call)

/-- A `for _, x := range xs` loop whose body may return an error or panic: the loop stops at
the first body that does not end normally. -/
def forRange {α : Type} (body : α → DB → DB × Outcome) : List α → DB → DB × Outcome
  | [], db => (db, .nil)
  | x :: rest, db =>
    match body x db with
    | (db, .nil) => forRange body rest db
    | stop => stop

/-- A loop `for i, x := range xs` that fills `out[i]` from `x`, starting at index `i`,
and stops at the first element whose body returns an error or panics. -/
def buildRange {α β : Type} (body : Nat → α → Res β) : Nat → List α → Res (List β)
  | _, [] => .ok []
  | i, x :: rest =>
    match body i x with
    | .ok y =>
      match buildRange body (i + 1) rest with
      | .ok ys => .ok (y :: ys)
      | .err e => .err e
      | .panic r => .panic r
    | .err e => .err e
    | .panic r => .panic r

/-! ## L1 processor (l1_processor.go) -/

/-- The row `l1ProcessContractEventsBridgeTransactions` builds for one portal deposit event. -/
def l1TransactionDeposit (depositEvent : OptimismPortalTransactionDepositEvent) :
    TransactionDeposit :=
  { DepositHash := depositEvent.DepositTx.SourceHash
    InitiatedL1EventGUID := depositEvent.RawEvent.GUID
    Version := depositEvent.Version
    OpaqueData := depositEvent.OpaqueData
    GasLimit := depositEvent.DepositTx.Gas
    Tx :=
      { FromAddress := depositEvent.DepositTx.From
        ToAddress := depositEvent.DepositTx.From
        Amount := depositEvent.DepositTx.Value
        Data := depositEvent.DepositTx.Data
        Timestamp := depositEvent.RawEvent.Timestamp } }

/-- Body of the loop "(2) prove withdrawals" of `l1ProcessContractEventsBridgeTransactions`. -/
def l1ProveWithdrawal (env : L1Env) (l1Contracts : L1Contracts)
    (latestL2Header : Option L2BlockHeader)
    (provenWithdrawal : OptimismPortalWithdrawalProvenEvent) (db : DB) : DB × Outcome :=
  let withdrawalHash := provenWithdrawal.WithdrawalHash
  match TransactionWithdrawalByHash withdrawalHash db with
  | .error e => (db, .err e)
  | .ok none =>
    match env.OptimismPortalQueryProvenWithdrawal l1Contracts.OptimismPortal withdrawalHash with
    | .error e => (db, .err e)
    | .ok provenWithdrawal =>
      match latestL2Header with
      | none => (db, .err (.New "waiting for L2Processor to catch up"))
      | some latestL2Header =>
        if provenWithdrawal.L2OutputIndex > latestL2Header.BlockHeader.Number then
          (db, .err (.New "waiting for L2Processor to catch up"))
        else
          (db, .err (.New "withdrawal missing!"))
  | .ok (some _) =>
    match MarkTransactionWithdrawalProvenEvent withdrawalHash provenWithdrawal.RawEvent.GUID db
    with
    | (db, some e) => (db, .err e)
    | (db, none) => (db, .nil)

/-- Body of the loop "(2) finalize withdrawals" of
`l1ProcessContractEventsBridgeTransactions`. -/
def l1FinalizeWithdrawal (finalizedWithdrawal : OptimismPortalWithdrawalFinalizedEvent)
    (db : DB) : DB × Outcome :=
  let withdrawalHash := finalizedWithdrawal.WithdrawalHash
  match TransactionWithdrawalByHash withdrawalHash db with
  | .error e => (db, .err e)
  | .ok none => (db, .err (.New "withdrawal missing!"))
  | .ok (some _) =>
    match MarkTransactionWithdrawalFinalizedEvent withdrawalHash
        finalizedWithdrawal.RawEvent.GUID db with
    | (db, some e) => (db, .err e)
    | (db, none) => (db, .nil)

/-- Go `l1ProcessContractEventsBridgeTransactions` -/
def l1ProcessContractEventsBridgeTransactions (env : L1Env) (l1Contracts : L1Contracts)
    (events : ProcessedContractEvents) (db : DB) : DB × Outcome :=
  -- (1) detect deposits
  match env.OptimismPortalTransactionDepositEvents events with
  | .error e => (db, .err e)
  | .ok portalDeposits =>
    let transactionDeposits := portalDeposits.map l1TransactionDeposit
    -- the error of `StoreTransactionDeposits` is not read
    let db := if transactionDeposits.length > 0 then
      (StoreTransactionDeposits transactionDeposits db).1 else db
    -- (2) prove withdrawals
    match env.LatestL2BlockHeader with
    | .error _ => (db, .nil)
    | .ok latestL2Header =>
      match env.OptimismPortalWithdrawalProvenEvents events with
      | .error e => (db, .err e)
      | .ok provenWithdrawals =>
        match forRange (l1ProveWithdrawal env l1Contracts latestL2Header) provenWithdrawals db
        with
        | (db, .nil) =>
          -- (2) finalize withdrawals
          match env.OptimismPortalWithdrawalFinalizedEvents events with
          | .error e => (db, .err e)
          | .ok finalizedWithdrawals => forRange l1FinalizeWithdrawal finalizedWithdrawals db
        | stop => stop

/-- Body of the loop over the initiated deposits of `l1ProcessContractEventsStandardBridge`:
the bridge deposit built for the `i`-th `DepositInitiated` event.  Reading a field of a `nil`
map entry panics. -/
def l1BridgeDeposit (env : L1Env) (events : ProcessedContractEvents) (i : Nat)
    (initiatedBridgeEvent : StandardBridgeInitiatedEvent) : Res BridgeDeposit :=
  match events.eventLog.get initiatedBridgeEvent.RawEvent.GUID with
  | none => .panic "nil pointer dereference"
  | some log =>
    -- extract the deposit hash from the TransactionDeposited event
    match events.eventByLogIndex.get (log.BlockHash, (log.Index + 1) % 2 ^ 64) with
    | none => .panic "nil pointer dereference"
    | some adjacent =>
      let txDepositLog := events.eventLog.get adjacent.GUID
      match env.UnmarshalDepositLogEvent txDepositLog with
      | .err e => .err e
      | .panic r => .panic r
      | .ok depositTx =>
        .ok
          { GUID := env.bridgeGUID i
            InitiatedL1EventGUID := initiatedBridgeEvent.RawEvent.GUID
            DepositHash := depositTx.SourceHash
            CrossDomainMessengerNonce := initiatedBridgeEvent.CrossDomainMessengerNonce
            FinalizedL2EventGUID := none
            TokenPair :=
              { L1TokenAddress := initiatedBridgeEvent.LocalToken
                L2TokenAddress := initiatedBridgeEvent.RemoteToken }
            Tx :=
              { FromAddress := initiatedBridgeEvent.From
                ToAddress := initiatedBridgeEvent.To
                Amount := initiatedBridgeEvent.Amount
                Data := initiatedBridgeEvent.ExtraData
                Timestamp := initiatedBridgeEvent.RawEvent.Timestamp } }

/-- Body of the loop "Finalized Withdrawals" of `l1ProcessContractEventsStandardBridge`. -/
def l1FinalizeBridgeWithdrawal (finalizedWithdrawalEvent : StandardBridgeFinalizedEvent)
    (db : DB) : DB × Outcome :=
  let nonce := finalizedWithdrawalEvent.CrossDomainMessengerNonce
  match BridgeWithdrawalByMessageNonce nonce db with
  | .error e => (db, .err e)
  | .ok none => (db, .err (.New "missing withdrawal message"))
  | .ok (some withdrawal) =>
    match MarkFinalizedBridgeWithdrawalEvent withdrawal.GUID
        finalizedWithdrawalEvent.RawEvent.GUID db with
    | (db, some e) => (db, .err e)
    | (db, none) => (db, .nil)

/-- Go `l1ProcessContractEventsStandardBridge` -/
def l1ProcessContractEventsStandardBridge (env : L1Env) (events : ProcessedContractEvents)
    (db : DB) : DB × Outcome :=
  -- Process New Deposits
  match env.StandardBridgeInitiatedEvents events with
  | .error e => (db, .err e)
  | .ok initiatedDepositEvents =>
    match buildRange (l1BridgeDeposit env events) 0 initiatedDepositEvents with
    | .err e => (db, .err e)
    | .panic r => (db, .panic r)
    | .ok deposits =>
      match (if deposits.length > 0 then StoreBridgeDeposits deposits db else (db, none)) with
      | (db, some e) => (db, .err e)
      | (db, none) =>
        -- Finalized Withdrawals
        match env.StandardBridgeFinalizedEvents events with
        | .error e => (db, .err e)
        | .ok finalizedWithdrawalEvents =>
          forRange l1FinalizeBridgeWithdrawal finalizedWithdrawalEvents db

/-- Go `headerMap[header.Hash()] = header` for every header of the batch. -/
def headerMapOf (headers : List Header) : GoMap Hash Header :=
  headers.foldl (fun m header => m.set header.Hash header) []

/-- What the log loop of `l1ProcessFn` has accumulated. -/
structure L1Logs where
  processedContractEvents : ProcessedContractEvents
  l1HeadersOfInterest : GoMap Hash Bool
  l1ContractEvents : List L1ContractEvent
  outputProposals : List OutputProposal
  legacyStateBatches : List LegacyStateBatch
deriving DecidableEq, Repr

/-- Body of the loop `for i := range logs` of `l1ProcessFn`. -/
def l1ProcessLog (env : L1Env) (headerMap : GoMap Hash Header) (i : Nat) (log : Log)
    (acc : L1Logs) : Except GoError L1Logs :=
  match headerMap.get log.BlockHash with
  | none => .error (.New "parsed log with a block hash not in this batch")
  | some header =>
    let (processedContractEvents, contractEvent) :=
      acc.processedContractEvents.AddLog (env.eventGUID i) log header.Time
    let acc := { acc with
      processedContractEvents := processedContractEvents
      l1HeadersOfInterest := acc.l1HeadersOfInterest.set log.BlockHash true
      l1ContractEvents := acc.l1ContractEvents ++ [⟨contractEvent⟩] }
    -- Track Checkpoint Events for L2
    if contractEvent.EventSignature = env.outputProposedEventSig then
      match env.UnpackOutputProposed log with
      | .error e => .error e
      | .ok outputProposed =>
        .ok { acc with outputProposals := acc.outputProposals ++
          [{ OutputRoot := outputProposed.OutputRoot
             L2OutputIndex := outputProposed.L2OutputIndex
             L2BlockNumber := outputProposed.L2BlockNumber
             L1ContractEventGUID := contractEvent.GUID }] }
    else if contractEvent.EventSignature = env.legacyStateBatchAppendedEventSig then
      match env.UnpackStateBatchAppended log with
      | .error e => .error e
      | .ok stateBatchAppended =>
        .ok { acc with legacyStateBatches := acc.legacyStateBatches ++
          [{ Index := stateBatchAppended.BatchIndex % 2 ^ 64
             Root := stateBatchAppended.BatchRoot
             Size := stateBatchAppended.BatchSize % 2 ^ 64
             PrevTotal := stateBatchAppended.PrevTotalElements % 2 ^ 64
             L1ContractEventGUID := contractEvent.GUID }] }
    else .ok acc

/-- The loop `for i := range logs` of `l1ProcessFn`, from index `i`. -/
def l1ProcessLogs (env : L1Env) (headerMap : GoMap Hash Header) :
    Nat → List Log → L1Logs → Except GoError L1Logs
  | _, [], acc => .ok acc
  | i, log :: rest, acc =>
    match l1ProcessLog env headerMap i log acc with
    | .error e => .error e
    | .ok acc => l1ProcessLogs env headerMap (i + 1) rest acc

/-- Section "Aggregate applicable L1 Blocks": the headers of the batch, in batch order, whose hash is
a key of `l1HeadersOfInterest`. -/
def indexedL1Headers (headers : List Header) (l1HeadersOfInterest : GoMap Hash Bool) :
    List L1BlockHeader :=
  headers.filterMap (fun header =>
    match l1HeadersOfInterest.get header.Hash with
    | none => none
    | some _ => some ⟨BlockHeaderFromGethHeader header⟩)

/-- Section "Update Database" of `l1ProcessFn`. -/
def l1UpdateDatabase (env : L1Env) (l1Contracts : L1Contracts)
    (indexedL1Headers : List L1BlockHeader) (logs : L1Logs) (db : DB) : DB × Outcome :=
  if indexedL1Headers.length > 0 then
    match db.store env.storeResult (.StoreL1BlockHeaders indexedL1Headers) with
    | (db, some e) => (db, .err e)
    | (db, none) =>
      match db.store env.storeResult (.StoreL1ContractEvents logs.l1ContractEvents) with
      | (db, some e) => (db, .err e)
      | (db, none) =>
        match (if logs.outputProposals.length > 0 then
            db.store env.storeResult (.StoreOutputProposals logs.outputProposals)
          else (db, none)) with
        | (db, some e) => (db, .err e)
        | (db, none) =>
          -- forward along contract events to bridge txs processor
          match l1ProcessContractEventsBridgeTransactions env l1Contracts
              logs.processedContractEvents db with
          | (db, .nil) =>
            -- forward along contract events to standard bridge processor
            l1ProcessContractEventsStandardBridge env logs.processedContractEvents db
          | stop => stop
  else (db, .nil)

/-- The function `l1ProcessFn` returns, applied to a database and a batch of headers. -/
def l1ProcessFn (env : L1Env) (l1Contracts : L1Contracts) (headers : List Header) (db : DB) :
    DB × Outcome :=
  let contractAddrs := l1Contracts.ToSlice
  let headerMap := headerMapOf headers
  match headers.head?, headers.getLast? with
  | some first, some last =>
    match env.FilterLogs first.Number last.Number contractAddrs with
    | .error e => (db, .err e)
    | .ok logs =>
      match l1ProcessLogs env headerMap 0 logs ⟨NewProcessedContractEvents, [], [], [], []⟩ with
      | .error e => (db, .err e)
      | .ok acc =>
        l1UpdateDatabase env l1Contracts (indexedL1Headers headers acc.l1HeadersOfInterest) acc
          db
  | _, _ => (db, .panic "index out of range")

/-! ## L2 processor (l2_processor.go) -/

/-- The row `l2ProcessContractEventsBridgeTransactions` builds for one `MessagePassed` event;
the two back-references are left unset (`nil`). -/
def l2TransactionWithdrawal (withdrawalEvent : L2ToL1MessagePasserMessagePassed) :
    TransactionWithdrawal :=
  { WithdrawalHash := withdrawalEvent.WithdrawalHash
    InitiatedL2EventGUID := withdrawalEvent.RawEvent.GUID
    ProvenL1EventGUID := none
    FinalizedL1EventGUID := none
    Nonce := withdrawalEvent.Nonce
    GasLimit := withdrawalEvent.GasLimit
    Tx :=
      { FromAddress := withdrawalEvent.Sender
        ToAddress := withdrawalEvent.Target
        Amount := withdrawalEvent.Value
        Data := withdrawalEvent.Data
        Timestamp := withdrawalEvent.RawEvent.Timestamp } }

/-- Go `l2ProcessContractEventsBridgeTransactions` -/
def l2ProcessContractEventsBridgeTransactions (env : L2Env) (events : ProcessedContractEvents)
    (db : DB) : DB × Outcome :=
  -- detect transaction withdrawals
  match env.L2ToL1MessagePasserMessagesPassed events with
  | .error e => (db, .err e)
  | .ok messagesPassed =>
    let transactionWithdrawals := messagesPassed.map l2TransactionWithdrawal
    -- the error of `StoreTransactionWithdrawals` is not read
    let db := if transactionWithdrawals.length > 0 then
      (StoreTransactionWithdrawals transactionWithdrawals db).1 else db
    (db, .nil)

/-- Body of the loop over the initiated withdrawals of `l2ProcessContractEventsStandardBridge`:
the bridge withdrawal built for the `i`-th `WithdrawalInitiated` event.  Reading a field of a
`nil` map entry panics. -/
def l2BridgeWithdrawal (env : L2Env) (events : ProcessedContractEvents) (i : Nat)
    (initiatedBridgeEvent : StandardBridgeInitiatedEvent) : Res BridgeWithdrawal :=
  match events.eventLog.get initiatedBridgeEvent.RawEvent.GUID with
  | none => .panic "nil pointer dereference"
  | some log =>
    -- extract the withdrawal hash from the MessagePassed event
    match events.eventByLogIndex.get (log.BlockHash, (log.Index + 1) % 2 ^ 64) with
    | none => .panic "nil pointer dereference"
    | some adjacent =>
      let msgPassedLog := events.eventLog.get adjacent.GUID
      match env.UnpackMessagePassed msgPassedLog with
      | .err e => .err e
      | .panic r => .panic r
      | .ok msgPassedData =>
        .ok
          { GUID := env.bridgeGUID i
            InitiatedL2EventGUID := initiatedBridgeEvent.RawEvent.GUID
            WithdrawalHash := msgPassedData.WithdrawalHash
            CrossDomainMessengerNonce := initiatedBridgeEvent.CrossDomainMessengerNonce
            FinalizedL1EventGUID := none
            TokenPair :=
              { L1TokenAddress := initiatedBridgeEvent.LocalToken
                L2TokenAddress := initiatedBridgeEvent.RemoteToken }
            Tx :=
              { FromAddress := initiatedBridgeEvent.From
                ToAddress := initiatedBridgeEvent.To
                Amount := initiatedBridgeEvent.Amount
                Data := initiatedBridgeEvent.ExtraData
                Timestamp := initiatedBridgeEvent.RawEvent.Timestamp } }

/-- Body of the loop "Finalize Deposits" of `l2ProcessContractEventsStandardBridge`. -/
def l2FinalizeBridgeDeposit (finalizedBridgeEvent : StandardBridgeFinalizedEvent) (db : DB) :
    DB × Outcome :=
  let nonce := finalizedBridgeEvent.CrossDomainMessengerNonce
  match BridgeDepositByMessageNonce nonce db with
  | .error e => (db, .err e)
  | .ok none =>
    -- Check if the L1Processor is behind or really has missed an event
    match LatestBridgeDepositMessageNonce db with
    | .error e => (db, .err e)
    | .ok none => (db, .err (.New "waiting for L1Processor to catch up"))
    | .ok (some latestNonce) =>
      if nonce > latestNonce then
        (db, .err (.New "waiting for L1Processor to catch up"))
      else
        (db, .err (.New "missing deposit message"))
  | .ok (some deposit) =>
    match MarkFinalizedBridgeDepositEvent deposit.GUID finalizedBridgeEvent.RawEvent.GUID db with
    | (db, some e) => (db, .err e)
    | (db, none) => (db, .nil)

/-- Go `l2ProcessContractEventsStandardBridge` -/
def l2ProcessContractEventsStandardBridge (env : L2Env) (events : ProcessedContractEvents)
    (db : DB) : DB × Outcome :=
  match env.GetAbi with
  | some e => (db, .err e)
  | none =>
    -- Process New Withdrawals
    match env.StandardBridgeInitiatedEvents events with
    | .error e => (db, .err e)
    | .ok initiatedWithdrawalEvents =>
      match buildRange (l2BridgeWithdrawal env events) 0 initiatedWithdrawalEvents with
      | .err e => (db, .err e)
      | .panic r => (db, .panic r)
      | .ok withdrawals =>
        match (if withdrawals.length > 0 then StoreBridgeWithdrawals withdrawals db
          else (db, none)) with
        | (db, some e) => (db, .err e)
        | (db, none) =>
          -- Finalize Deposits
          match env.StandardBridgeFinalizedEvents events with
          | .error e => (db, .err e)
          | .ok finalizationBridgeEvents =>
            forRange l2FinalizeBridgeDeposit finalizationBridgeEvents db

/-- The rows `l2ProcessFn` builds under "Index all L2 blocks", one per header of the batch. -/
def l2HeadersOf (headers : List Header) : List L2BlockHeader :=
  headers.map (fun header =>
    ⟨{ Hash := header.Hash, ParentHash := header.ParentHash, Number := header.Number,
       Timestamp := header.Time }⟩)

/-- What the log loop of `l2ProcessFn` has accumulated. -/
structure L2Logs where
  processedContractEvents : ProcessedContractEvents
  l2ContractEvents : List L2ContractEvent
deriving DecidableEq, Repr

/-- The loop `for i := range logs` of `l2ProcessFn`, from index `i`. -/
def l2ProcessLogs (env : L2Env) (l2HeaderMap : GoMap Hash Header) :
    Nat → List Log → L2Logs → Except GoError L2Logs
  | _, [], acc => .ok acc
  | i, log :: rest, acc =>
    match l2HeaderMap.get log.BlockHash with
    | none => .error (.New "parsed log with a block hash not in this batch")
    | some header =>
      let (processedContractEvents, contractEvent) :=
        acc.processedContractEvents.AddLog (env.eventGUID i) log header.Time
      l2ProcessLogs env l2HeaderMap (i + 1) rest
        { processedContractEvents := processedContractEvents
          l2ContractEvents := acc.l2ContractEvents ++ [⟨contractEvent⟩] }

/-- Section "Update Database" of `l2ProcessFn`. -/
def l2UpdateDatabase (env : L2Env) (l2Headers : List L2BlockHeader) (logs : L2Logs) (db : DB) :
    DB × Outcome :=
  match db.store env.storeResult (.StoreL2BlockHeaders l2Headers) with
  | (db, some e) => (db, .err e)
  | (db, none) =>
    if logs.l2ContractEvents.length > 0 then
      match db.store env.storeResult (.StoreL2ContractEvents logs.l2ContractEvents) with
      | (db, some e) => (db, .err e)
      | (db, none) =>
        -- forward along contract events to bridge txs processor
        match l2ProcessContractEventsBridgeTransactions env logs.processedContractEvents db with
        | (db, .nil) =>
          -- forward along contract events to standard bridge processor
          l2ProcessContractEventsStandardBridge env logs.processedContractEvents db
        | stop => stop
    else (db, .nil)

/-- The function `l2ProcessFn` returns, applied to a database and a batch of headers. -/
def l2ProcessFn (env : L2Env) (l2Contracts : L2Contracts) (headers : List Header) (db : DB) :
    DB × Outcome :=
  let contractAddrs := l2Contracts.ToSlice
  -- Index all L2 blocks
  let l2Headers := l2HeadersOf headers
  let l2HeaderMap := headerMapOf headers
  match headers.head?, headers.getLast? with
  | some first, some last =>
    -- Watch for Contract Events
    match env.FilterLogs first.Number last.Number contractAddrs with
    | .error e => (db, .err e)
    | .ok logs =>
      match l2ProcessLogs env l2HeaderMap 0 logs ⟨NewProcessedContractEvents, []⟩ with
      | .error e => (db, .err e)
      | .ok acc => l2UpdateDatabase env l2Headers acc db
  | _, _ => (db, .panic "index out of range")

/-! ## Histories of the transaction-withdrawal store -/

/-- A write to the transaction-withdrawal table: the insert done by the L2 processor for the
`MessagePassed` events of a batch, or one of the two marking calls. -/
inductive WithdrawalOp where
  | store (messagesPassed : List L2ToL1MessagePasserMessagePassed)
  | markProven (withdrawalHash : Hash) (guid : UUID)
  | markFinalized (withdrawalHash : Hash) (guid : UUID)
deriving DecidableEq, Repr

/-- The database after one write (a failing write leaves it as it was). -/
def WithdrawalOp.apply : WithdrawalOp → DB → DB
  | .store messagesPassed, db =>
    (StoreTransactionWithdrawals (messagesPassed.map l2TransactionWithdrawal) db).1
  | .markProven withdrawalHash guid, db =>
    (MarkTransactionWithdrawalProvenEvent withdrawalHash guid db).1
  | .markFinalized withdrawalHash guid, db =>
    (MarkTransactionWithdrawalFinalizedEvent withdrawalHash guid db).1

/-- The database reached from the empty one by a sequence of writes. -/
def runWithdrawalOps (ops : List WithdrawalOp) : DB :=
  ops.foldl (fun db op => op.apply db) DB.empty

/-- Finalized implies proven, for every row of the transaction-withdrawal table. -/
def FinalizedImpliesProven (db : DB) : Prop :=
  ∀ w ∈ db.transaction_withdrawals, w.FinalizedL1EventGUID ≠ none → w.ProvenL1EventGUID ≠ none

/-! ## Vocabulary of the statements -/

/-- The database `l1ProcessContractEventsBridgeTransactions` holds after step "(1) detect
deposits". -/
def afterDeposits (portalDeposits : List OptimismPortalTransactionDepositEvent) (db : DB) : DB :=
  if (portalDeposits.map l1TransactionDeposit).length > 0 then
    (StoreTransactionDeposits (portalDeposits.map l1TransactionDeposit) db).1 else db

/-- The L1 headers a write call hands to the `Blocks` sub-store. -/
def StoreCall.l1Headers : StoreCall → List L1BlockHeader
  | .StoreL1BlockHeaders headers => headers
  | _ => []

/-- The L2 headers a write call hands to the `Blocks` sub-store. -/
def StoreCall.l2Headers : StoreCall → List L2BlockHeader
  | .StoreL2BlockHeaders headers => headers
  | _ => []

/-- All L1 headers handed to `StoreL1BlockHeaders`, in the order they were handed over. -/
def DB.storedL1Headers (db : DB) : List L1BlockHeader := db.calls.flatMap StoreCall.l1Headers

/-- All L2 headers handed to `StoreL2BlockHeaders`, in the order they were handed over. -/
def DB.storedL2Headers (db : DB) : List L2BlockHeader := db.calls.flatMap StoreCall.l2Headers

/-- Every log that carries the `OutputProposed` or the `StateBatchAppended` signature is
unpacked without error by the ABI decoder. -/
def checkpointsDecode (env : L1Env) (logs : List Log) : Bool :=
  logs.all (fun log =>
    if log.Topics.headD 0 = env.outputProposedEventSig then
      match env.UnpackOutputProposed log with
      | .ok _ => true
      | .error _ => false
    else if log.Topics.headD 0 = env.legacyStateBatchAppendedEventSig then
      match env.UnpackStateBatchAppended log with
      | .ok _ => true
      | .error _ => false
    else true)

/-! ## Concrete environments and batches used to instantiate the statements -/

/-- An L1 environment whose chain has no logs and whose collaborators return nothing. -/
def L1Env.idle : L1Env :=
  { FilterLogs := fun _ _ _ => .ok []
    outputProposedEventSig := 501
    legacyStateBatchAppendedEventSig := 502
    UnpackOutputProposed := fun _ => .error (.external 1)
    UnpackStateBatchAppended := fun _ => .error (.external 2)
    eventGUID := fun i => 1000 + i
    storeResult := fun _ _ => none
    LatestL2BlockHeader := .ok none
    OptimismPortalTransactionDepositEvents := fun _ => .ok []
    OptimismPortalWithdrawalProvenEvents := fun _ => .ok []
    OptimismPortalWithdrawalFinalizedEvents := fun _ => .ok []
    OptimismPortalQueryProvenWithdrawal := fun _ _ => .error (.external 3)
    StandardBridgeInitiatedEvents := fun _ => .ok []
    StandardBridgeFinalizedEvents := fun _ => .ok []
    UnmarshalDepositLogEvent := fun _ => .err (.external 4)
    bridgeGUID := fun i => 2000 + i }

/-- An L2 environment whose chain has no logs and whose collaborators return nothing. -/
def L2Env.idle : L2Env :=
  { FilterLogs := fun _ _ _ => .ok []
    eventGUID := fun i => 3000 + i
    storeResult := fun _ _ => none
    L2ToL1MessagePasserMessagesPassed := fun _ => .ok []
    GetAbi := none
    StandardBridgeInitiatedEvents := fun _ => .ok []
    StandardBridgeFinalizedEvents := fun _ => .ok []
    UnpackMessagePassed := fun _ => .err (.external 5)
    bridgeGUID := fun i => 4000 + i }

/-- A batch of 500 consecutive headers: the header with number `n` has hash `1000 + n`. -/
def batch500 : List Header :=
  (List.range 500).map (fun n => ⟨1000 + n, 999 + n, n, 12 * n⟩)

/-- Two logs of the portal, one in the block with number 17 and one in the block with
number 342 of `batch500`. -/
def twoLogs : List Log :=
  [⟨0x6900000000000000000000000000000000000000, [77], [], 1017, 9001, 0⟩,
   ⟨0x6900000000000000000000000000000000000000, [78], [], 1342, 9002, 3⟩]

/-- Two fetched logs: the first in the block with hash 11, the second in a block with
hash 999. -/
def strayLogs : List Log :=
  [⟨1, [77], [], 11, 9001, 0⟩, ⟨1, [78], [], 999, 9002, 1⟩]

/-- A `DepositInitiated` log at index 4 of the block with hash 11, followed by the portal
`TransactionDeposited` log at index 5 of the same block, registered with GUIDs 1000 and 1001. -/
def depositEvents : ProcessedContractEvents :=
  ((NewProcessedContractEvents.AddLog 1000 ⟨3, [77], [], 11, 9001, 4⟩ 100).1.AddLog 1001
    ⟨0, [78], [555], 11, 9001, 5⟩ 100).1

/-- An L1 environment with one `DepositInitiated` event (GUID 1000), whose deposit-log decoder
reads the source hash from the first data word of the log. -/
def depositEnv : L1Env :=
  { L1Env.idle with
    StandardBridgeInitiatedEvents := fun _ =>
      .ok [⟨⟨1000, 11, 9001, 77, 4, 100⟩, 0, 0, 0, 10, 10, 5, [1]⟩]
    UnmarshalDepositLogEvent := fun log =>
      match log with
      | some log => .ok ⟨log.Data.headD 0, 10, some 10, 5, 5, 200000, [1]⟩
      | none => .panic "nil pointer dereference" }

/-- A portal `TransactionDeposited` event whose deposit transaction is sent by address 10 to
address 11. -/
def portalDepositToOther : OptimismPortalTransactionDepositEvent :=
  { RawEvent := ⟨1001, 11, 9001, 78, 5, 100⟩
    DepositTx :=
      { SourceHash := 555, From := 10, To := some 11, Mint := 5, Value := 5, Gas := 100000,
        Data := [1] }
    Version := 0
    OpaqueData := [5, 5, 100000, 0, 1] }

/-- The row `BridgeDepositsByAddress` selects for a deposit: the deposit with the transaction
hashes of the events joined to it. -/
def depositWithHashes (tables : ContractEventTables) (d : BridgeDeposit) :
    BridgeDepositWithTransactionHashes :=
  { BridgeDeposit := d
    L1TransactionHash := scanTransactionHash
      ((tables.l1_contract_events.find?
        (fun e => d.InitiatedL1EventGUID == e.ContractEvent.GUID)).map (fun e => e.ContractEvent))
    FinalizedL2TransactionHash := scanTransactionHash
      ((tables.l2_contract_events.find?
        (fun e => d.FinalizedL2EventGUID == some e.ContractEvent.GUID)).map
          (fun e => e.ContractEvent)) }

/-- An L2 environment with one `WithdrawalInitiated` event (GUID 1000) whose local token, the
token on L2, is address 20 and whose remote token, the token on L1, is address 30; the
`MessagePassed` decoder reads the withdrawal hash from the first data word of the log. -/
def withdrawalEnv : L2Env :=
  { L2Env.idle with
    StandardBridgeInitiatedEvents := fun _ =>
      .ok [⟨⟨1000, 11, 9001, 77, 4, 100⟩, 0, 20, 30, 10, 10, 5, [1]⟩]
    UnpackMessagePassed := fun log =>
      match log with
      | some log =>
        .ok ⟨⟨1001, 11, 9001, 78, 5, 100⟩, log.Data.headD 0, 0, 10, 10, 5, 200000, [1]⟩
      | none => .panic "nil pointer dereference" }

/-- An L1 environment for a batch with a `DepositInitiated` log (signature 77) followed by the
portal `TransactionDeposited` log (signature 78, source hash 555) in the block with hash 11.
The extractors read the events of the batch; the GUIDs drawn in a run start at `eventBase`
(events) and `bridgeBase` (bridge deposits). -/
def rerunEnv (eventBase bridgeBase : Nat) : L1Env :=
  { L1Env.idle with
    FilterLogs := fun _ _ _ =>
      .ok [⟨3, [77], [], 11, 9001, 4⟩, ⟨0, [78], [555], 11, 9001, 5⟩]
    eventGUID := fun i => eventBase + i
    bridgeGUID := fun i => bridgeBase + i
    OptimismPortalTransactionDepositEvents := fun events =>
      .ok ((events.events.filter (fun e => e.EventSignature == 78)).map
        (fun e => ⟨e, ⟨555, 10, some 10, 5, 5, 200000, [1]⟩, 0, []⟩))
    StandardBridgeInitiatedEvents := fun events =>
      .ok ((events.events.filter (fun e => e.EventSignature == 77)).map
        (fun e => ⟨e, 0, 0, 0, 10, 10, 5, [1]⟩))
    UnmarshalDepositLogEvent := fun log =>
      match log with
      | some log => .ok ⟨log.Data.headD 0, 10, some 10, 5, 5, 200000, [1]⟩
      | none => .panic "nil pointer dereference" }

/-- The database after the batch of `rerunEnv` has been processed once, from the empty
database, with GUIDs 1000.. and 2000... -/
def afterFirstRun : DB :=
  (l1ProcessFn (rerunEnv 1000 2000) DevL1Contracts [⟨11, 10, 1, 100⟩] DB.empty).1

/-- Event tables with three L1 events (GUIDs 1000, 1500, 1600) and two L2 events (GUIDs 3000,
3100). -/
def queryTables : ContractEventTables :=
  { l1_contract_events :=
      [⟨⟨1000, 11, 9001, 77, 4, 100⟩⟩, ⟨⟨1500, 12, 9005, 80, 0, 130⟩⟩,
       ⟨⟨1600, 13, 9006, 81, 0, 140⟩⟩]
    l2_contract_events := [⟨⟨3000, 21, 9101, 90, 1, 110⟩⟩, ⟨⟨3100, 22, 9102, 91, 2, 120⟩⟩] }

/-- A database of address 10: one bridge deposit (initiated by L1 event 1000, finalized by L2
event 3000) and one bridge withdrawal with hash 777 (initiated by L2 event 3100, finalized by
L1 event 1600) whose transaction withdrawal is proven by L1 event 1500. -/
def queryDB : DB :=
  { calls := []
    transaction_deposits := []
    transaction_withdrawals := [⟨777, 3100, some 1500, some 1600, 0, ⟨10, 10, 5, [1], 120⟩, 100000⟩]
    bridge_deposits := [⟨2000, 1000, 0, 555, some 3000, ⟨10, 10, 5, [1], 100⟩, ⟨0, 0⟩⟩]
    bridge_withdrawals := [⟨4000, 3100, 1, 777, some 1600, ⟨10, 10, 5, [1], 120⟩, ⟨0, 0⟩⟩] }

/-- An L2 environment with one `MessagePassed` event: withdrawal hash 7, nonce 4, sender 10,
target 11, value 5, gas limit 100000. -/
def messagePassedEnv : L2Env :=
  { L2Env.idle with
    L2ToL1MessagePasserMessagesPassed := fun _ =>
      .ok [⟨⟨3100, 22, 9102, 91, 2, 120⟩, 7, 4, 10, 11, 5, 100000, [1]⟩] }

/-! ## Address flags (op-chain-ops/contracts/common.go)

`parseAddress` reads a flag of the command line and checks it with `common.IsHexAddress`
(go-ethereum).  A Go string is a sequence of bytes; the flag value is read here as the list of
its characters, which is the same sequence for the ASCII strings the check accepts, and a
character outside ASCII fails the digit check as each of its bytes does. -/

/-- Go `common.AddressLength` -/
def AddressLength : Nat := 20

/-- Go `has0xPrefix` (go-ethereum `common`) -/
def has0xPrefix (str : List Char) : Bool :=
  match str with
  | c0 :: c1 :: _ => c0 == '0' && (c1 == 'x' || c1 == 'X')
  | _ => false

/-- Go `isHexCharacter` (go-ethereum `common`) -/
def isHexCharacter (c : Char) : Bool :=
  ('0' ≤ c && c ≤ '9') || ('a' ≤ c && c ≤ 'f') || ('A' ≤ c && c ≤ 'F')

/-- Go `isHex` (go-ethereum `common`): even length and only hex digits. -/
def isHex (str : List Char) : Bool :=
  if str.length % 2 != 0 then false else str.all isHexCharacter

/-- Go `common.IsHexAddress` -/
def IsHexAddress (s : List Char) : Bool :=
  let s := if has0xPrefix s then s.drop 2 else s
  s.length == 2 * AddressLength && isHex s

/-- Go `fromHexChar` (`encoding/hex`): the value of a hex digit. -/
def fromHexChar (c : Char) : Option Nat :=
  if '0' ≤ c ∧ c ≤ '9' then some (c.toNat - 48)
  else if 'a' ≤ c ∧ c ≤ 'f' then some (c.toNat - 97 + 10)
  else if 'A' ≤ c ∧ c ≤ 'F' then some (c.toNat - 65 + 10)
  else none

/-- Go `common.Hex2Bytes`: `hex.DecodeString` with its error dropped, that is the bytes decoded
before the first pair that is not two hex digits. -/
def Hex2Bytes : List Char → List Nat
  | p :: q :: rest =>
    match fromHexChar p, fromHexChar q with
    | some a, some b => (a * 16 + b) :: Hex2Bytes rest
    | _, _ => []
  | _ => []

/-- Go `common.FromHex` -/
def FromHex (s : List Char) : List Nat :=
  let s := if has0xPrefix s then s.drop 2 else s
  let s := if s.length % 2 == 1 then '0' :: s else s
  Hex2Bytes s

/-- Go `common.BytesToAddress`: the last `AddressLength` bytes of `b`, left-padded with zero
bytes; the 20 bytes are read as a big-endian number. -/
def BytesToAddress (b : List Nat) : Address :=
  let b := if b.length > AddressLength then b.drop (b.length - AddressLength) else b
  b.foldl (fun acc byte => acc * 256 + byte) 0

/-- Go `common.HexToAddress` -/
def HexToAddress (s : List Char) : Address := BytesToAddress (FromHex s)

/-- Go `parseAddress` (common.go); `ctx name` is `ctx.String(name)`.  The error
`fmt.Errorf("invalid address: %s", value)` is the error with that message. -/
def parseAddress (ctx : String → String) (name : String) : Address × Option GoError :=
  let value := ctx name
  if value = "" then (0, none)
  else if !IsHexAddress value.data then (0, some (.New ("invalid address: " ++ value)))
  else (HexToAddress value.data, none)

/-- The digits of a flag value: the value without its `0x` / `0X` prefix. -/
def hexDigits (value : String) : List Char :=
  if has0xPrefix value.data then value.data.drop 2 else value.data

/-- The number a list of hex digits denotes, most significant digit first. -/
def hexNumber (digits : List Char) : Nat :=
  digits.foldl (fun acc c => acc * 16 + (fromHexChar c).getD 0) 0

/-! ## Construction of the processors (`NewL1Processor`, `NewL2Processor`) -/

/-- Modelled from the spec: `node.HeaderTraversal` (its file is not among the sources).  The
spec, section 4.B: the state of the cursor is the last header it emitted, or none on a cold
start.  `lastHeader` is that state. -/
structure HeaderTraversal where
  lastHeader : Option Header
deriving DecidableEq, Repr

/-- Modelled from the spec: `node.NewHeaderTraversal(ethClient, fromHeader)` (its file is not
among the sources): a cursor whose last header is `fromHeader`. -/
def NewHeaderTraversal (fromHeader : Option Header) : HeaderTraversal := ⟨fromHeader⟩

/-- Go `processor`: the header traversal and the process function of a processor (the database
handle and the logger are left out). -/
structure processor where
  headerTraversal : HeaderTraversal
  processFn : List Header → DB → DB × Outcome

/-- Go `L1Processor` -/
structure L1Processor where
  processor : Indexer.processor

/-- Go `L2Processor` -/
structure L2Processor where
  processor : Indexer.processor

/-- What `NewL1Processor` reads from its collaborators. -/
structure L1Startup where
  /-- the error of `bindings.L2OutputOracleMetaData.GetAbi()` -/
  L2OutputOracleGetAbi : Option GoError
  /-- the error of `legacy_bindings.StateCommitmentChainMetaData.GetAbi()` -/
  StateCommitmentChainGetAbi : Option GoError
  /-- Go `db.Blocks.LatestL1BlockHeader()` -/
  LatestL1BlockHeader : Except GoError (Option L1BlockHeader)
  /-- Go `ethClient.BlockHeaderByHash(hash)`; the header is a pointer -/
  BlockHeaderByHash : Hash → Except GoError (Option Header)

/-- What `NewL2Processor` reads from its collaborators. -/
structure L2Startup where
  /-- Go `db.Blocks.LatestL2BlockHeader()` -/
  LatestL2BlockHeader : Except GoError (Option L2BlockHeader)
  /-- Go `ethClient.BlockHeaderByHash(hash)`; the header is a pointer -/
  BlockHeaderByHash : Hash → Except GoError (Option Header)

/-- Go `NewL1Processor` -/
def NewL1Processor (start : L1Startup) (env : L1Env) (l1Contracts : L1Contracts) :
    Except GoError L1Processor :=
  match start.L2OutputOracleGetAbi with
  | some err => .error err
  | none =>
    match start.StateCommitmentChainGetAbi with
    | some err => .error err
    | none =>
      match start.LatestL1BlockHeader with
      | .error err => .error err
      | .ok latestHeader =>
        let fromL1Header : Except GoError (Option Header) :=
          match latestHeader with
          | some latestHeader => start.BlockHeaderByHash latestHeader.BlockHeader.Hash
          | none => .ok none
        match fromL1Header with
        | .error err => .error err
        | .ok fromL1Header =>
          .ok { processor :=
                  { headerTraversal := NewHeaderTraversal fromL1Header
                    processFn := l1ProcessFn env l1Contracts } }

/-- Go `NewL2Processor` -/
def NewL2Processor (start : L2Startup) (env : L2Env) (l2Contracts : L2Contracts) :
    Except GoError L2Processor :=
  match start.LatestL2BlockHeader with
  | .error err => .error err
  | .ok latestHeader =>
    let fromL2Header : Except GoError (Option Header) :=
      match latestHeader with
      | some latestHeader => start.BlockHeaderByHash latestHeader.BlockHeader.Hash
      | none => .ok none
    match fromL2Header with
    | .error err => .error err
    | .ok fromL2Header =>
      .ok { processor :=
              { headerTraversal := NewHeaderTraversal fromL2Header
                processFn := l2ProcessFn env l2Contracts } }

/-! ## Vocabulary of the statements on batches, runs and markings -/

/-- The row `w` after a proven marking for the withdrawal hash `h` with event GUID `g`. -/
def markedProven (h : Hash) (g : UUID) (w : TransactionWithdrawal) : TransactionWithdrawal :=
  if w.WithdrawalHash = h then { w with ProvenL1EventGUID := some g } else w

/-- The row `w` after a finalized marking for the withdrawal hash `h` with event GUID `g`. -/
def markedFinalized (h : Hash) (g : UUID) (w : TransactionWithdrawal) :
    TransactionWithdrawal :=
  if w.WithdrawalHash = h then { w with FinalizedL1EventGUID := some g } else w

/-- The row `w` after the proven markings of the events `ps`, in order. -/
def provenBy (ps : List OptimismPortalWithdrawalProvenEvent) (w : TransactionWithdrawal) :
    TransactionWithdrawal :=
  ps.foldl (fun w p => markedProven p.WithdrawalHash p.RawEvent.GUID w) w

/-- The row `w` after the finalized markings of the events `fs`, in order. -/
def finalizedBy (fs : List OptimismPortalWithdrawalFinalizedEvent)
    (w : TransactionWithdrawal) : TransactionWithdrawal :=
  fs.foldl (fun w f => markedFinalized f.WithdrawalHash f.RawEvent.GUID w) w

/-- The contract event `AddLog` builds for a log, given the GUID drawn for it and the time of
its block. -/
def eventOfLog (guid : UUID) (log : Log) (time : Nat) : ContractEvent :=
  (NewProcessedContractEvents.AddLog guid log time).2

/-- The time of the header of the batch with the given block hash (0 when the batch has no
such header). -/
def blockTime (headerMap : GoMap Hash Header) (blockHash : Hash) : Nat :=
  ((headerMap.get blockHash).map (fun header => header.Time)).getD 0

/-- The contract events of the logs of a batch, in log order: the log with number `i` gets the
GUID `guid i`. -/
def eventsOfLogs (guid : Nat → UUID) (headerMap : GoMap Hash Header) :
    Nat → List Log → List ContractEvent
  | _, [] => []
  | i, log :: rest =>
    eventOfLog (guid i) log (blockTime headerMap log.BlockHash) ::
      eventsOfLogs guid headerMap (i + 1) rest

/-- The processed events after the logs of a batch have been added with `AddLog`, in log
order, to `p`. -/
def registerLogs (guid : Nat → UUID) (headerMap : GoMap Hash Header) :
    Nat → List Log → ProcessedContractEvents → ProcessedContractEvents
  | _, [], p => p
  | i, log :: rest, p =>
    registerLogs guid headerMap (i + 1) rest
      (p.AddLog (guid i) log (blockTime headerMap log.BlockHash)).1

/-- Every event has its log registered under its GUID, at the position of the event; every
entry of the index by (block hash, log index) is an event, filed under its own position; and a
position has an entry exactly when an event has that position. -/
def ProcessedContractEvents.Consistent (p : ProcessedContractEvents) : Prop :=
  (∀ ev ∈ p.events, ∃ log, p.eventLog.get ev.GUID = some log ∧
    log.BlockHash = ev.BlockHash ∧ log.Index = ev.LogIndex) ∧
  (∀ key ev, p.eventByLogIndex.get key = some ev →
    ev ∈ p.events ∧ (ev.BlockHash, ev.LogIndex) = key) ∧
  (∀ key, (∃ ev ∈ p.events, (ev.BlockHash, ev.LogIndex) = key) →
    (p.eventByLogIndex.get key).isSome = true)

/-- The L1 contract events a write call hands to the `ContractEvents` sub-store. -/
def StoreCall.l1Events : StoreCall → List L1ContractEvent
  | .StoreL1ContractEvents events => events
  | _ => []

/-- The L2 contract events a write call hands to the `ContractEvents` sub-store. -/
def StoreCall.l2Events : StoreCall → List L2ContractEvent
  | .StoreL2ContractEvents events => events
  | _ => []

/-- All L1 contract events handed to `StoreL1ContractEvents`, in the order they were handed
over. -/
def DB.storedL1Events (db : DB) : List L1ContractEvent := db.calls.flatMap StoreCall.l1Events

/-- All L2 contract events handed to `StoreL2ContractEvents`, in the order they were handed
over. -/
def DB.storedL2Events (db : DB) : List L2ContractEvent := db.calls.flatMap StoreCall.l2Events

/-- Whether `guid` is the GUID of one of the events `stored`, built from the log at the same
position of `logs`: the event carries the transaction hash, the block hash and the log index
of that log. -/
def initiatedByEventOf (stored : List ContractEvent) (logs : List Log) (guid : UUID) : Bool :=
  (stored.zip logs).any (fun entry =>
    entry.1.GUID == guid && entry.1.TransactionHash == entry.2.TxHash &&
      entry.1.BlockHash == entry.2.BlockHash && entry.1.LogIndex == entry.2.Index)

/-- The rows a run of `l1ProcessFn` that took the database from `before` to `after` has
inserted resolve to events of the run: the run fetched `logs`, handed the events `stored` to
`StoreL1ContractEvents`, appended `deposits` to the transaction-deposit table and
`bridgeDeposits` to the bridge-deposit table, and the initiating GUID of every appended row is
the GUID of a stored event that carries the transaction hash of its log. -/
def L1RowsResolve (env : L1Env) (l1Contracts : L1Contracts) (headers : List Header)
    (before after : DB) : Prop :=
  ∃ first last logs stored deposits bridgeDeposits,
    headers.head? = some first ∧ headers.getLast? = some last ∧
    env.FilterLogs first.Number last.Number l1Contracts.ToSlice = .ok logs ∧
    after.storedL1Events = before.storedL1Events ++ stored.map (fun ev => ⟨ev⟩) ∧
    after.transaction_deposits = before.transaction_deposits ++ deposits ∧
    after.bridge_deposits = before.bridge_deposits ++ bridgeDeposits ∧
    (∀ row ∈ deposits, initiatedByEventOf stored logs row.InitiatedL1EventGUID = true) ∧
    (∀ row ∈ bridgeDeposits, initiatedByEventOf stored logs row.InitiatedL1EventGUID = true)

/-- The rows a run of `l2ProcessFn` that took the database from `before` to `after` has
inserted resolve to events of the run, as `L1RowsResolve` for the transaction-withdrawal and
bridge-withdrawal tables. -/
def L2RowsResolve (env : L2Env) (l2Contracts : L2Contracts) (headers : List Header)
    (before after : DB) : Prop :=
  ∃ first last logs stored withdrawals bridgeWithdrawals,
    headers.head? = some first ∧ headers.getLast? = some last ∧
    env.FilterLogs first.Number last.Number l2Contracts.ToSlice = .ok logs ∧
    after.storedL2Events = before.storedL2Events ++ stored.map (fun ev => ⟨ev⟩) ∧
    after.transaction_withdrawals = before.transaction_withdrawals ++ withdrawals ∧
    after.bridge_withdrawals = before.bridge_withdrawals ++ bridgeWithdrawals ∧
    (∀ row ∈ withdrawals, initiatedByEventOf stored logs row.InitiatedL2EventGUID = true) ∧
    (∀ row ∈ bridgeWithdrawals,
      initiatedByEventOf stored logs row.InitiatedL2EventGUID = true)

/-! ## Further concrete environments and batches -/

/-- A start of the L1 processor on a database whose latest L1 header has hash 1342, the chain
answering the header with number 342 for that hash. -/
def warmL1Startup : L1Startup :=
  { L2OutputOracleGetAbi := none
    StateCommitmentChainGetAbi := none
    LatestL1BlockHeader := .ok (some ⟨⟨1342, 1341, 342, 4104⟩⟩)
    BlockHeaderByHash := fun hash =>
      if hash = 1342 then .ok (some ⟨1342, 1341, 342, 4104⟩) else .error (.external 6) }

/-- A start of the L2 processor on a database without any L2 header. -/
def coldL2Startup : L2Startup :=
  { LatestL2BlockHeader := .ok none
    BlockHeaderByHash := fun _ => .error (.external 6) }

/-- An L1 environment whose batch holds one portal deposit with source hash 555. -/
def portalDepositEnv : L1Env :=
  { L1Env.idle with
    OptimismPortalTransactionDepositEvents := fun _ => .ok [portalDepositToOther] }

/-- A database that already holds the transaction deposit with hash 555. -/
def depositStoredDB : DB :=
  { DB.empty with transaction_deposits := [l1TransactionDeposit portalDepositToOther] }

/-- A database that already holds the transaction withdrawal with hash 7, not yet proven. -/
def withdrawalStoredDB : DB :=
  { DB.empty with
    transaction_withdrawals := [⟨7, 3100, none, none, 4, ⟨10, 11, 5, [1], 120⟩, 100000⟩] }

/-- An L1 environment whose batch holds a `WithdrawalProven` and a `WithdrawalFinalized` event
for the withdrawal hash 7 (GUIDs 1500 and 1600), and whose read of the latest L2 header
fails. -/
def headerReadFailsEnv : L1Env :=
  { L1Env.idle with
    LatestL2BlockHeader := .error (.sql "connection refused")
    OptimismPortalWithdrawalProvenEvents := fun _ => .ok [⟨⟨1500, 12, 9005, 80, 0, 130⟩, 7⟩]
    OptimismPortalWithdrawalFinalizedEvents := fun _ =>
      .ok [⟨⟨1600, 12, 9006, 81, 1, 130⟩, 7⟩] }

/-- An L1 environment whose batch holds a `WithdrawalProven` and a `WithdrawalFinalized` event
for the withdrawal hash 7 (GUIDs 1500 and 1600). -/
def proveAndFinalizeEnv : L1Env :=
  { L1Env.idle with
    LatestL2BlockHeader := .ok (some ⟨⟨21, 20, 9, 110⟩⟩)
    OptimismPortalWithdrawalProvenEvents := fun _ => .ok [⟨⟨1500, 12, 9005, 80, 0, 130⟩, 7⟩]
    OptimismPortalWithdrawalFinalizedEvents := fun _ =>
      .ok [⟨⟨1600, 12, 9006, 81, 1, 130⟩, 7⟩] }

/-- The fetched logs of the batch of `depositEvents`: a `DepositInitiated` log at index 4 and
the portal log at index 5 of the block with hash 11. -/
def depositLogs : List Log :=
  [⟨3, [77], [], 11, 9001, 4⟩, ⟨0, [78], [555], 11, 9001, 5⟩]

/-- Fetched logs with a `DepositInitiated` log at index 4 of the block with hash 11 and no log
at index 5. -/
def lonelyLogs : List Log :=
  [⟨3, [77], [], 11, 9001, 4⟩, ⟨0, [78], [555], 11, 9001, 6⟩]

/-- What the log loop of `l1ProcessFn` accumulates for `depositLogs` in a batch whose header
with hash 11 has time 100, the GUIDs drawn being 1000 and 1001. -/
def depositLoop : L1Logs :=
  { processedContractEvents := depositEvents
    l1HeadersOfInterest := [(11, true), (11, true)]
    l1ContractEvents := [⟨⟨1000, 11, 9001, 77, 4, 100⟩⟩, ⟨⟨1001, 11, 9001, 78, 5, 100⟩⟩]
    outputProposals := []
    legacyStateBatches := [] }

/-- What the log loop of `l2ProcessFn` accumulates for `lonelyLogs` in a batch whose header
with hash 11 has time 100, the GUIDs drawn being 3000 and 3001. -/
def lonelyLoop : L2Logs :=
  { processedContractEvents :=
      ((NewProcessedContractEvents.AddLog 3000 ⟨3, [77], [], 11, 9001, 4⟩ 100).1.AddLog 3001
        ⟨0, [78], [555], 11, 9001, 6⟩ 100).1
    l2ContractEvents := [⟨⟨3000, 11, 9001, 77, 4, 100⟩⟩, ⟨⟨3001, 11, 9001, 78, 6, 100⟩⟩] }

/-- An L2 environment for a batch with a `WithdrawalInitiated` log (signature 77) followed by
the `MessagePassed` log (signature 78, withdrawal hash 7) in the block with hash 11.  The
extractors read the events of the batch. -/
def withdrawalRunEnv : L2Env :=
  { L2Env.idle with
    FilterLogs := fun _ _ _ =>
      .ok [⟨16, [77], [], 11, 9101, 4⟩, ⟨22, [78], [7], 11, 9101, 5⟩]
    L2ToL1MessagePasserMessagesPassed := fun events =>
      .ok ((events.events.filter (fun e => e.EventSignature == 78)).map
        (fun e => ⟨e, 7, 4, 10, 11, 5, 100000, [1]⟩))
    StandardBridgeInitiatedEvents := fun events =>
      .ok ((events.events.filter (fun e => e.EventSignature == 77)).map
        (fun e => ⟨e, 4, 20, 30, 10, 11, 5, [1]⟩))
    UnpackMessagePassed := fun log =>
      match log with
      | some log =>
        .ok ⟨⟨3001, 11, 9101, 78, 5, 100⟩, log.Data.headD 0, 4, 10, 11, 5, 100000, [1]⟩
      | none => .panic "nil pointer dereference" }

/-- The database after the batch of `withdrawalRunEnv` has been processed from the empty
database. -/
def afterWithdrawalRun : DB :=
  (l2ProcessFn withdrawalRunEnv L2ContractPredeploys [⟨11, 10, 1, 100⟩] DB.empty).1

/-- A transaction-withdrawal table with unique hashes and no back-reference set: the row with
hash 9 first, the row with the all-zero hash second. -/
def zeroHashDB : DB :=
  { DB.empty with
    transaction_withdrawals :=
      [⟨9, 3100, none, none, 4, ⟨10, 11, 5, [1], 120⟩, 100000⟩,
       ⟨0, 3101, none, none, 5, ⟨10, 11, 5, [1], 121⟩, 100000⟩] }

/-- The table of `zeroHashDB` after the row with hash 9 has been proven by the L1 event 1500. -/
def provenAheadOfZeroHashDB : DB :=
  { DB.empty with
    transaction_withdrawals :=
      [⟨9, 3100, some 1500, none, 4, ⟨10, 11, 5, [1], 120⟩, 100000⟩,
       ⟨0, 3101, none, none, 5, ⟨10, 11, 5, [1], 121⟩, 100000⟩] }

/-- A transaction-withdrawal table whose only row has hash 9 and no back-reference set. -/
def noZeroHashDB : DB :=
  { DB.empty with
    transaction_withdrawals := [⟨9, 3100, none, none, 4, ⟨10, 11, 5, [1], 120⟩, 100000⟩] }

/-- An L1 environment whose batch holds a `WithdrawalProven` and a `WithdrawalFinalized` event
that carry the all-zero withdrawal hash (GUIDs 1500 and 1600). -/
def zeroHashProveAndFinalizeEnv : L1Env :=
  { L1Env.idle with
    LatestL2BlockHeader := .ok (some ⟨⟨21, 20, 9, 110⟩⟩)
    OptimismPortalWithdrawalProvenEvents := fun _ => .ok [⟨⟨1500, 12, 9005, 80, 0, 130⟩, 0⟩]
    OptimismPortalWithdrawalFinalizedEvents := fun _ =>
      .ok [⟨⟨1600, 12, 9006, 81, 1, 130⟩, 0⟩] }

/-! ## Lemmas on the gorm primitives -/

theorem gormTake_ok_mem {α : Type} {cond : α → Bool} {table : List α} {row : α}
    (h : gormTake cond table = .ok row) : row ∈ table ∧ cond row = true := by
  unfold gormTake at h
  cases hf : table.find? cond with
  | none => rw [hf] at h; cases h
  | some r =>
    rw [hf] at h
    cases h
    exact ⟨List.mem_of_find?_eq_some hf, List.find?_some hf⟩

theorem gormTake_error {α : Type} {cond : α → Bool} {table : List α} {e : GoError}
    (h : gormTake cond table = .error e) :
    e = .ErrRecordNotFound ∧ ∀ row ∈ table, cond row = false := by
  unfold gormTake at h
  cases hf : table.find? cond with
  | none =>
    rw [hf] at h
    cases h
    refine ⟨rfl, fun row hr => ?_⟩
    have := List.find?_eq_none.mp hf row hr
    simpa using this
  | some r => rw [hf] at h; cases h

theorem mem_gormSave {α κ : Type} [DecidableEq κ] {pk : α → κ} {row r : α} {table : List α}
    (h : r ∈ gormSave pk row table) : r ∈ table ∨ r = row := by
  unfold gormSave at h
  split at h
  · rcases List.mem_map.mp h with ⟨x, hx, hxr⟩
    by_cases hk : pk x = pk row
    · rw [if_pos hk] at hxr; exact Or.inr hxr.symm
    · rw [if_neg hk] at hxr; exact Or.inl (hxr ▸ hx)
  · rcases List.mem_append.mp h with h | h
    · exact Or.inl h
    · exact Or.inr (by simpa using h)

theorem gormCreate_ok {α κ : Type} [DecidableEq κ] {pk : α → κ} {rows table out : List α}
    (h : gormCreate pk rows table = .ok out) : out = table ++ rows := by
  unfold gormCreate at h
  split at h
  · cases h
  · split at h
    · cases h; rfl
    · cases h

theorem gormWhereTake_of_ne {α : Type} (col : α → Hash) {v : Hash} (hv : v ≠ emptyHash)
    (table : List α) :
    gormWhereTake col emptyHash v table = gormTake (fun row => col row == v) table := by
  unfold gormWhereTake
  rw [if_neg (by simpa using hv)]

theorem gormWhereTake_zero {α : Type} (col : α → Hash) (table : List α) :
    gormWhereTake col emptyHash emptyHash table = gormTake (fun _ => true) table := by
  unfold gormWhereTake
  rw [if_pos (by simp)]

theorem gormWhereTake_ok_mem {α : Type} {col : α → Hash} {v : Hash} {table : List α} {row : α}
    (h : gormWhereTake col emptyHash v table = .ok row) : row ∈ table := by
  unfold gormWhereTake at h
  split at h
  · exact (gormTake_ok_mem h).1
  · exact (gormTake_ok_mem h).1

theorem gormSaveStruct_of_ne {α : Type} (pk : α → Hash) (row : α) (hrow : pk row ≠ emptyHash)
    (table : List α) :
    gormSaveStruct pk emptyHash row table = .ok (gormSave pk row table) := by
  unfold gormSaveStruct
  rw [if_neg hrow]

theorem mem_gormSaveStruct {α : Type} {pk : α → Hash} {row r : α} {table out : List α}
    (h : gormSaveStruct pk emptyHash row table = .ok out) (hr : r ∈ out) :
    r ∈ table ∨ r = row := by
  unfold gormSaveStruct at h
  split at h
  · rw [gormCreate_ok h] at hr
    rcases List.mem_append.mp hr with hr | hr
    · exact Or.inl hr
    · exact Or.inr (by simpa using hr)
  · cases h
    exact mem_gormSave hr

theorem MarkTransactionWithdrawalProvenEvent_frame (h : Hash) (g : UUID) (db : DB) :
    ∃ table, (MarkTransactionWithdrawalProvenEvent h g db).1 =
      { db with transaction_withdrawals := table } := by
  rcases ht : gormWhereTake (fun w => w.WithdrawalHash) emptyHash h db.transaction_withdrawals
    with e | withdrawal
  · unfold MarkTransactionWithdrawalProvenEvent
    rw [ht]
    exact ⟨db.transaction_withdrawals, rfl⟩
  · rcases hs : gormSaveStruct (fun w => w.WithdrawalHash) emptyHash
      { withdrawal with ProvenL1EventGUID := some g } db.transaction_withdrawals with e | table
    · unfold MarkTransactionWithdrawalProvenEvent
      rw [ht]
      dsimp only
      rw [hs]
      exact ⟨db.transaction_withdrawals, rfl⟩
    · unfold MarkTransactionWithdrawalProvenEvent
      rw [ht]
      dsimp only
      rw [hs]
      exact ⟨table, rfl⟩

theorem MarkTransactionWithdrawalFinalizedEvent_frame (h : Hash) (g : UUID) (db : DB) :
    ∃ table, (MarkTransactionWithdrawalFinalizedEvent h g db).1 =
      { db with transaction_withdrawals := table } := by
  rcases ht : gormWhereTake (fun w => w.WithdrawalHash) emptyHash h db.transaction_withdrawals
    with e | withdrawal
  · unfold MarkTransactionWithdrawalFinalizedEvent
    rw [ht]
    exact ⟨db.transaction_withdrawals, rfl⟩
  · by_cases hp : withdrawal.ProvenL1EventGUID = none
    · unfold MarkTransactionWithdrawalFinalizedEvent
      rw [ht]
      dsimp only
      rw [if_pos hp]
      exact ⟨db.transaction_withdrawals, rfl⟩
    · rcases hs : gormSaveStruct (fun w => w.WithdrawalHash) emptyHash
        { withdrawal with FinalizedL1EventGUID := some g } db.transaction_withdrawals
        with e | table
      · unfold MarkTransactionWithdrawalFinalizedEvent
        rw [ht]
        dsimp only
        rw [if_neg hp, hs]
        exact ⟨db.transaction_withdrawals, rfl⟩
      · unfold MarkTransactionWithdrawalFinalizedEvent
        rw [ht]
        dsimp only
        rw [if_neg hp, hs]
        exact ⟨table, rfl⟩

theorem FinalizedImpliesProven_apply (op : WithdrawalOp) (db : DB)
    (inv : FinalizedImpliesProven db) : FinalizedImpliesProven (op.apply db) := by
  cases op with
  | store messagesPassed =>
    simp only [WithdrawalOp.apply, StoreTransactionWithdrawals]
    cases hc : gormCreate (fun w => w.WithdrawalHash)
        (messagesPassed.map l2TransactionWithdrawal) db.transaction_withdrawals with
    | error e => exact inv
    | ok table =>
      intro w hw hfin
      have hw2 : w ∈ db.transaction_withdrawals ++ messagesPassed.map l2TransactionWithdrawal := by
        rw [← gormCreate_ok hc]; exact hw
      rcases List.mem_append.mp hw2 with hw3 | hw3
      · exact inv w hw3 hfin
      · rcases List.mem_map.mp hw3 with ⟨ev, _, rfl⟩
        exact absurd rfl hfin
  | markProven withdrawalHash guid =>
    simp only [WithdrawalOp.apply, MarkTransactionWithdrawalProvenEvent]
    cases ht : gormWhereTake (fun w => w.WithdrawalHash) emptyHash withdrawalHash
        db.transaction_withdrawals with
    | error e => exact inv
    | ok withdrawal =>
      dsimp only
      cases hs : gormSaveStruct (fun w => w.WithdrawalHash) emptyHash
          { withdrawal with ProvenL1EventGUID := some guid } db.transaction_withdrawals with
      | error e => exact inv
      | ok table =>
        intro w hw hfin
        rcases mem_gormSaveStruct hs hw with hw2 | rfl
        · exact inv w hw2 hfin
        · simp
  | markFinalized withdrawalHash guid =>
    simp only [WithdrawalOp.apply, MarkTransactionWithdrawalFinalizedEvent]
    cases ht : gormWhereTake (fun w => w.WithdrawalHash) emptyHash withdrawalHash
        db.transaction_withdrawals with
    | error e => exact inv
    | ok withdrawal =>
      by_cases hp : withdrawal.ProvenL1EventGUID = none
      · simp only [hp, if_true]; exact inv
      · simp only [hp, if_false]
        cases hs : gormSaveStruct (fun w => w.WithdrawalHash) emptyHash
            { withdrawal with FinalizedL1EventGUID := some guid }
            db.transaction_withdrawals with
        | error e => exact inv
        | ok table =>
          intro w hw hfin
          rcases mem_gormSaveStruct hs hw with hw2 | rfl
          · exact inv w hw2 hfin
          · exact hp

theorem FinalizedImpliesProven_foldl (ops : List WithdrawalOp) (db : DB)
    (inv : FinalizedImpliesProven db) :
    FinalizedImpliesProven (ops.foldl (fun db op => op.apply db) db) := by
  induction ops generalizing db with
  | nil => exact inv
  | cons op rest ih => exact ih _ (FinalizedImpliesProven_apply op db inv)

/-! ## Lemmas on the processors -/

theorem forRange_append {α : Type} (body : α → DB → DB × Outcome) (pre : List α) (x : α)
    (post : List α) (db db1 : DB) (hpre : forRange body pre db = (db1, .nil)) :
    forRange body (pre ++ x :: post) db =
      match body x db1 with
      | (db2, .nil) => forRange body post db2
      | stop => stop := by
  induction pre generalizing db with
  | nil =>
    simp only [forRange] at hpre
    cases hpre
    simp only [List.nil_append, forRange]
  | cons y rest ih =>
    simp only [List.cons_append, forRange] at hpre ⊢
    rcases hb : body y db with ⟨dby, o⟩
    rw [hb] at hpre
    cases o with
    | nil => simp only at hpre ⊢; exact ih dby hpre
    | err e => simp at hpre
    | panic r => simp at hpre

theorem StoreTransactionDeposits_calls (rows : List TransactionDeposit) (db : DB) :
    (StoreTransactionDeposits rows db).1.calls = db.calls := by
  unfold StoreTransactionDeposits; split <;> rfl

theorem StoreTransactionWithdrawals_calls (rows : List TransactionWithdrawal) (db : DB) :
    (StoreTransactionWithdrawals rows db).1.calls = db.calls := by
  unfold StoreTransactionWithdrawals; split <;> rfl

theorem MarkTransactionWithdrawalProvenEvent_calls (h : Hash) (g : UUID) (db : DB) :
    (MarkTransactionWithdrawalProvenEvent h g db).1.calls = db.calls := by
  obtain ⟨table, ht⟩ := MarkTransactionWithdrawalProvenEvent_frame h g db
  rw [ht]

theorem MarkTransactionWithdrawalFinalizedEvent_calls (h : Hash) (g : UUID) (db : DB) :
    (MarkTransactionWithdrawalFinalizedEvent h g db).1.calls = db.calls := by
  obtain ⟨table, ht⟩ := MarkTransactionWithdrawalFinalizedEvent_frame h g db
  rw [ht]

theorem StoreBridgeDeposits_calls (rows : List BridgeDeposit) (db : DB) :
    (StoreBridgeDeposits rows db).1.calls = db.calls := by
  unfold StoreBridgeDeposits; split <;> rfl

theorem StoreBridgeWithdrawals_calls (rows : List BridgeWithdrawal) (db : DB) :
    (StoreBridgeWithdrawals rows db).1.calls = db.calls := by
  unfold StoreBridgeWithdrawals; split <;> rfl

theorem MarkFinalizedBridgeDepositEvent_calls (g e : UUID) (db : DB) :
    (MarkFinalizedBridgeDepositEvent g e db).1.calls = db.calls := by
  unfold MarkFinalizedBridgeDepositEvent; split <;> rfl

theorem MarkFinalizedBridgeWithdrawalEvent_calls (g e : UUID) (db : DB) :
    (MarkFinalizedBridgeWithdrawalEvent g e db).1.calls = db.calls := by
  unfold MarkFinalizedBridgeWithdrawalEvent; split <;> rfl

theorem forRange_calls {α : Type} (body : α → DB → DB × Outcome)
    (hbody : ∀ x db, (body x db).1.calls = db.calls) (xs : List α) (db : DB) :
    (forRange body xs db).1.calls = db.calls := by
  induction xs generalizing db with
  | nil => rfl
  | cons x rest ih =>
    simp only [forRange]
    have hx := hbody x db
    rcases hb : body x db with ⟨dbx, o⟩
    rw [hb] at hx
    cases o with
    | nil => simp only; rw [ih dbx]; exact hx
    | err e => exact hx
    | panic r => exact hx

theorem l1ProveWithdrawal_calls (env : L1Env) (c : L1Contracts) (latest : Option L2BlockHeader)
    (ev : OptimismPortalWithdrawalProvenEvent) (db : DB) :
    (l1ProveWithdrawal env c latest ev db).1.calls = db.calls := by
  have hm := MarkTransactionWithdrawalProvenEvent_calls ev.WithdrawalHash ev.RawEvent.GUID db
  unfold l1ProveWithdrawal
  dsimp only
  rcases hl : TransactionWithdrawalByHash ev.WithdrawalHash db with e | _ | w
  · cases latest <;> rfl
  · rcases hq : env.OptimismPortalQueryProvenWithdrawal c.OptimismPortal ev.WithdrawalHash
      with e | a
    · cases latest <;> simp only [hq]
    · cases latest with
      | none => simp only [hq]
      | some l => simp only [hq]; split <;> rfl
  · rcases hmk : MarkTransactionWithdrawalProvenEvent ev.WithdrawalHash ev.RawEvent.GUID db
      with ⟨d, _ | e⟩ <;> rw [hmk] at hm <;> cases latest <;> simp only [hmk] <;> exact hm

theorem l1FinalizeWithdrawal_calls (ev : OptimismPortalWithdrawalFinalizedEvent) (db : DB) :
    (l1FinalizeWithdrawal ev db).1.calls = db.calls := by
  have hm := MarkTransactionWithdrawalFinalizedEvent_calls ev.WithdrawalHash ev.RawEvent.GUID db
  unfold l1FinalizeWithdrawal
  dsimp only
  rcases hl : TransactionWithdrawalByHash ev.WithdrawalHash db with e | _ | w
  · rfl
  · rfl
  · rcases hmk : MarkTransactionWithdrawalFinalizedEvent ev.WithdrawalHash ev.RawEvent.GUID db
      with ⟨d, _ | e⟩ <;> rw [hmk] at hm <;> simp only [hmk] <;> exact hm

theorem afterDeposits_calls (portalDeposits : List OptimismPortalTransactionDepositEvent)
    (db : DB) : (afterDeposits portalDeposits db).calls = db.calls := by
  unfold afterDeposits
  split
  · exact StoreTransactionDeposits_calls _ _
  · rfl

theorem l1ProcessContractEventsBridgeTransactions_calls (env : L1Env) (c : L1Contracts)
    (events : ProcessedContractEvents) (db : DB) :
    (l1ProcessContractEventsBridgeTransactions env c events db).1.calls = db.calls := by
  unfold l1ProcessContractEventsBridgeTransactions
  rcases hd : env.OptimismPortalTransactionDepositEvents events with e | portalDeposits
  · rfl
  · have h0 := afterDeposits_calls portalDeposits db
    unfold afterDeposits at h0
    rcases hl : env.LatestL2BlockHeader with e | latest
    · exact h0
    · rcases hp : env.OptimismPortalWithdrawalProvenEvents events with e | proven
      · exact h0
      · have h1 := forRange_calls _ (l1ProveWithdrawal_calls env c latest) proven
          (if (portalDeposits.map l1TransactionDeposit).length > 0 then
            (StoreTransactionDeposits (portalDeposits.map l1TransactionDeposit) db).1 else db)
        simp only
        rcases hfr : forRange (l1ProveWithdrawal env c latest) proven
          (if (portalDeposits.map l1TransactionDeposit).length > 0 then
            (StoreTransactionDeposits (portalDeposits.map l1TransactionDeposit) db).1 else db)
          with ⟨db2, o⟩
        rw [hfr] at h1
        simp only at h1
        cases o with
        | nil =>
          simp only
          rcases hf : env.OptimismPortalWithdrawalFinalizedEvents events with e | fin
          · simp only; rw [h1, h0]
          · simp only; rw [forRange_calls _ l1FinalizeWithdrawal_calls, h1, h0]
        | err e => simp only; rw [h1, h0]
        | panic r => simp only; rw [h1, h0]

theorem l1FinalizeBridgeWithdrawal_calls (ev : StandardBridgeFinalizedEvent) (db : DB) :
    (l1FinalizeBridgeWithdrawal ev db).1.calls = db.calls := by
  unfold l1FinalizeBridgeWithdrawal
  dsimp only
  rcases hl : BridgeWithdrawalByMessageNonce ev.CrossDomainMessengerNonce db with e | _ | w
  · rfl
  · rfl
  · have hm := MarkFinalizedBridgeWithdrawalEvent_calls w.GUID ev.RawEvent.GUID db
    rcases hmk : MarkFinalizedBridgeWithdrawalEvent w.GUID ev.RawEvent.GUID db
      with ⟨d, _ | e⟩ <;> rw [hmk] at hm <;> simp only [hmk] <;> exact hm

theorem l1ProcessContractEventsStandardBridge_calls (env : L1Env)
    (events : ProcessedContractEvents) (db : DB) :
    (l1ProcessContractEventsStandardBridge env events db).1.calls = db.calls := by
  unfold l1ProcessContractEventsStandardBridge
  rcases hi : env.StandardBridgeInitiatedEvents events with e | initiated
  · rfl
  · simp only
    rcases hb : buildRange (l1BridgeDeposit env events) 0 initiated with deposits | e | r
    · have hs : (if deposits.length > 0 then StoreBridgeDeposits deposits db
          else (db, none)).1.calls = db.calls := by
        split
        · exact StoreBridgeDeposits_calls _ _
        · rfl
      simp only
      rcases hst : (if deposits.length > 0 then StoreBridgeDeposits deposits db
          else (db, none)) with ⟨d, _ | e⟩
      · rw [hst] at hs
        simp only at hs ⊢
        rcases hf : env.StandardBridgeFinalizedEvents events with e | fin
        · exact hs
        · simp only; rw [forRange_calls _ l1FinalizeBridgeWithdrawal_calls, hs]
      · rw [hst] at hs; exact hs
    · rfl
    · rfl

theorem GoMap_get_cons {κ ν : Type} [DecidableEq κ] (m : GoMap κ ν) (k k2 : κ) (v : ν) :
    GoMap.get ((k, v) :: m) k2 = if k = k2 then some v else GoMap.get m k2 := by
  unfold GoMap.get
  by_cases h : k = k2
  · simp [List.find?, h]
  · simp [List.find?, h]

theorem GoMap_get_set {κ ν : Type} [DecidableEq κ] (m : GoMap κ ν) (k k2 : κ) (v : ν) :
    (m.set k v).get k2 = if k = k2 then some v else m.get k2 :=
  GoMap_get_cons m k k2 v

theorem headerMap_foldl_get (headers : List Header) (m : GoMap Hash Header) (k : Hash) :
    ((headers.foldl (fun m header => m.set header.Hash header) m).get k).isSome =
      (headers.any (fun header => header.Hash == k) || (m.get k).isSome) := by
  induction headers generalizing m with
  | nil => simp
  | cons header rest ih =>
    simp only [List.foldl_cons, List.any_cons]
    rw [ih, GoMap_get_set]
    by_cases h : header.Hash = k
    · simp [h]
    · simp [h, beq_eq_false_iff_ne.mpr h]

theorem headerMapOf_get_isSome (headers : List Header) (k : Hash) :
    ((headerMapOf headers).get k).isSome = headers.any (fun header => header.Hash == k) := by
  unfold headerMapOf
  rw [headerMap_foldl_get]
  simp [GoMap.get]

theorem l1ProcessLog_ok (env : L1Env) (headerMap : GoMap Hash Header) (i : Nat) (log : Log)
    (acc : L1Logs) (hfound : (headerMap.get log.BlockHash).isSome = true)
    (hdecode : checkpointsDecode env [log] = true) :
    ∃ out, l1ProcessLog env headerMap i log acc = .ok out ∧
      out.l1HeadersOfInterest = acc.l1HeadersOfInterest.set log.BlockHash true ∧
      out.l1ContractEvents.length = acc.l1ContractEvents.length + 1 := by
  unfold l1ProcessLog
  rcases hh : headerMap.get log.BlockHash with _ | header
  · rw [hh] at hfound; cases hfound
  · simp only [ProcessedContractEvents.AddLog]
    simp only [checkpointsDecode, List.all_cons, List.all_nil, Bool.and_true] at hdecode
    by_cases h1 : log.Topics.headD 0 = env.outputProposedEventSig
    · simp only [h1, if_true] at hdecode ⊢
      rcases hu : env.UnpackOutputProposed log with e | v
      · rw [hu] at hdecode; cases hdecode
      · exact ⟨_, rfl, rfl, by simp⟩
    · simp only [h1, if_false] at hdecode ⊢
      by_cases h2 : log.Topics.headD 0 = env.legacyStateBatchAppendedEventSig
      · simp only [h2, if_true] at hdecode ⊢
        rcases hu : env.UnpackStateBatchAppended log with e | v
        · rw [hu] at hdecode; cases hdecode
        · exact ⟨_, rfl, rfl, by simp⟩
      · simp only [h2, if_false]
        exact ⟨_, rfl, rfl, by simp⟩

theorem l1ProcessLogs_ok (env : L1Env) (headerMap : GoMap Hash Header) (logs : List Log)
    (i : Nat) (acc : L1Logs)
    (hfound : ∀ log ∈ logs, (headerMap.get log.BlockHash).isSome = true)
    (hdecode : checkpointsDecode env logs = true) :
    ∃ out, l1ProcessLogs env headerMap i logs acc = .ok out ∧
      (∀ k, (out.l1HeadersOfInterest.get k).isSome =
        (logs.any (fun log => log.BlockHash == k) || (acc.l1HeadersOfInterest.get k).isSome)) ∧
      out.l1ContractEvents.length = acc.l1ContractEvents.length + logs.length := by
  induction logs generalizing i acc with
  | nil => exact ⟨acc, rfl, by simp, by simp⟩
  | cons log rest ih =>
    have hd1 : checkpointsDecode env [log] = true := by
      simp only [checkpointsDecode, List.all_cons, Bool.and_eq_true] at hdecode
      simp only [checkpointsDecode, List.all_cons, List.all_nil, Bool.and_true]
      exact hdecode.1
    have hd2 : checkpointsDecode env rest = true := by
      simp only [checkpointsDecode, List.all_cons, Bool.and_eq_true] at hdecode
      exact hdecode.2
    obtain ⟨mid, hmid, hint, hlen⟩ := l1ProcessLog_ok env headerMap i log acc
      (hfound log (List.mem_cons_self _ _)) hd1
    obtain ⟨out, hout, hkeys, hlen2⟩ := ih (i + 1) mid
      (fun l hl => hfound l (List.mem_cons_of_mem _ hl)) hd2
    refine ⟨out, ?_, ?_, ?_⟩
    · simp only [l1ProcessLogs, hmid]; exact hout
    · intro k
      rw [hkeys k, hint, GoMap_get_set, List.any_cons]
      by_cases h : log.BlockHash = k
      · simp [h]
      · simp [h, beq_eq_false_iff_ne.mpr h]
    · rw [hlen2, hlen, List.length_cons]; omega

theorem indexedL1Headers_eq (headers : List Header) (interest : GoMap Hash Bool) :
    indexedL1Headers headers interest =
      (headers.filter (fun header => (interest.get header.Hash).isSome)).map
        (fun header => ⟨BlockHeaderFromGethHeader header⟩) := by
  unfold indexedL1Headers
  induction headers with
  | nil => rfl
  | cons header rest ih =>
    simp only [List.filterMap_cons, List.filter_cons]
    rcases h : interest.get header.Hash with _ | b
    · simpa using ih
    · simpa using ih

theorem DB_store_calls (r : List StoreCall → StoreCall → Option GoError) (call : StoreCall)
    (db : DB) : (db.store r call).1.calls = db.calls ++ [call] := rfl

theorem l1UpdateDatabase_storedL1Headers (env : L1Env) (c : L1Contracts)
    (indexed : List L1BlockHeader) (logs : L1Logs) (db : DB) :
    (l1UpdateDatabase env c indexed logs db).1.storedL1Headers =
      db.storedL1Headers ++ indexed := by
  unfold l1UpdateDatabase
  by_cases hpos : indexed.length > 0
  · simp only [hpos, if_true]
    have e1 : (db.store env.storeResult (.StoreL1BlockHeaders indexed)).1.storedL1Headers =
        db.storedL1Headers ++ indexed := by
      simp [DB.storedL1Headers, DB_store_calls, StoreCall.l1Headers]
    rcases h1 : db.store env.storeResult (.StoreL1BlockHeaders indexed) with ⟨db1, _ | e⟩
    · rw [h1] at e1
      simp only at e1 ⊢
      have e2 : (db1.store env.storeResult
          (.StoreL1ContractEvents logs.l1ContractEvents)).1.storedL1Headers =
          db1.storedL1Headers := by
        simp [DB.storedL1Headers, DB_store_calls, StoreCall.l1Headers]
      rcases h2 : db1.store env.storeResult (.StoreL1ContractEvents logs.l1ContractEvents)
        with ⟨db2, _ | e⟩
      · rw [h2] at e2
        simp only at e2 ⊢
        have e3 : (if logs.outputProposals.length > 0 then
            db2.store env.storeResult (.StoreOutputProposals logs.outputProposals)
            else (db2, none)).1.storedL1Headers = db2.storedL1Headers := by
          split
          · simp [DB.storedL1Headers, DB_store_calls, StoreCall.l1Headers]
          · rfl
        rcases h3 : (if logs.outputProposals.length > 0 then
            db2.store env.storeResult (.StoreOutputProposals logs.outputProposals)
            else (db2, none)) with ⟨db3, _ | e⟩
        · rw [h3] at e3
          simp only at e3 ⊢
          have e4 := l1ProcessContractEventsBridgeTransactions_calls env c
            logs.processedContractEvents db3
          rcases h4 : l1ProcessContractEventsBridgeTransactions env c
            logs.processedContractEvents db3 with ⟨db4, o⟩
          rw [h4] at e4
          simp only at e4
          have e4b : db4.storedL1Headers = db3.storedL1Headers := by
            simp only [DB.storedL1Headers, e4]
          cases o with
          | nil =>
            simp only
            have e5 := l1ProcessContractEventsStandardBridge_calls env
              logs.processedContractEvents db4
            simp only [DB.storedL1Headers, e5] at e4b e3 e2 e1 ⊢
            rw [e4b, e3, e2, e1]
          | err e => simp only; rw [e4b, e3, e2, e1]
          | panic r => simp only; rw [e4b, e3, e2, e1]
        · rw [h3] at e3
          simp only at e3 ⊢
          rw [e3, e2, e1]
      · rw [h2] at e2
        simp only at e2 ⊢
        rw [e2, e1]
    · rw [h1] at e1; exact e1
  · have : indexed = [] := by
      cases indexed with
      | nil => rfl
      | cons a b => simp at hpos
    simp [this]

theorem head?_getLast?_of_ne_nil {α : Type} (xs : List α) (hne : xs ≠ []) :
    xs.head? = some (xs.head hne) ∧ xs.getLast? = some (xs.getLast hne) :=
  ⟨List.head?_eq_head hne, List.getLast?_eq_getLast xs hne⟩

theorem LatestBridgeDepositMessageNonce_error (db : DB) :
    LatestBridgeDepositMessageNonce db =
      .error (.sql "column cross_domain_messager_nonce does not exist") := by
  have hcol : bridge_deposits_column "cross_domain_messager_nonce" = none := rfl
  unfold LatestBridgeDepositMessageNonce gormOrderDescTake
  rw [hcol]
  rfl

theorem l2FinalizeBridgeDeposit_absent (ev : StandardBridgeFinalizedEvent) (db : DB)
    (habsent : BridgeDepositByMessageNonce ev.CrossDomainMessengerNonce db = .ok none) :
    l2FinalizeBridgeDeposit ev db =
      (db, .err (.sql "column cross_domain_messager_nonce does not exist")) := by
  unfold l2FinalizeBridgeDeposit
  simp only [habsent, LatestBridgeDepositMessageNonce_error]

theorem headerMapOf_get_none (headers : List Header) (k : Hash)
    (h : ∀ header ∈ headers, header.Hash ≠ k) : (headerMapOf headers).get k = none := by
  have h1 := headerMapOf_get_isSome headers k
  have h2 : headers.any (fun header => header.Hash == k) = false := by
    rw [List.any_eq_false]
    intro header hmem
    simpa using h header hmem
  rw [h2] at h1
  cases hg : (headerMapOf headers).get k with
  | none => rfl
  | some v => rw [hg] at h1; cases h1

theorem l1ProcessLogs_error (env : L1Env) (headerMap : GoMap Hash Header) (logs : List Log)
    (i : Nat) (acc : L1Logs)
    (hout : ∃ log ∈ logs, headerMap.get log.BlockHash = none) :
    ∃ e, l1ProcessLogs env headerMap i logs acc = .error e ∧
      (checkpointsDecode env logs = true →
        e = .New "parsed log with a block hash not in this batch") := by
  induction logs generalizing i acc with
  | nil => obtain ⟨log, hmem, _⟩ := hout; cases hmem
  | cons log rest ih =>
    rcases hg : headerMap.get log.BlockHash with _ | header
    · refine ⟨.New "parsed log with a block hash not in this batch", ?_, fun _ => rfl⟩
      simp only [l1ProcessLogs, l1ProcessLog, hg]
    · have hrest : ∃ l ∈ rest, headerMap.get l.BlockHash = none := by
        obtain ⟨l, hmem, hl⟩ := hout
        rcases List.mem_cons.mp hmem with rfl | hmem
        · rw [hg] at hl; cases hl
        · exact ⟨l, hmem, hl⟩
      rcases hstep : l1ProcessLog env headerMap i log acc with e | mid
      · refine ⟨e, by simp only [l1ProcessLogs, hstep], ?_⟩
        intro hdecode
        have hd1 : checkpointsDecode env [log] = true := by
          simp only [checkpointsDecode, List.all_cons, Bool.and_eq_true] at hdecode
          simp only [checkpointsDecode, List.all_cons, List.all_nil, Bool.and_true]
          exact hdecode.1
        obtain ⟨out, hok, _⟩ := l1ProcessLog_ok env headerMap i log acc (by simp [hg]) hd1
        rw [hok] at hstep
        cases hstep
      · obtain ⟨e, he, hmsg⟩ := ih (i + 1) mid hrest
        refine ⟨e, by simp only [l1ProcessLogs, hstep]; exact he, ?_⟩
        intro hdecode
        apply hmsg
        simp only [checkpointsDecode, List.all_cons, Bool.and_eq_true] at hdecode
        exact hdecode.2

theorem l2ProcessLogs_error (env : L2Env) (headerMap : GoMap Hash Header) (logs : List Log)
    (i : Nat) (acc : L2Logs)
    (hout : ∃ log ∈ logs, headerMap.get log.BlockHash = none) :
    l2ProcessLogs env headerMap i logs acc =
      .error (.New "parsed log with a block hash not in this batch") := by
  induction logs generalizing i acc with
  | nil => obtain ⟨log, hmem, _⟩ := hout; cases hmem
  | cons log rest ih =>
    rcases hg : headerMap.get log.BlockHash with _ | header
    · simp only [l2ProcessLogs, hg]
    · have hrest : ∃ l ∈ rest, headerMap.get l.BlockHash = none := by
        obtain ⟨l, hmem, hl⟩ := hout
        rcases List.mem_cons.mp hmem with rfl | hmem
        · rw [hg] at hl; cases hl
        · exact ⟨l, hmem, hl⟩
      simp only [l2ProcessLogs, hg]
      exact ih _ _ hrest

theorem l2ProcessLogs_ok (env : L2Env) (headerMap : GoMap Hash Header) (logs : List Log)
    (i : Nat) (acc : L2Logs)
    (hfound : ∀ log ∈ logs, (headerMap.get log.BlockHash).isSome = true) :
    ∃ out, l2ProcessLogs env headerMap i logs acc = .ok out ∧
      out.l2ContractEvents.length = acc.l2ContractEvents.length + logs.length := by
  induction logs generalizing i acc with
  | nil => exact ⟨acc, rfl, by simp⟩
  | cons log rest ih =>
    rcases hg : headerMap.get log.BlockHash with _ | header
    · have := hfound log (List.mem_cons_self _ _)
      rw [hg] at this
      cases this
    · simp only [l2ProcessLogs, hg]
      obtain ⟨out, hout, hlen⟩ := ih (i + 1)
        { processedContractEvents :=
            (acc.processedContractEvents.AddLog (env.eventGUID i) log header.Time).1
          l2ContractEvents := acc.l2ContractEvents ++
            [⟨(acc.processedContractEvents.AddLog (env.eventGUID i) log header.Time).2⟩] }
        (fun l hl => hfound l (List.mem_cons_of_mem _ hl))
      refine ⟨out, hout, ?_⟩
      rw [hlen]
      simp only [List.length_append, List.length_cons, List.length_nil]
      omega

theorem l2ProcessContractEventsBridgeTransactions_calls (env : L2Env)
    (events : ProcessedContractEvents) (db : DB) :
    (l2ProcessContractEventsBridgeTransactions env events db).1.calls = db.calls := by
  unfold l2ProcessContractEventsBridgeTransactions
  rcases hm : env.L2ToL1MessagePasserMessagesPassed events with e | messagesPassed
  · rfl
  · simp only
    split
    · exact StoreTransactionWithdrawals_calls _ _
    · rfl

theorem l2FinalizeBridgeDeposit_calls (ev : StandardBridgeFinalizedEvent) (db : DB) :
    (l2FinalizeBridgeDeposit ev db).1.calls = db.calls := by
  unfold l2FinalizeBridgeDeposit
  dsimp only
  rcases hl : BridgeDepositByMessageNonce ev.CrossDomainMessengerNonce db with e | _ | d
  · rfl
  · simp only [LatestBridgeDepositMessageNonce_error]
  · have hm := MarkFinalizedBridgeDepositEvent_calls d.GUID ev.RawEvent.GUID db
    rcases hmk : MarkFinalizedBridgeDepositEvent d.GUID ev.RawEvent.GUID db
      with ⟨d2, _ | e⟩ <;> rw [hmk] at hm <;> simp only [hmk] <;> exact hm

theorem l2ProcessContractEventsStandardBridge_calls (env : L2Env)
    (events : ProcessedContractEvents) (db : DB) :
    (l2ProcessContractEventsStandardBridge env events db).1.calls = db.calls := by
  unfold l2ProcessContractEventsStandardBridge
  rcases ha : env.GetAbi with _ | e
  · simp only
    rcases hi : env.StandardBridgeInitiatedEvents events with e | initiated
    · rfl
    · simp only
      rcases hb : buildRange (l2BridgeWithdrawal env events) 0 initiated with ws | e | r
      · have hs : (if ws.length > 0 then StoreBridgeWithdrawals ws db
            else (db, none)).1.calls = db.calls := by
          split
          · exact StoreBridgeWithdrawals_calls _ _
          · rfl
        simp only
        rcases hst : (if ws.length > 0 then StoreBridgeWithdrawals ws db
            else (db, none)) with ⟨d, _ | e⟩
        · rw [hst] at hs
          simp only at hs ⊢
          rcases hf : env.StandardBridgeFinalizedEvents events with e | fin
          · exact hs
          · simp only; rw [forRange_calls _ l2FinalizeBridgeDeposit_calls, hs]
        · rw [hst] at hs; exact hs
      · rfl
      · rfl
  · rfl

theorem l2UpdateDatabase_storedL2Headers (env : L2Env) (l2Headers : List L2BlockHeader)
    (logs : L2Logs) (db : DB) :
    (l2UpdateDatabase env l2Headers logs db).1.storedL2Headers =
      db.storedL2Headers ++ l2Headers := by
  unfold l2UpdateDatabase
  have e1 : (db.store env.storeResult (.StoreL2BlockHeaders l2Headers)).1.storedL2Headers =
      db.storedL2Headers ++ l2Headers := by
    simp [DB.storedL2Headers, DB_store_calls, StoreCall.l2Headers]
  rcases h1 : db.store env.storeResult (.StoreL2BlockHeaders l2Headers) with ⟨db1, _ | e⟩
  · rw [h1] at e1
    simp only at e1 ⊢
    by_cases hpos : logs.l2ContractEvents.length > 0
    · simp only [hpos, if_true]
      have e2 : (db1.store env.storeResult
          (.StoreL2ContractEvents logs.l2ContractEvents)).1.storedL2Headers =
          db1.storedL2Headers := by
        simp [DB.storedL2Headers, DB_store_calls, StoreCall.l2Headers]
      rcases h2 : db1.store env.storeResult (.StoreL2ContractEvents logs.l2ContractEvents)
        with ⟨db2, _ | e⟩
      · rw [h2] at e2
        simp only at e2 ⊢
        have e3 := l2ProcessContractEventsBridgeTransactions_calls env
          logs.processedContractEvents db2
        rcases h3 : l2ProcessContractEventsBridgeTransactions env
          logs.processedContractEvents db2 with ⟨db3, o⟩
        rw [h3] at e3
        simp only at e3
        have e3b : db3.storedL2Headers = db2.storedL2Headers := by
          simp only [DB.storedL2Headers, e3]
        cases o with
        | nil =>
          simp only
          have e4 := l2ProcessContractEventsStandardBridge_calls env
            logs.processedContractEvents db3
          simp only [DB.storedL2Headers, e4] at e3b e2 e1 ⊢
          rw [e3b, e2, e1]
        | err e => simp only; rw [e3b, e2, e1]
        | panic r => simp only; rw [e3b, e2, e1]
      · rw [h2] at e2
        simp only at e2 ⊢
        rw [e2, e1]
    · simp only [hpos, if_false]; exact e1
  · rw [h1] at e1; exact e1

theorem forRange_preserves {α β : Type} (f : DB → β) (body : α → DB → DB × Outcome)
    (hbody : ∀ x db, f (body x db).1 = f db) (xs : List α) (db : DB) :
    f (forRange body xs db).1 = f db := by
  induction xs generalizing db with
  | nil => rfl
  | cons x rest ih =>
    simp only [forRange]
    have hx := hbody x db
    rcases hb : body x db with ⟨dbx, o⟩
    rw [hb] at hx
    cases o with
    | nil => simp only; rw [ih dbx]; exact hx
    | err e => exact hx
    | panic r => exact hx

theorem MarkFinalizedBridgeWithdrawalEvent_bridge_deposits (g e : UUID) (db : DB) :
    (MarkFinalizedBridgeWithdrawalEvent g e db).1.bridge_deposits = db.bridge_deposits := by
  unfold MarkFinalizedBridgeWithdrawalEvent; split <;> rfl

theorem l1FinalizeBridgeWithdrawal_bridge_deposits (ev : StandardBridgeFinalizedEvent)
    (db : DB) : (l1FinalizeBridgeWithdrawal ev db).1.bridge_deposits = db.bridge_deposits := by
  unfold l1FinalizeBridgeWithdrawal
  dsimp only
  rcases hl : BridgeWithdrawalByMessageNonce ev.CrossDomainMessengerNonce db with e | _ | w
  · rfl
  · rfl
  · have hm := MarkFinalizedBridgeWithdrawalEvent_bridge_deposits w.GUID ev.RawEvent.GUID db
    rcases hmk : MarkFinalizedBridgeWithdrawalEvent w.GUID ev.RawEvent.GUID db
      with ⟨d, _ | e⟩ <;> rw [hmk] at hm <;> simp only [hmk] <;> exact hm

theorem gormCreate_fresh {α κ : Type} [DecidableEq κ] (pk : α → κ) (rows table : List α)
    (hne : rows ≠ []) (hnodup : (rows.map pk).Nodup)
    (hnew : ∀ k ∈ rows.map pk, k ∉ table.map pk) :
    gormCreate pk rows table = .ok (table ++ rows) := by
  unfold gormCreate
  have h1 : rows.isEmpty = false := by
    cases rows with
    | nil => exact absurd rfl hne
    | cons a b => rfl
  simp only [h1, Bool.false_eq_true, if_false]
  rw [if_pos ⟨hnodup, hnew⟩]

theorem buildRange_l1BridgeDeposit (env : L1Env) (events : ProcessedContractEvents)
    (adjacentTx : StandardBridgeInitiatedEvent → DepositTx)
    (initiated : List StandardBridgeInitiatedEvent) (start : Nat)
    (hadj : ∀ ev ∈ initiated, ∃ log adjacent txLog,
      events.eventLog.get ev.RawEvent.GUID = some log ∧ log.Index + 1 < 2 ^ 64 ∧
      events.eventByLogIndex.get (log.BlockHash, log.Index + 1) = some adjacent ∧
      events.eventLog.get adjacent.GUID = some txLog ∧
      env.UnmarshalDepositLogEvent (some txLog) = .ok (adjacentTx ev)) :
    ∃ deposits, buildRange (l1BridgeDeposit env events) start initiated = .ok deposits ∧
      deposits.map (fun d => (d.DepositHash, d.InitiatedL1EventGUID)) =
        initiated.map (fun ev => ((adjacentTx ev).SourceHash, ev.RawEvent.GUID)) ∧
      deposits.map (fun d => d.GUID) =
        (List.range' start initiated.length).map env.bridgeGUID := by
  induction initiated generalizing start with
  | nil => exact ⟨[], rfl, rfl, rfl⟩
  | cons ev rest ih =>
    obtain ⟨log, adjacent, txLog, h1, hlt, h2, h3, h4⟩ := hadj ev (List.mem_cons_self _ _)
    obtain ⟨ds, hds, hmap, hguid⟩ := ih (start + 1)
      (fun e he => hadj e (List.mem_cons_of_mem _ he))
    have hmod : (log.Index + 1) % 2 ^ 64 = log.Index + 1 := Nat.mod_eq_of_lt hlt
    obtain ⟨d, hbody, hd1, hd2, hd3⟩ : ∃ d, l1BridgeDeposit env events start ev = .ok d ∧
        d.DepositHash = (adjacentTx ev).SourceHash ∧
        d.InitiatedL1EventGUID = ev.RawEvent.GUID ∧ d.GUID = env.bridgeGUID start := by
      unfold l1BridgeDeposit
      simp only [h1, hmod, h2, h3, h4]
      exact ⟨_, rfl, rfl, rfl, rfl⟩
    refine ⟨d :: ds, ?_, ?_, ?_⟩
    · simp only [buildRange, hbody, hds]
    · simp only [List.map_cons, hmap, hd1, hd2]
    · simp only [List.map_cons, hguid, List.length_cons, List.range'_succ, hd3]

/-! ## Lemmas on the list queries and on the transaction-deposit table -/

theorem mem_leftJoin {α β : Type} {left : List α} {right : List β} {cond : α → β → Bool}
    {l : α} {o : Option β} (h : (l, o) ∈ leftJoin left right cond) :
    l ∈ left ∧ ((o = none ∧ ∀ r ∈ right, cond l r = false) ∨
      ∃ r, o = some r ∧ r ∈ right ∧ cond l r = true) := by
  unfold leftJoin at h
  rw [List.mem_flatMap] at h
  obtain ⟨a, ha, hmem⟩ := h
  rcases hf : right.filter (cond a) with _ | ⟨b, bs⟩
  · rw [hf] at hmem
    simp only [List.mem_singleton, Prod.mk.injEq] at hmem
    obtain ⟨rfl, rfl⟩ := hmem
    refine ⟨ha, Or.inl ⟨rfl, fun r hr => ?_⟩⟩
    have := List.filter_eq_nil_iff.mp hf r hr
    simpa using this
  · rw [hf] at hmem
    simp only [List.mem_map, Prod.mk.injEq] at hmem
    obtain ⟨r, hr, rfl, rfl⟩ := hmem
    have hr2 : r ∈ right.filter (cond a) := by rw [hf]; exact hr
    rw [List.mem_filter] at hr2
    exact ⟨ha, Or.inr ⟨r, rfl, hr2.1, hr2.2⟩⟩

theorem mem_gormScan {α : Type} {rows : List α} {n : Nat} {x : α}
    (h : some x ∈ gormScan rows (List.replicate n none)) : x ∈ rows := by
  unfold gormScan at h
  cases rows with
  | nil =>
    simp only at h
    have := List.eq_of_mem_replicate h
    cases this
  | cons a as =>
    simp only [List.mem_map] at h
    obtain ⟨y, hy, hxy⟩ := h
    cases hxy
    exact hy

theorem mem_orderByDesc {α : Type} {key : α → Nat} {rows : List α} {x : α} :
    x ∈ orderByDesc key rows ↔ x ∈ rows := by
  unfold orderByDesc
  exact List.mem_insertionSort _

theorem eq_of_nodup_map {α κ : Type} {f : α → κ} {xs : List α} (hn : (xs.map f).Nodup)
    {a b : α} (ha : a ∈ xs) (hb : b ∈ xs) (hab : f a = f b) : a = b :=
  List.inj_on_of_nodup_map hn ha hb hab

theorem BridgeDepositsByAddress_row {tables : ContractEventTables} {a : Address} {db : DB}
    {rows : List (Option BridgeDepositWithTransactionHashes)}
    {row : BridgeDepositWithTransactionHashes}
    (hres : BridgeDepositsByAddress tables a db = .ok rows) (hrow : some row ∈ rows) :
    ∃ d o1 o2,
      row = { BridgeDeposit := d
              L1TransactionHash := scanTransactionHash (o1.map (fun e => e.ContractEvent))
              FinalizedL2TransactionHash :=
                scanTransactionHash (o2.map (fun e => e.ContractEvent)) } ∧
      ((d, o1), o2) ∈ leftJoin (leftJoin db.bridge_deposits tables.l1_contract_events
          (fun d e => d.InitiatedL1EventGUID == e.ContractEvent.GUID))
        tables.l2_contract_events
          (fun r e => r.1.FinalizedL2EventGUID == some e.ContractEvent.GUID) ∧
      d.Tx.FromAddress = a := by
  unfold BridgeDepositsByAddress at hres
  simp only [Except.ok.injEq] at hres
  subst hres
  have h1 := mem_gormScan hrow
  rw [List.mem_map] at h1
  obtain ⟨⟨⟨d, o1⟩, o2⟩, hr, rfl⟩ := h1
  have h2 := List.mem_of_mem_take hr
  rw [mem_orderByDesc, List.mem_filter] at h2
  exact ⟨d, o1, o2, rfl, h2.1, by simpa using h2.2⟩

theorem BridgeWithdrawalsByAddress_row {tables : ContractEventTables} {a : Address} {db : DB}
    {rows : List (Option BridgeWithdrawalWithTransactionHashes)}
    {row : BridgeWithdrawalWithTransactionHashes}
    (hres : BridgeWithdrawalsByAddress tables a db = .ok rows) (hrow : some row ∈ rows) :
    ∃ w o1 o2 o3 o4,
      row = { BridgeWithdrawal := w
              L2TransactionHash := scanTransactionHash (o1.map (fun e => e.ContractEvent))
              ProvenL1TransactionHash := scanTransactionHash (o4.map (fun e => e.ContractEvent))
              FinalizedL1TransactionHash :=
                scanTransactionHash (o2.map (fun e => e.ContractEvent)) } ∧
      ((((w, o1), o2), o3), o4) ∈
        leftJoin (leftJoin (leftJoin (leftJoin db.bridge_withdrawals tables.l2_contract_events
            (fun w e => w.InitiatedL2EventGUID == e.ContractEvent.GUID))
          tables.l1_contract_events
            (fun r e => r.1.FinalizedL1EventGUID == some e.ContractEvent.GUID))
          db.transaction_withdrawals (fun r t => r.1.1.WithdrawalHash == t.WithdrawalHash))
          tables.l1_contract_events
            (fun r e => (r.2.bind (fun t => t.ProvenL1EventGUID)) == some e.ContractEvent.GUID) ∧
      w.Tx.FromAddress = a := by
  unfold BridgeWithdrawalsByAddress at hres
  simp only [Except.ok.injEq] at hres
  subst hres
  have h1 := mem_gormScan hrow
  rw [List.mem_map] at h1
  obtain ⟨⟨⟨⟨⟨w, o1⟩, o2⟩, o3⟩, o4⟩, hr, rfl⟩ := h1
  have h2 := List.mem_of_mem_take hr
  rw [mem_orderByDesc, List.mem_filter] at h2
  exact ⟨w, o1, o2, o3, o4, rfl, h2.1, by simpa using h2.2⟩

theorem filter_length_le_one {β κ : Type} (f : β → κ) (p : β → Bool) (right : List β)
    (hn : (right.map f).Nodup)
    (hp : ∀ x ∈ right, ∀ y ∈ right, p x = true → p y = true → f x = f y) :
    (right.filter p).length ≤ 1 := by
  induction right with
  | nil => simp
  | cons r rest ih =>
    rw [List.map_cons, List.nodup_cons] at hn
    have ih2 := ih hn.2 (fun x hx y hy => hp x (List.mem_cons_of_mem _ hx) y
      (List.mem_cons_of_mem _ hy))
    by_cases hr : p r = true
    · have hnil : rest.filter p = [] := by
        rw [List.filter_eq_nil_iff]
        intro y hy hpy
        have := hp r (List.mem_cons_self _ _) y (List.mem_cons_of_mem _ hy) hr hpy
        exact hn.1 (this ▸ List.mem_map_of_mem f hy)
      simp [List.filter_cons, hr, hnil]
    · simp only [List.filter_cons, hr]
      exact ih2

theorem leftJoin_unique {α β : Type} (left : List α) (right : List β) (cond : α → β → Bool)
    (h : ∀ l ∈ left, (right.filter (cond l)).length ≤ 1) :
    leftJoin left right cond = left.map (fun l => (l, right.find? (cond l))) := by
  unfold leftJoin
  induction left with
  | nil => rfl
  | cons l rest ih =>
    rw [List.flatMap_cons, List.map_cons, ih (fun x hx => h x (List.mem_cons_of_mem _ hx))]
    have hl := h l (List.mem_cons_self _ _)
    have hfind : right.find? (cond l) = (right.filter (cond l)).head? :=
      (List.filter_head? _ _).symm
    rcases hf : right.filter (cond l) with _ | ⟨b, bs⟩
    · rw [hfind, hf]; rfl
    · rw [hf] at hl
      have : bs = [] := by
        cases bs with
        | nil => rfl
        | cons c cs => simp at hl
      subst this
      rw [hfind, hf]; rfl

theorem orderByDesc_map {α β : Type} (f : α → β) (key : β → Nat) (rows : List α) :
    orderByDesc key (rows.map f) = (orderByDesc (fun a => key (f a)) rows).map f := by
  unfold orderByDesc
  exact (List.map_insertionSort (fun a b => key (f b) ≤ key (f a)) (fun a b => key b ≤ key a) f
    rows (fun a _ b _ => Iff.rfl)).symm

theorem BridgeDepositsByAddress_selected (tables : ContractEventTables) (a : Address) (db : DB)
    (hl1 : (tables.l1_contract_events.map (fun e => e.ContractEvent.GUID)).Nodup)
    (hl2 : (tables.l2_contract_events.map (fun e => e.ContractEvent.GUID)).Nodup) :
    BridgeDepositsByAddress tables a db =
      .ok (gormScan
        (((orderByDesc (fun d => d.Tx.Timestamp)
          (db.bridge_deposits.filter (fun d => d.Tx.FromAddress == a))).take 100).map
            (depositWithHashes tables))
        (List.replicate 100 none)) := by
  unfold BridgeDepositsByAddress
  have j1 := leftJoin_unique db.bridge_deposits tables.l1_contract_events
    (fun d e => d.InitiatedL1EventGUID == e.ContractEvent.GUID)
    (fun l _ => filter_length_le_one (fun e => e.ContractEvent.GUID) _ _ hl1
      (fun x _ y _ hx hy => by
        simp only [beq_iff_eq] at hx hy
        show x.ContractEvent.GUID = y.ContractEvent.GUID
        rw [← hx, ← hy]))
  have j2 := leftJoin_unique
    (db.bridge_deposits.map (fun l => (l, tables.l1_contract_events.find?
      (fun e => l.InitiatedL1EventGUID == e.ContractEvent.GUID))))
    tables.l2_contract_events
    (fun r e => r.1.FinalizedL2EventGUID == some e.ContractEvent.GUID)
    (fun l _ => filter_length_le_one (fun e => e.ContractEvent.GUID) _ _ hl2
      (fun x _ y _ hx hy => by
        simp only [beq_iff_eq] at hx hy
        show x.ContractEvent.GUID = y.ContractEvent.GUID
        rw [hx] at hy
        exact Option.some.inj hy))
  simp only [j1, j2, List.map_map, List.filter_map, orderByDesc_map, List.map_take]
  rfl

theorem BridgeDepositsByAddress_of_match (tables : ContractEventTables) (a : Address) (db : DB)
    (hl1 : (tables.l1_contract_events.map (fun e => e.ContractEvent.GUID)).Nodup)
    (hl2 : (tables.l2_contract_events.map (fun e => e.ContractEvent.GUID)).Nodup)
    (hsome : ∃ d ∈ db.bridge_deposits, d.Tx.FromAddress = a) :
    BridgeDepositsByAddress tables a db =
      .ok ((((orderByDesc (fun d => d.Tx.Timestamp)
          (db.bridge_deposits.filter (fun d => d.Tx.FromAddress == a))).take 100).map
            (depositWithHashes tables)).map some) := by
  rw [BridgeDepositsByAddress_selected tables a db hl1 hl2]
  have hne : ((orderByDesc (fun d => d.Tx.Timestamp)
      (db.bridge_deposits.filter (fun d => d.Tx.FromAddress == a))).take 100).map
        (depositWithHashes tables) ≠ [] := by
    obtain ⟨d, hd, hda⟩ := hsome
    have hmem : d ∈ orderByDesc (fun d => d.Tx.Timestamp)
        (db.bridge_deposits.filter (fun d => d.Tx.FromAddress == a)) := by
      rw [mem_orderByDesc, List.mem_filter]
      exact ⟨hd, by simp [hda]⟩
    intro h
    rw [List.map_eq_nil_iff, List.take_eq_nil_iff] at h
    rcases h with h | h
    · cases h
    · rw [h] at hmem; cases hmem
  unfold gormScan
  split
  · rename_i h; exact absurd h hne
  · rename_i h; rw [h]

theorem MarkTransactionWithdrawalProvenEvent_td (h : Hash) (g : UUID) (db : DB) :
    (MarkTransactionWithdrawalProvenEvent h g db).1.transaction_deposits =
      db.transaction_deposits := by
  obtain ⟨table, ht⟩ := MarkTransactionWithdrawalProvenEvent_frame h g db
  rw [ht]

theorem MarkTransactionWithdrawalFinalizedEvent_td (h : Hash) (g : UUID) (db : DB) :
    (MarkTransactionWithdrawalFinalizedEvent h g db).1.transaction_deposits =
      db.transaction_deposits := by
  obtain ⟨table, ht⟩ := MarkTransactionWithdrawalFinalizedEvent_frame h g db
  rw [ht]

theorem StoreBridgeDeposits_td (rows : List BridgeDeposit) (db : DB) :
    (StoreBridgeDeposits rows db).1.transaction_deposits = db.transaction_deposits := by
  unfold StoreBridgeDeposits; split <;> rfl

theorem MarkFinalizedBridgeWithdrawalEvent_td (g e : UUID) (db : DB) :
    (MarkFinalizedBridgeWithdrawalEvent g e db).1.transaction_deposits =
      db.transaction_deposits := by
  unfold MarkFinalizedBridgeWithdrawalEvent; split <;> rfl

theorem l1ProveWithdrawal_td (env : L1Env) (c : L1Contracts) (latest : Option L2BlockHeader)
    (ev : OptimismPortalWithdrawalProvenEvent) (db : DB) :
    (l1ProveWithdrawal env c latest ev db).1.transaction_deposits = db.transaction_deposits := by
  have hm := MarkTransactionWithdrawalProvenEvent_td ev.WithdrawalHash ev.RawEvent.GUID db
  unfold l1ProveWithdrawal
  dsimp only
  rcases hl : TransactionWithdrawalByHash ev.WithdrawalHash db with e | _ | w
  · cases latest <;> rfl
  · rcases hq : env.OptimismPortalQueryProvenWithdrawal c.OptimismPortal ev.WithdrawalHash
      with e | a
    · cases latest <;> simp only [hq]
    · cases latest with
      | none => simp only [hq]
      | some l => simp only [hq]; split <;> rfl
  · rcases hmk : MarkTransactionWithdrawalProvenEvent ev.WithdrawalHash ev.RawEvent.GUID db
      with ⟨d, _ | e⟩ <;> rw [hmk] at hm <;> cases latest <;> simp only [hmk] <;> exact hm

theorem l1FinalizeWithdrawal_td (ev : OptimismPortalWithdrawalFinalizedEvent) (db : DB) :
    (l1FinalizeWithdrawal ev db).1.transaction_deposits = db.transaction_deposits := by
  have hm := MarkTransactionWithdrawalFinalizedEvent_td ev.WithdrawalHash ev.RawEvent.GUID db
  unfold l1FinalizeWithdrawal
  dsimp only
  rcases hl : TransactionWithdrawalByHash ev.WithdrawalHash db with e | _ | w
  · rfl
  · rfl
  · rcases hmk : MarkTransactionWithdrawalFinalizedEvent ev.WithdrawalHash ev.RawEvent.GUID db
      with ⟨d, _ | e⟩ <;> rw [hmk] at hm <;> simp only [hmk] <;> exact hm

theorem l1FinalizeBridgeWithdrawal_td (ev : StandardBridgeFinalizedEvent) (db : DB) :
    (l1FinalizeBridgeWithdrawal ev db).1.transaction_deposits = db.transaction_deposits := by
  unfold l1FinalizeBridgeWithdrawal
  dsimp only
  rcases hl : BridgeWithdrawalByMessageNonce ev.CrossDomainMessengerNonce db with e | _ | w
  · rfl
  · rfl
  · have hm := MarkFinalizedBridgeWithdrawalEvent_td w.GUID ev.RawEvent.GUID db
    rcases hmk : MarkFinalizedBridgeWithdrawalEvent w.GUID ev.RawEvent.GUID db
      with ⟨d, _ | e⟩ <;> rw [hmk] at hm <;> simp only [hmk] <;> exact hm

theorem l1ProcessContractEventsStandardBridge_td (env : L1Env)
    (events : ProcessedContractEvents) (db : DB) :
    (l1ProcessContractEventsStandardBridge env events db).1.transaction_deposits =
      db.transaction_deposits := by
  unfold l1ProcessContractEventsStandardBridge
  rcases hi : env.StandardBridgeInitiatedEvents events with e | initiated
  · rfl
  · simp only
    rcases hb : buildRange (l1BridgeDeposit env events) 0 initiated with deposits | e | r
    · have hs : (if deposits.length > 0 then StoreBridgeDeposits deposits db
          else (db, none)).1.transaction_deposits = db.transaction_deposits := by
        split
        · exact StoreBridgeDeposits_td _ _
        · rfl
      simp only
      rcases hst : (if deposits.length > 0 then StoreBridgeDeposits deposits db
          else (db, none)) with ⟨d, _ | e⟩
      · rw [hst] at hs
        simp only at hs ⊢
        rcases hf : env.StandardBridgeFinalizedEvents events with e | fin
        · exact hs
        · simp only
          rw [forRange_preserves (fun d => d.transaction_deposits) _
            l1FinalizeBridgeWithdrawal_td, hs]
      · rw [hst] at hs; exact hs
    · rfl
    · rfl

theorem l1ProcessFn_storedL1Headers (env : L1Env) (l1Contracts : L1Contracts)
    (headers : List Header) (db : DB)
    (logs : List Log) (hne : headers ≠ [])
    (hfilter : env.FilterLogs (headers.head hne).Number (headers.getLast hne).Number
      l1Contracts.ToSlice = .ok logs)
    (hbatch : ∀ log ∈ logs, ∃ header ∈ headers, header.Hash = log.BlockHash)
    (hdecode : checkpointsDecode env logs = true) :
    (l1ProcessFn env l1Contracts headers db).1.storedL1Headers =
      db.storedL1Headers ++
        (headers.filter (fun header => logs.any (fun log => log.BlockHash == header.Hash))).map
          (fun header => ⟨BlockHeaderFromGethHeader header⟩) := by
  obtain ⟨hh, hl⟩ := head?_getLast?_of_ne_nil headers hne
  have hfound : ∀ log ∈ logs, ((headerMapOf headers).get log.BlockHash).isSome = true := by
    intro log hlog
    rw [headerMapOf_get_isSome]
    obtain ⟨header, hmem, heq⟩ := hbatch log hlog
    exact List.any_eq_true.mpr ⟨header, hmem, by simp [heq]⟩
  obtain ⟨out, hout, hkeys, _⟩ := l1ProcessLogs_ok env (headerMapOf headers) logs 0
    ⟨NewProcessedContractEvents, [], [], [], []⟩ hfound hdecode
  unfold l1ProcessFn
  simp only [hh, hl, hfilter, hout]
  rw [l1UpdateDatabase_storedL1Headers, indexedL1Headers_eq]
  congr 2
  apply List.filter_congr
  intro header _
  rw [hkeys]
  simp [GoMap.get]

/-! ## Lemmas on address flags -/

theorem fromHexChar_of_isHexCharacter {c : Char} (h : isHexCharacter c = true) :
    ∃ v, fromHexChar c = some v := by
  unfold fromHexChar
  by_cases h1 : '0' ≤ c ∧ c ≤ '9'
  · exact ⟨_, if_pos h1⟩
  · rw [if_neg h1]
    by_cases h2 : 'a' ≤ c ∧ c ≤ 'f'
    · exact ⟨_, if_pos h2⟩
    · rw [if_neg h2]
      by_cases h3 : 'A' ≤ c ∧ c ≤ 'F'
      · exact ⟨_, if_pos h3⟩
      · exfalso
        simp only [isHexCharacter, Bool.or_eq_true, Bool.and_eq_true, decide_eq_true_eq] at h
        rcases h with (h | h) | h
        · exact h1 h
        · exact h2 h
        · exact h3 h

theorem Hex2Bytes_of_digits (n : Nat) : ∀ (digits : List Char) (acc : Nat),
    digits.length = 2 * n → digits.all isHexCharacter = true →
    (Hex2Bytes digits).length = n ∧
      (Hex2Bytes digits).foldl (fun acc byte => acc * 256 + byte) acc =
        digits.foldl (fun acc c => acc * 16 + (fromHexChar c).getD 0) acc := by
  induction n with
  | zero =>
    intro digits acc hlen _
    have : digits = [] := List.length_eq_zero.mp (by simpa using hlen)
    subst this
    exact ⟨rfl, rfl⟩
  | succ n ih =>
    intro digits acc hlen hall
    match digits, hlen, hall with
    | p :: q :: rest, hlen, hall =>
      simp only [List.all_cons, Bool.and_eq_true] at hall
      obtain ⟨hp, hq, hrest⟩ := hall
      obtain ⟨a, ha⟩ := fromHexChar_of_isHexCharacter hp
      obtain ⟨b, hb⟩ := fromHexChar_of_isHexCharacter hq
      have hl : rest.length = 2 * n := by
        simp only [List.length_cons] at hlen
        omega
      obtain ⟨ih1, ih2⟩ := ih rest ((acc * 16 + a) * 16 + b) hl hrest
      simp only [Hex2Bytes, ha, hb, List.length_cons, List.foldl_cons, Option.getD_some]
      refine ⟨by rw [ih1], ?_⟩
      rw [← ih2]
      congr 1
      ring
    | [], hlen, _ => simp at hlen
    | [_], hlen, _ => simp only [List.length_cons, List.length_nil] at hlen; omega

theorem HexToAddress_of_IsHexAddress (value : String)
    (h : IsHexAddress value.data = true) :
    (hexDigits value).length = 40 ∧ (hexDigits value).all isHexCharacter = true ∧
      HexToAddress value.data = hexNumber (hexDigits value) := by
  have h2 : (hexDigits value).length = 40 ∧ isHex (hexDigits value) = true := by
    simpa [IsHexAddress, hexDigits, AddressLength] using h
  obtain ⟨hlen, hhex⟩ := h2
  have hlen2 : (hexDigits value).length = 2 * 20 := hlen
  have hall : (hexDigits value).all isHexCharacter = true := by
    unfold isHex at hhex
    by_cases hc : ((hexDigits value).length % 2 != 0) = true
    · rw [if_pos hc] at hhex; cases hhex
    · rw [if_neg hc] at hhex; exact hhex
  obtain ⟨hb1, hb2⟩ := Hex2Bytes_of_digits 20 (hexDigits value) 0 hlen2 hall
  refine ⟨hlen, hall, ?_⟩
  have hfrom : FromHex value.data = Hex2Bytes (hexDigits value) := by
    have hmod : ((hexDigits value).length % 2 == 1) = false := by rw [hlen]; rfl
    show Hex2Bytes (if (hexDigits value).length % 2 == 1 then _ else hexDigits value) = _
    rw [hmod]
    rfl
  unfold HexToAddress BytesToAddress
  rw [hfrom]
  have hgt : ¬ (Hex2Bytes (hexDigits value)).length > AddressLength := by
    rw [hb1]; exact Nat.lt_irrefl _
  simp only [hgt, if_false]
  exact hb2


/-! ## Lemmas on the bridge-transaction handlers -/

theorem StoreTransactionDeposits_failed (rows : List TransactionDeposit) (db : DB)
    (e : GoError) (h : (StoreTransactionDeposits rows db).2 = some e) :
    (StoreTransactionDeposits rows db).1 = db := by
  unfold StoreTransactionDeposits at h ⊢
  rcases hc : gormCreate (fun d => d.DepositHash) rows db.transaction_deposits with e2 | t
  · rw [hc]
  · rw [hc] at h; cases h

theorem StoreTransactionWithdrawals_failed (rows : List TransactionWithdrawal) (db : DB)
    (e : GoError) (h : (StoreTransactionWithdrawals rows db).2 = some e) :
    (StoreTransactionWithdrawals rows db).1 = db := by
  unfold StoreTransactionWithdrawals at h ⊢
  rcases hc : gormCreate (fun w => w.WithdrawalHash) rows db.transaction_withdrawals
    with e2 | t
  · rw [hc]
  · rw [hc] at h; cases h

theorem afterDeposits_failed (portalDeposits : List OptimismPortalTransactionDepositEvent)
    (db : DB) (e : GoError)
    (h : (StoreTransactionDeposits (portalDeposits.map l1TransactionDeposit) db).2 = some e) :
    afterDeposits portalDeposits db = db := by
  unfold afterDeposits
  split
  · exact StoreTransactionDeposits_failed _ _ e h
  · rfl

theorem l1ProcessContractEventsBridgeTransactions_eq (env : L1Env) (c : L1Contracts)
    (events : ProcessedContractEvents) (db : DB)
    (portalDeposits : List OptimismPortalTransactionDepositEvent)
    (hd : env.OptimismPortalTransactionDepositEvents events = .ok portalDeposits) :
    l1ProcessContractEventsBridgeTransactions env c events db =
      match env.LatestL2BlockHeader with
      | .error _ => (afterDeposits portalDeposits db, .nil)
      | .ok latestL2Header =>
        match env.OptimismPortalWithdrawalProvenEvents events with
        | .error e => (afterDeposits portalDeposits db, .err e)
        | .ok provenWithdrawals =>
          match forRange (l1ProveWithdrawal env c latestL2Header) provenWithdrawals
            (afterDeposits portalDeposits db) with
          | (db, .nil) =>
            match env.OptimismPortalWithdrawalFinalizedEvents events with
            | .error e => (db, .err e)
            | .ok finalizedWithdrawals => forRange l1FinalizeWithdrawal finalizedWithdrawals db
          | stop => stop := by
  unfold l1ProcessContractEventsBridgeTransactions afterDeposits
  simp only [hd]

theorem StoreTransactionDeposits_tw (rows : List TransactionDeposit) (db : DB) :
    (StoreTransactionDeposits rows db).1.transaction_withdrawals =
      db.transaction_withdrawals := by
  unfold StoreTransactionDeposits; split <;> rfl

theorem afterDeposits_tw (portalDeposits : List OptimismPortalTransactionDepositEvent)
    (db : DB) :
    (afterDeposits portalDeposits db).transaction_withdrawals = db.transaction_withdrawals := by
  unfold afterDeposits
  split
  · exact StoreTransactionDeposits_tw _ _
  · rfl

theorem l1ProcessContractEventsBridgeTransactions_td_after (env : L1Env) (c : L1Contracts)
    (events : ProcessedContractEvents) (db : DB)
    (portalDeposits : List OptimismPortalTransactionDepositEvent)
    (hd : env.OptimismPortalTransactionDepositEvents events = .ok portalDeposits) :
    (l1ProcessContractEventsBridgeTransactions env c events db).1.transaction_deposits =
      (afterDeposits portalDeposits db).transaction_deposits := by
  rw [l1ProcessContractEventsBridgeTransactions_eq env c events db portalDeposits hd]
  rcases hl : env.LatestL2BlockHeader with e | latest
  · rfl
  · rcases hp : env.OptimismPortalWithdrawalProvenEvents events with e | proven
    · rfl
    · have h1 := forRange_preserves (fun d => d.transaction_deposits) _
        (l1ProveWithdrawal_td env c latest) proven (afterDeposits portalDeposits db)
      simp only
      rcases hfr : forRange (l1ProveWithdrawal env c latest) proven
        (afterDeposits portalDeposits db) with ⟨db2, o⟩
      rw [hfr] at h1
      simp only at h1
      cases o with
      | nil =>
        simp only
        rcases hf : env.OptimismPortalWithdrawalFinalizedEvents events with e | fin
        · exact h1
        · simp only
          rw [forRange_preserves (fun d => d.transaction_deposits) _ l1FinalizeWithdrawal_td,
            h1]
      | err e => exact h1
      | panic r => exact h1

/-! ## Lemmas on proving and finalizing withdrawals -/

theorem markedProven_hash (h : Hash) (g : UUID) (w : TransactionWithdrawal) :
    (markedProven h g w).WithdrawalHash = w.WithdrawalHash := by
  unfold markedProven; split <;> rfl

theorem markedFinalized_hash (h : Hash) (g : UUID) (w : TransactionWithdrawal) :
    (markedFinalized h g w).WithdrawalHash = w.WithdrawalHash := by
  unfold markedFinalized; split <;> rfl

theorem markedFinalized_proven (h : Hash) (g : UUID) (w : TransactionWithdrawal) :
    (markedFinalized h g w).ProvenL1EventGUID = w.ProvenL1EventGUID := by
  unfold markedFinalized; split <;> rfl

theorem provenBy_cons (p : OptimismPortalWithdrawalProvenEvent)
    (ps : List OptimismPortalWithdrawalProvenEvent) (w : TransactionWithdrawal) :
    provenBy (p :: ps) w = provenBy ps (markedProven p.WithdrawalHash p.RawEvent.GUID w) :=
  rfl

theorem finalizedBy_cons (f : OptimismPortalWithdrawalFinalizedEvent)
    (fs : List OptimismPortalWithdrawalFinalizedEvent) (w : TransactionWithdrawal) :
    finalizedBy (f :: fs) w =
      finalizedBy fs (markedFinalized f.WithdrawalHash f.RawEvent.GUID w) :=
  rfl

theorem provenBy_hash (ps : List OptimismPortalWithdrawalProvenEvent)
    (w : TransactionWithdrawal) : (provenBy ps w).WithdrawalHash = w.WithdrawalHash := by
  induction ps generalizing w with
  | nil => rfl
  | cons p rest ih => rw [provenBy_cons, ih, markedProven_hash]

theorem finalizedBy_hash (fs : List OptimismPortalWithdrawalFinalizedEvent)
    (w : TransactionWithdrawal) : (finalizedBy fs w).WithdrawalHash = w.WithdrawalHash := by
  induction fs generalizing w with
  | nil => rfl
  | cons f rest ih => rw [finalizedBy_cons, ih, markedFinalized_hash]

theorem provenBy_of_no_event (ps : List OptimismPortalWithdrawalProvenEvent)
    (w : TransactionWithdrawal)
    (h : ps.filter (fun x => x.WithdrawalHash == w.WithdrawalHash) = []) :
    provenBy ps w = w := by
  induction ps generalizing w with
  | nil => rfl
  | cons p rest ih =>
    rw [List.filter_cons] at h
    by_cases hp : p.WithdrawalHash = w.WithdrawalHash
    · simp [hp] at h
    · have hb : (p.WithdrawalHash == w.WithdrawalHash) = false := by simpa using hp
      rw [hb] at h
      have hm : markedProven p.WithdrawalHash p.RawEvent.GUID w = w := by
        unfold markedProven
        rw [if_neg (fun hc => hp hc.symm)]
      rw [provenBy_cons, hm]
      exact ih w h

theorem finalizedBy_of_no_event (fs : List OptimismPortalWithdrawalFinalizedEvent)
    (w : TransactionWithdrawal)
    (h : fs.filter (fun x => x.WithdrawalHash == w.WithdrawalHash) = []) :
    finalizedBy fs w = w := by
  induction fs generalizing w with
  | nil => rfl
  | cons f rest ih =>
    rw [List.filter_cons] at h
    by_cases hp : f.WithdrawalHash = w.WithdrawalHash
    · simp [hp] at h
    · have hb : (f.WithdrawalHash == w.WithdrawalHash) = false := by simpa using hp
      rw [hb] at h
      have hm : markedFinalized f.WithdrawalHash f.RawEvent.GUID w = w := by
        unfold markedFinalized
        rw [if_neg (fun hc => hp hc.symm)]
      rw [finalizedBy_cons, hm]
      exact ih w h

theorem provenBy_of_one_event (ps : List OptimismPortalWithdrawalProvenEvent)
    (w : TransactionWithdrawal) (p : OptimismPortalWithdrawalProvenEvent)
    (h : ps.filter (fun x => x.WithdrawalHash == w.WithdrawalHash) = [p]) :
    provenBy ps w = { w with ProvenL1EventGUID := some p.RawEvent.GUID } := by
  induction ps generalizing w with
  | nil => cases h
  | cons q rest ih =>
    rw [List.filter_cons] at h
    by_cases hq : q.WithdrawalHash = w.WithdrawalHash
    · have hb : (q.WithdrawalHash == w.WithdrawalHash) = true := by simpa using hq
      rw [hb] at h
      simp only [if_true, List.cons.injEq] at h
      obtain ⟨rfl, hrest⟩ := h
      have hm : markedProven q.WithdrawalHash q.RawEvent.GUID w =
          { w with ProvenL1EventGUID := some q.RawEvent.GUID } := by
        unfold markedProven
        rw [if_pos hq.symm]
      rw [provenBy_cons, hm]
      exact provenBy_of_no_event rest _ hrest
    · have hb : (q.WithdrawalHash == w.WithdrawalHash) = false := by simpa using hq
      rw [hb] at h
      have hm : markedProven q.WithdrawalHash q.RawEvent.GUID w = w := by
        unfold markedProven
        rw [if_neg (fun hc => hq hc.symm)]
      rw [provenBy_cons, hm]
      exact ih w h

theorem finalizedBy_of_one_event (fs : List OptimismPortalWithdrawalFinalizedEvent)
    (w : TransactionWithdrawal) (f : OptimismPortalWithdrawalFinalizedEvent)
    (h : fs.filter (fun x => x.WithdrawalHash == w.WithdrawalHash) = [f]) :
    finalizedBy fs w = { w with FinalizedL1EventGUID := some f.RawEvent.GUID } := by
  induction fs generalizing w with
  | nil => cases h
  | cons q rest ih =>
    rw [List.filter_cons] at h
    by_cases hq : q.WithdrawalHash = w.WithdrawalHash
    · have hb : (q.WithdrawalHash == w.WithdrawalHash) = true := by simpa using hq
      rw [hb] at h
      simp only [if_true, List.cons.injEq] at h
      obtain ⟨rfl, hrest⟩ := h
      have hm : markedFinalized q.WithdrawalHash q.RawEvent.GUID w =
          { w with FinalizedL1EventGUID := some q.RawEvent.GUID } := by
        unfold markedFinalized
        rw [if_pos hq.symm]
      rw [finalizedBy_cons, hm]
      exact finalizedBy_of_no_event rest _ hrest
    · have hb : (q.WithdrawalHash == w.WithdrawalHash) = false := by simpa using hq
      rw [hb] at h
      have hm : markedFinalized q.WithdrawalHash q.RawEvent.GUID w = w := by
        unfold markedFinalized
        rw [if_neg (fun hc => hq hc.symm)]
      rw [finalizedBy_cons, hm]
      exact ih w h

theorem provenBy_proven (ps : List OptimismPortalWithdrawalProvenEvent)
    (w : TransactionWithdrawal)
    (h : w.ProvenL1EventGUID ≠ none ∨ ∃ p ∈ ps, p.WithdrawalHash = w.WithdrawalHash) :
    (provenBy ps w).ProvenL1EventGUID ≠ none := by
  induction ps generalizing w with
  | nil =>
    rcases h with h | ⟨p, hp, _⟩
    · exact h
    · cases hp
  | cons q rest ih =>
    rw [provenBy_cons]
    apply ih
    by_cases hq : q.WithdrawalHash = w.WithdrawalHash
    · left
      unfold markedProven
      rw [if_pos hq.symm]
      simp
    · have hm : markedProven q.WithdrawalHash q.RawEvent.GUID w = w := by
        unfold markedProven
        rw [if_neg (fun hc => hq hc.symm)]
      rw [hm]
      rcases h with h | ⟨p, hp, hph⟩
      · exact Or.inl h
      · rcases List.mem_cons.mp hp with rfl | hp
        · exact absurd hph hq
        · exact Or.inr ⟨p, hp, hph⟩

theorem TransactionWithdrawalByHash_of_mem (db : DB) (w : TransactionWithdrawal)
    (hpk : (db.transaction_withdrawals.map (fun w => w.WithdrawalHash)).Nodup)
    (hw : w ∈ db.transaction_withdrawals) (hnz : w.WithdrawalHash ≠ emptyHash) :
    TransactionWithdrawalByHash w.WithdrawalHash db = .ok (some w) := by
  rcases ht : gormTake (fun r => r.WithdrawalHash == w.WithdrawalHash)
    db.transaction_withdrawals with e | found
  · have := (gormTake_error ht).2 w hw
    simp at this
  · obtain ⟨hfmem, hfh⟩ := gormTake_ok_mem ht
    have hfh2 : found.WithdrawalHash = w.WithdrawalHash := by simpa using hfh
    have : found = w := eq_of_nodup_map hpk hfmem hw hfh2
    subst this
    unfold TransactionWithdrawalByHash
    rw [gormWhereTake_of_ne _ hnz, ht]

theorem MarkTransactionWithdrawalProvenEvent_map (db : DB) (h : Hash) (g : UUID)
    (hnz : h ≠ emptyHash)
    (hpk : (db.transaction_withdrawals.map (fun w => w.WithdrawalHash)).Nodup)
    (hrow : ∃ w ∈ db.transaction_withdrawals, w.WithdrawalHash = h) :
    MarkTransactionWithdrawalProvenEvent h g db =
      ({ db with transaction_withdrawals :=
          db.transaction_withdrawals.map (markedProven h g) }, none) := by
  rcases ht : gormTake (fun w => w.WithdrawalHash == h) db.transaction_withdrawals
    with e | found
  · obtain ⟨w, hw, hwh⟩ := hrow
    have := (gormTake_error ht).2 w hw
    simp [hwh] at this
  · obtain ⟨hfmem, hfh⟩ := gormTake_ok_mem ht
    have hfh2 : found.WithdrawalHash = h := by simpa using hfh
    have hany : (db.transaction_withdrawals.any (fun r =>
        decide (r.WithdrawalHash = found.WithdrawalHash))) = true := by
      rw [List.any_eq_true]
      exact ⟨found, hfmem, by simp⟩
    have hfnz : found.WithdrawalHash ≠ emptyHash := by rw [hfh2]; exact hnz
    unfold MarkTransactionWithdrawalProvenEvent
    rw [gormWhereTake_of_ne _ hnz, ht]
    dsimp only
    have hs : gormSaveStruct (fun w : TransactionWithdrawal => w.WithdrawalHash) emptyHash
        { found with ProvenL1EventGUID := some g } db.transaction_withdrawals =
        .ok (gormSave (fun w : TransactionWithdrawal => w.WithdrawalHash)
          { found with ProvenL1EventGUID := some g } db.transaction_withdrawals) :=
      by apply gormSaveStruct_of_ne; exact hfnz
    rw [hs]
    simp only [gormSave, hany, if_true]
    congr 2
    apply List.map_congr_left
    intro r hr
    unfold markedProven
    by_cases hrh : r.WithdrawalHash = h
    · have : r = found := eq_of_nodup_map hpk hr hfmem (hrh.trans hfh2.symm)
      subst this
      simp [hrh]
    · have : ¬ r.WithdrawalHash = found.WithdrawalHash := by rw [hfh2]; exact hrh
      simp [hrh, this]

theorem MarkTransactionWithdrawalFinalizedEvent_map (db : DB) (h : Hash) (g : UUID)
    (hnz : h ≠ emptyHash)
    (hpk : (db.transaction_withdrawals.map (fun w => w.WithdrawalHash)).Nodup)
    (hrow : ∃ w ∈ db.transaction_withdrawals, w.WithdrawalHash = h ∧
      w.ProvenL1EventGUID ≠ none) :
    MarkTransactionWithdrawalFinalizedEvent h g db =
      ({ db with transaction_withdrawals :=
          db.transaction_withdrawals.map (markedFinalized h g) }, none) := by
  obtain ⟨w, hw, hwh, hwp⟩ := hrow
  rcases ht : gormTake (fun w => w.WithdrawalHash == h) db.transaction_withdrawals
    with e | found
  · have := (gormTake_error ht).2 w hw
    simp [hwh] at this
  · obtain ⟨hfmem, hfh⟩ := gormTake_ok_mem ht
    have hfh2 : found.WithdrawalHash = h := by simpa using hfh
    have hfw : found = w := eq_of_nodup_map hpk hfmem hw (hfh2.trans hwh.symm)
    have hany : (db.transaction_withdrawals.any (fun r =>
        decide (r.WithdrawalHash = found.WithdrawalHash))) = true := by
      rw [List.any_eq_true]
      exact ⟨found, hfmem, by simp⟩
    have hfp : ¬ found.ProvenL1EventGUID = none := by rw [hfw]; exact hwp
    have hfnz : found.WithdrawalHash ≠ emptyHash := by rw [hfh2]; exact hnz
    unfold MarkTransactionWithdrawalFinalizedEvent
    rw [gormWhereTake_of_ne _ hnz, ht]
    dsimp only
    have hs : gormSaveStruct (fun w : TransactionWithdrawal => w.WithdrawalHash) emptyHash
        { found with FinalizedL1EventGUID := some g } db.transaction_withdrawals =
        .ok (gormSave (fun w : TransactionWithdrawal => w.WithdrawalHash)
          { found with FinalizedL1EventGUID := some g } db.transaction_withdrawals) :=
      by apply gormSaveStruct_of_ne; exact hfnz
    rw [if_neg hfp, hs]
    simp only [gormSave, hany, if_true]
    congr 2
    apply List.map_congr_left
    intro r hr
    unfold markedFinalized
    by_cases hrh : r.WithdrawalHash = h
    · have : r = found := eq_of_nodup_map hpk hr hfmem (hrh.trans hfh2.symm)
      subst this
      simp [hrh]
    · have : ¬ r.WithdrawalHash = found.WithdrawalHash := by rw [hfh2]; exact hrh
      simp [hrh, this]

theorem l1ProveWithdrawal_present (env : L1Env) (c : L1Contracts)
    (latest : Option L2BlockHeader) (ev : OptimismPortalWithdrawalProvenEvent) (db : DB)
    (hnz : ev.WithdrawalHash ≠ emptyHash)
    (hpk : (db.transaction_withdrawals.map (fun w => w.WithdrawalHash)).Nodup)
    (hrow : ∃ w ∈ db.transaction_withdrawals, w.WithdrawalHash = ev.WithdrawalHash) :
    l1ProveWithdrawal env c latest ev db =
      ({ db with
          transaction_withdrawals :=
            db.transaction_withdrawals.map (markedProven ev.WithdrawalHash ev.RawEvent.GUID) },
        .nil) := by
  obtain ⟨w, hw, hwh⟩ := hrow
  have hl := TransactionWithdrawalByHash_of_mem db w hpk hw (by rw [hwh]; exact hnz)
  rw [hwh] at hl
  have hm := MarkTransactionWithdrawalProvenEvent_map db ev.WithdrawalHash ev.RawEvent.GUID
    hnz hpk ⟨w, hw, hwh⟩
  unfold l1ProveWithdrawal
  simp only [hl, hm]

theorem l1FinalizeWithdrawal_present (ev : OptimismPortalWithdrawalFinalizedEvent) (db : DB)
    (hnz : ev.WithdrawalHash ≠ emptyHash)
    (hpk : (db.transaction_withdrawals.map (fun w => w.WithdrawalHash)).Nodup)
    (hrow : ∃ w ∈ db.transaction_withdrawals, w.WithdrawalHash = ev.WithdrawalHash ∧
      w.ProvenL1EventGUID ≠ none) :
    l1FinalizeWithdrawal ev db =
      ({ db with
          transaction_withdrawals :=
            db.transaction_withdrawals.map
              (markedFinalized ev.WithdrawalHash ev.RawEvent.GUID) },
        .nil) := by
  obtain ⟨w, hw, hwh, hwp⟩ := hrow
  have hl := TransactionWithdrawalByHash_of_mem db w hpk hw (by rw [hwh]; exact hnz)
  rw [hwh] at hl
  have hm := MarkTransactionWithdrawalFinalizedEvent_map db ev.WithdrawalHash
    ev.RawEvent.GUID hnz hpk ⟨w, hw, hwh, hwp⟩
  unfold l1FinalizeWithdrawal
  simp only [hl, hm]

theorem forRange_l1ProveWithdrawal (env : L1Env) (c : L1Contracts)
    (latest : Option L2BlockHeader) (ps : List OptimismPortalWithdrawalProvenEvent) (db : DB)
    (hnz : ∀ p ∈ ps, p.WithdrawalHash ≠ emptyHash)
    (hpk : (db.transaction_withdrawals.map (fun w => w.WithdrawalHash)).Nodup)
    (hrows : ∀ p ∈ ps, ∃ w ∈ db.transaction_withdrawals,
      w.WithdrawalHash = p.WithdrawalHash) :
    forRange (l1ProveWithdrawal env c latest) ps db =
      ({ db with transaction_withdrawals := db.transaction_withdrawals.map (provenBy ps) },
        .nil) := by
  induction ps generalizing db with
  | nil =>
    simp only [forRange]
    have : db.transaction_withdrawals.map (provenBy []) = db.transaction_withdrawals :=
      (List.map_congr_left (fun _ _ => rfl)).trans (List.map_id _)
    rw [this]
  | cons p rest ih =>
    have hstep := l1ProveWithdrawal_present env c latest p db
      (hnz p (List.mem_cons_self _ _)) hpk (hrows p (List.mem_cons_self _ _))
    simp only [forRange, hstep]
    have hhash : (db.transaction_withdrawals.map
        (markedProven p.WithdrawalHash p.RawEvent.GUID)).map (fun w => w.WithdrawalHash) =
        db.transaction_withdrawals.map (fun w => w.WithdrawalHash) := by
      rw [List.map_map]
      apply List.map_congr_left
      intro w _
      exact markedProven_hash _ _ w
    rw [ih]
    · dsimp only
      rw [List.map_map]
      rfl
    · exact fun q hq => hnz q (List.mem_cons_of_mem _ hq)
    · show ((db.transaction_withdrawals.map
        (markedProven p.WithdrawalHash p.RawEvent.GUID)).map
          (fun w => w.WithdrawalHash)).Nodup
      rw [hhash]; exact hpk
    · intro q hq
      obtain ⟨w, hw, hwh⟩ := hrows q (List.mem_cons_of_mem _ hq)
      exact ⟨markedProven p.WithdrawalHash p.RawEvent.GUID w, List.mem_map_of_mem _ hw,
        by rw [markedProven_hash]; exact hwh⟩

theorem forRange_l1FinalizeWithdrawal (fs : List OptimismPortalWithdrawalFinalizedEvent)
    (db : DB) (hnz : ∀ f ∈ fs, f.WithdrawalHash ≠ emptyHash)
    (hpk : (db.transaction_withdrawals.map (fun w => w.WithdrawalHash)).Nodup)
    (hrows : ∀ f ∈ fs, ∃ w ∈ db.transaction_withdrawals,
      w.WithdrawalHash = f.WithdrawalHash ∧ w.ProvenL1EventGUID ≠ none) :
    forRange l1FinalizeWithdrawal fs db =
      ({ db with transaction_withdrawals := db.transaction_withdrawals.map (finalizedBy fs) },
        .nil) := by
  induction fs generalizing db with
  | nil =>
    simp only [forRange]
    have : db.transaction_withdrawals.map (finalizedBy []) = db.transaction_withdrawals :=
      (List.map_congr_left (fun _ _ => rfl)).trans (List.map_id _)
    rw [this]
  | cons f rest ih =>
    have hstep := l1FinalizeWithdrawal_present f db (hnz f (List.mem_cons_self _ _)) hpk
      (hrows f (List.mem_cons_self _ _))
    simp only [forRange, hstep]
    have hhash : (db.transaction_withdrawals.map
        (markedFinalized f.WithdrawalHash f.RawEvent.GUID)).map (fun w => w.WithdrawalHash) =
        db.transaction_withdrawals.map (fun w => w.WithdrawalHash) := by
      rw [List.map_map]
      apply List.map_congr_left
      intro w _
      exact markedFinalized_hash _ _ w
    rw [ih]
    · dsimp only
      rw [List.map_map]
      rfl
    · exact fun q hq => hnz q (List.mem_cons_of_mem _ hq)
    · show ((db.transaction_withdrawals.map
        (markedFinalized f.WithdrawalHash f.RawEvent.GUID)).map
          (fun w => w.WithdrawalHash)).Nodup
      rw [hhash]; exact hpk
    · intro q hq
      obtain ⟨w, hw, hwh, hwp⟩ := hrows q (List.mem_cons_of_mem _ hq)
      exact ⟨markedFinalized f.WithdrawalHash f.RawEvent.GUID w, List.mem_map_of_mem _ hw,
        by rw [markedFinalized_hash]; exact hwh,
        by rw [markedFinalized_proven]; exact hwp⟩

/-! ## Lemmas on the log loops -/

theorem blockTime_of_get {headerMap : GoMap Hash Header} {blockHash : Hash} {header : Header}
    (h : headerMap.get blockHash = some header) : blockTime headerMap blockHash = header.Time := by
  unfold blockTime
  rw [h]
  rfl

theorem l1ProcessLog_events (env : L1Env) (headerMap : GoMap Hash Header) (i : Nat)
    (log : Log) (acc out : L1Logs) (h : l1ProcessLog env headerMap i log acc = .ok out) :
    out.processedContractEvents =
      (acc.processedContractEvents.AddLog (env.eventGUID i) log
        (blockTime headerMap log.BlockHash)).1 ∧
    out.l1ContractEvents = acc.l1ContractEvents ++
      [⟨eventOfLog (env.eventGUID i) log (blockTime headerMap log.BlockHash)⟩] := by
  unfold l1ProcessLog at h
  rcases hh : headerMap.get log.BlockHash with _ | header
  · rw [hh] at h; cases h
  · rw [hh] at h
    rw [blockTime_of_get hh]
    simp only [ProcessedContractEvents.AddLog] at h
    by_cases h1 : log.Topics.headD 0 = env.outputProposedEventSig
    · rw [if_pos h1] at h
      rcases hu : env.UnpackOutputProposed log with e | v
      · rw [hu] at h; cases h
      · rw [hu] at h
        cases h
        exact ⟨rfl, rfl⟩
    · rw [if_neg h1] at h
      by_cases h2 : log.Topics.headD 0 = env.legacyStateBatchAppendedEventSig
      · rw [if_pos h2] at h
        rcases hu : env.UnpackStateBatchAppended log with e | v
        · rw [hu] at h; cases h
        · rw [hu] at h
          cases h
          exact ⟨rfl, rfl⟩
      · rw [if_neg h2] at h
        cases h
        exact ⟨rfl, rfl⟩

theorem l1ProcessLogs_events (env : L1Env) (headerMap : GoMap Hash Header) (logs : List Log)
    (i : Nat) (acc out : L1Logs) (h : l1ProcessLogs env headerMap i logs acc = .ok out) :
    out.processedContractEvents =
      registerLogs env.eventGUID headerMap i logs acc.processedContractEvents ∧
    out.l1ContractEvents = acc.l1ContractEvents ++
      (eventsOfLogs env.eventGUID headerMap i logs).map (fun ev => ⟨ev⟩) := by
  induction logs generalizing i acc with
  | nil =>
    simp only [l1ProcessLogs] at h
    cases h
    exact ⟨rfl, by simp [eventsOfLogs]⟩
  | cons log rest ih =>
    simp only [l1ProcessLogs] at h
    rcases hstep : l1ProcessLog env headerMap i log acc with e | mid
    · rw [hstep] at h; cases h
    · rw [hstep] at h
      obtain ⟨hm1, hm2⟩ := l1ProcessLog_events env headerMap i log acc mid hstep
      obtain ⟨ho1, ho2⟩ := ih (i + 1) mid h
      refine ⟨?_, ?_⟩
      · rw [ho1, hm1]; rfl
      · rw [ho2, hm2]
        simp [eventsOfLogs]

theorem l2ProcessLogs_events (env : L2Env) (headerMap : GoMap Hash Header) (logs : List Log)
    (i : Nat) (acc out : L2Logs) (h : l2ProcessLogs env headerMap i logs acc = .ok out) :
    out.processedContractEvents =
      registerLogs env.eventGUID headerMap i logs acc.processedContractEvents ∧
    out.l2ContractEvents = acc.l2ContractEvents ++
      (eventsOfLogs env.eventGUID headerMap i logs).map (fun ev => ⟨ev⟩) := by
  induction logs generalizing i acc with
  | nil =>
    simp only [l2ProcessLogs] at h
    cases h
    exact ⟨rfl, by simp [eventsOfLogs]⟩
  | cons log rest ih =>
    simp only [l2ProcessLogs] at h
    rcases hh : headerMap.get log.BlockHash with _ | header
    · rw [hh] at h; cases h
    · rw [hh] at h
      obtain ⟨ho1, ho2⟩ := ih (i + 1) _ h
      refine ⟨?_, ?_⟩
      · rw [ho1]
        simp only [registerLogs, blockTime_of_get hh]
      · rw [ho2]
        simp only [eventsOfLogs, blockTime_of_get hh, List.map_cons, List.append_assoc,
          List.singleton_append]
        rfl

theorem registerLogs_events (guid : Nat → UUID) (headerMap : GoMap Hash Header)
    (logs : List Log) (i : Nat) (p : ProcessedContractEvents) :
    (registerLogs guid headerMap i logs p).events =
      p.events ++ eventsOfLogs guid headerMap i logs := by
  induction logs generalizing i p with
  | nil => simp [registerLogs, eventsOfLogs]
  | cons log rest ih =>
    simp only [registerLogs, eventsOfLogs]
    rw [ih]
    simp [ProcessedContractEvents.AddLog, eventOfLog, NewProcessedContractEvents]

theorem eventsOfLogs_map_GUID (guid : Nat → UUID) (headerMap : GoMap Hash Header)
    (logs : List Log) (i : Nat) :
    (eventsOfLogs guid headerMap i logs).map (fun ev => ev.GUID) =
      (List.range' i logs.length).map guid := by
  induction logs generalizing i with
  | nil => rfl
  | cons log rest ih =>
    simp only [eventsOfLogs, List.map_cons, List.length_cons, List.range'_succ, ih]
    rfl

theorem eventsOfLogs_getElem? (guid : Nat → UUID) (headerMap : GoMap Hash Header)
    (logs : List Log) (i j : Nat) :
    (eventsOfLogs guid headerMap i logs)[j]? =
      logs[j]?.map (fun log =>
        eventOfLog (guid (i + j)) log (blockTime headerMap log.BlockHash)) := by
  induction logs generalizing i j with
  | nil => simp [eventsOfLogs]
  | cons log rest ih =>
    cases j with
    | zero => simp [eventsOfLogs]
    | succ j =>
      simp only [eventsOfLogs, List.getElem?_cons_succ]
      rw [ih]
      have : i + 1 + j = i + (j + 1) := by omega
      rw [this]

theorem mem_eventsOfLogs {guid : Nat → UUID} {headerMap : GoMap Hash Header}
    {logs : List Log} {i : Nat} {ev : ContractEvent}
    (h : ev ∈ eventsOfLogs guid headerMap i logs) :
    ∃ j log, logs[j]? = some log ∧ (eventsOfLogs guid headerMap i logs)[j]? = some ev ∧
      ev = eventOfLog (guid (i + j)) log (blockTime headerMap log.BlockHash) := by
  obtain ⟨j, hj⟩ := List.mem_iff_getElem?.mp h
  have h2 := eventsOfLogs_getElem? guid headerMap logs i j
  rw [hj] at h2
  rcases hl : logs[j]? with _ | log
  · rw [hl] at h2; cases h2
  · rw [hl] at h2
    simp only [Option.map_some', Option.some.injEq] at h2
    exact ⟨j, log, hl, hj, h2⟩

theorem NewProcessedContractEvents_consistent : NewProcessedContractEvents.Consistent := by
  refine ⟨?_, ?_, ?_⟩
  · intro ev hev; cases hev
  · intro key ev h; cases h
  · rintro key ⟨ev, hev, _⟩; cases hev

theorem AddLog_consistent (p : ProcessedContractEvents) (guid : UUID) (log : Log) (time : Nat)
    (hp : p.Consistent) (hnew : guid ∉ p.events.map (fun ev => ev.GUID)) :
    (p.AddLog guid log time).1.Consistent := by
  obtain ⟨h1, h2, h3⟩ := hp
  refine ⟨?_, ?_, ?_⟩
  · intro ev hev
    simp only [ProcessedContractEvents.AddLog, List.mem_append, List.mem_singleton] at hev ⊢
    rw [GoMap_get_set]
    rcases hev with hev | rfl
    · have hne : ¬ guid = ev.GUID := by
        intro hc
        exact hnew (List.mem_map.mpr ⟨ev, hev, hc.symm⟩)
      rw [if_neg hne]
      exact h1 ev hev
    · exact ⟨log, by simp, rfl, rfl⟩
  · intro key ev hget
    simp only [ProcessedContractEvents.AddLog] at hget ⊢
    rw [GoMap_get_set] at hget
    by_cases hk : (log.BlockHash, log.Index) = key
    · rw [if_pos hk] at hget
      cases hget
      exact ⟨by simp, hk⟩
    · rw [if_neg hk] at hget
      obtain ⟨hm, hkey⟩ := h2 key ev hget
      exact ⟨List.mem_append_left _ hm, hkey⟩
  · rintro key ⟨ev, hev, hkey⟩
    simp only [ProcessedContractEvents.AddLog, List.mem_append, List.mem_singleton] at hev ⊢
    rw [GoMap_get_set]
    by_cases hk : (log.BlockHash, log.Index) = key
    · rw [if_pos hk]; rfl
    · rw [if_neg hk]
      rcases hev with hev | rfl
      · exact h3 key ⟨ev, hev, hkey⟩
      · exact absurd hkey hk

theorem registerLogs_consistent (guid : Nat → UUID) (headerMap : GoMap Hash Header)
    (logs : List Log) (i : Nat) (p : ProcessedContractEvents) (hp : p.Consistent)
    (hnodup : (p.events.map (fun ev => ev.GUID) ++
      (List.range' i logs.length).map guid).Nodup) :
    (registerLogs guid headerMap i logs p).Consistent := by
  induction logs generalizing i p with
  | nil => exact hp
  | cons log rest ih =>
    simp only [registerLogs]
    simp only [List.length_cons, List.range'_succ, List.map_cons] at hnodup
    have hnew : guid i ∉ p.events.map (fun ev => ev.GUID) := by
      intro hc
      have := (List.nodup_append.mp hnodup).2.2
      exact this hc (List.mem_cons_self _ _)
    apply ih
    · exact AddLog_consistent p (guid i) log _ hp hnew
    · have hperm : ((p.AddLog (guid i) log (blockTime headerMap log.BlockHash)).1.events.map
          (fun ev => ev.GUID) ++ (List.range' (i + 1) rest.length).map guid) =
          p.events.map (fun ev => ev.GUID) ++
            (guid i :: (List.range' (i + 1) rest.length).map guid) := by
        simp [ProcessedContractEvents.AddLog]
      rw [hperm]
      exact hnodup

theorem adjacent_of_consistent (p : ProcessedContractEvents) (hp : p.Consistent)
    (ev : ContractEvent) (hev : ev ∈ p.events) :
    ∃ log, p.eventLog.get ev.GUID = some log ∧
      ((∃ other ∈ p.events, other.BlockHash = ev.BlockHash ∧
          other.LogIndex = (ev.LogIndex + 1) % 2 ^ 64) →
        ∃ adjacent adjacentLog,
          p.eventByLogIndex.get (log.BlockHash, (log.Index + 1) % 2 ^ 64) = some adjacent ∧
          p.eventLog.get adjacent.GUID = some adjacentLog ∧
          adjacentLog.BlockHash = ev.BlockHash ∧
          adjacentLog.Index = (ev.LogIndex + 1) % 2 ^ 64) ∧
      ((¬ ∃ other ∈ p.events, other.BlockHash = ev.BlockHash ∧
          other.LogIndex = (ev.LogIndex + 1) % 2 ^ 64) →
        p.eventByLogIndex.get (log.BlockHash, (log.Index + 1) % 2 ^ 64) = none) := by
  obtain ⟨h1, h2, h3⟩ := hp
  obtain ⟨log, hlog, hb, hi⟩ := h1 ev hev
  refine ⟨log, hlog, ?_, ?_⟩
  · rintro ⟨other, hother, hob, hoi⟩
    have hsome := h3 (log.BlockHash, (log.Index + 1) % 2 ^ 64)
      ⟨other, hother, by rw [hob, hoi, hb, hi]⟩
    rcases hget : p.eventByLogIndex.get (log.BlockHash, (log.Index + 1) % 2 ^ 64)
      with _ | adjacent
    · rw [hget] at hsome; cases hsome
    · obtain ⟨hmem, hkey⟩ := h2 _ adjacent hget
      obtain ⟨alog, halog, hab, hai⟩ := h1 adjacent hmem
      simp only [Prod.mk.injEq] at hkey
      refine ⟨adjacent, alog, rfl, halog, ?_, ?_⟩
      · rw [hab, hkey.1, hb]
      · rw [hai, hkey.2, hi]
  · intro hnone
    rcases hget : p.eventByLogIndex.get (log.BlockHash, (log.Index + 1) % 2 ^ 64)
      with _ | adjacent
    · rfl
    · exfalso
      obtain ⟨hmem, hkey⟩ := h2 _ adjacent hget
      simp only [Prod.mk.injEq] at hkey
      exact hnone ⟨adjacent, hmem, by rw [hkey.1, hb], by rw [hkey.2, hi]⟩

theorem mem_eventsOfLogs_iff_position (guid : Nat → UUID) (headerMap : GoMap Hash Header)
    (logs : List Log) (i : Nat) (blockHash : Hash) (index : Nat) :
    (∃ ev ∈ eventsOfLogs guid headerMap i logs,
        ev.BlockHash = blockHash ∧ ev.LogIndex = index) ↔
      ∃ log ∈ logs, log.BlockHash = blockHash ∧ log.Index = index := by
  constructor
  · rintro ⟨ev, hev, hb, hi⟩
    obtain ⟨j, log, hlog, _, rfl⟩ := mem_eventsOfLogs hev
    exact ⟨log, List.mem_iff_getElem?.mpr ⟨j, hlog⟩, hb, hi⟩
  · rintro ⟨log, hlog, hb, hi⟩
    obtain ⟨j, hj⟩ := List.mem_iff_getElem?.mp hlog
    have h2 := eventsOfLogs_getElem? guid headerMap logs i j
    rw [hj] at h2
    exact ⟨_, List.mem_iff_getElem?.mpr ⟨j, h2⟩, hb, hi⟩

theorem adjacent_of_registerLogs (guid : Nat → UUID) (headerMap : GoMap Hash Header)
    (logs : List Log) (hnodup : ((List.range logs.length).map guid).Nodup)
    (ev : ContractEvent)
    (hev : ev ∈ (registerLogs guid headerMap 0 logs NewProcessedContractEvents).events) :
    ∃ log, (registerLogs guid headerMap 0 logs NewProcessedContractEvents).eventLog.get
        ev.GUID = some log ∧
      ((∃ other ∈ logs, other.BlockHash = ev.BlockHash ∧
          other.Index = (ev.LogIndex + 1) % 2 ^ 64) →
        ∃ adjacent adjacentLog,
          (registerLogs guid headerMap 0 logs NewProcessedContractEvents).eventByLogIndex.get
            (log.BlockHash, (log.Index + 1) % 2 ^ 64) = some adjacent ∧
          (registerLogs guid headerMap 0 logs NewProcessedContractEvents).eventLog.get
            adjacent.GUID = some adjacentLog ∧
          adjacentLog.BlockHash = ev.BlockHash ∧
          adjacentLog.Index = (ev.LogIndex + 1) % 2 ^ 64) ∧
      ((¬ ∃ other ∈ logs, other.BlockHash = ev.BlockHash ∧
          other.Index = (ev.LogIndex + 1) % 2 ^ 64) →
        (registerLogs guid headerMap 0 logs NewProcessedContractEvents).eventByLogIndex.get
          (log.BlockHash, (log.Index + 1) % 2 ^ 64) = none) := by
  have hcons := registerLogs_consistent guid headerMap logs 0 NewProcessedContractEvents
    NewProcessedContractEvents_consistent
    (by
      rw [← List.range_eq_range']
      simpa [NewProcessedContractEvents] using hnodup)
  have hevents := registerLogs_events guid headerMap logs 0 NewProcessedContractEvents
  have hiff := mem_eventsOfLogs_iff_position guid headerMap logs 0 ev.BlockHash
    ((ev.LogIndex + 1) % 2 ^ 64)
  have hevents2 : (registerLogs guid headerMap 0 logs NewProcessedContractEvents).events =
      eventsOfLogs guid headerMap 0 logs := by
    rw [hevents]; rfl
  obtain ⟨log, hlog, hpos, hneg⟩ := adjacent_of_consistent _ hcons ev hev
  rw [hevents2] at hpos hneg
  refine ⟨log, hlog, ?_, ?_⟩
  · intro h
    exact hpos (hiff.mpr h)
  · intro h
    exact hneg (fun hc => h (hiff.mp hc))

/-! ## Lemmas on the events handed to the event stores -/

theorem storedL1Events_of_calls {db1 db2 : DB} (h : db1.calls = db2.calls) :
    db1.storedL1Events = db2.storedL1Events := by
  unfold DB.storedL1Events; rw [h]

theorem storedL2Events_of_calls {db1 db2 : DB} (h : db1.calls = db2.calls) :
    db1.storedL2Events = db2.storedL2Events := by
  unfold DB.storedL2Events; rw [h]

theorem l1UpdateDatabase_storedL1Events (env : L1Env) (c : L1Contracts)
    (indexed : List L1BlockHeader) (logs : L1Logs) (db : DB)
    (hpos : indexed.length > 0)
    (hstore : env.storeResult db.calls (.StoreL1BlockHeaders indexed) = none) :
    (l1UpdateDatabase env c indexed logs db).1.storedL1Events =
      db.storedL1Events ++ logs.l1ContractEvents := by
  unfold l1UpdateDatabase
  simp only [hpos, if_true]
  have h1 : db.store env.storeResult (.StoreL1BlockHeaders indexed) =
      ({ db with calls := db.calls ++ [.StoreL1BlockHeaders indexed] }, none) := by
    unfold DB.store; rw [hstore]
  rw [h1]
  simp only
  have e2 : ∀ r, ((({ db with calls := db.calls ++ [.StoreL1BlockHeaders indexed] } : DB).store
      env.storeResult (.StoreL1ContractEvents logs.l1ContractEvents)).1 = r) →
      r.storedL1Events = db.storedL1Events ++ logs.l1ContractEvents := by
    intro r hr
    rw [← hr]
    simp [DB.storedL1Events, DB.store, StoreCall.l1Events]
  rcases h2 : ({ db with calls := db.calls ++ [.StoreL1BlockHeaders indexed] } : DB).store
    env.storeResult (.StoreL1ContractEvents logs.l1ContractEvents) with ⟨db2, _ | e⟩
  · have e2b := e2 db2 (by rw [h2])
    simp only
    have e3 : (if logs.outputProposals.length > 0 then
        db2.store env.storeResult (.StoreOutputProposals logs.outputProposals)
        else (db2, none)).1.storedL1Events = db2.storedL1Events := by
      split
      · simp [DB.storedL1Events, DB_store_calls, StoreCall.l1Events]
      · rfl
    rcases h3 : (if logs.outputProposals.length > 0 then
        db2.store env.storeResult (.StoreOutputProposals logs.outputProposals)
        else (db2, none)) with ⟨db3, _ | e⟩
    · rw [h3] at e3
      simp only at e3 ⊢
      have e4 := l1ProcessContractEventsBridgeTransactions_calls env c
        logs.processedContractEvents db3
      rcases h4 : l1ProcessContractEventsBridgeTransactions env c
        logs.processedContractEvents db3 with ⟨db4, o⟩
      rw [h4] at e4
      simp only at e4
      have e4b : db4.storedL1Events = db3.storedL1Events := storedL1Events_of_calls e4
      cases o with
      | nil =>
        simp only
        have e5 := l1ProcessContractEventsStandardBridge_calls env
          logs.processedContractEvents db4
        rw [storedL1Events_of_calls e5, e4b, e3, e2b]
      | err e => simp only; rw [e4b, e3, e2b]
      | panic r => simp only; rw [e4b, e3, e2b]
    · rw [h3] at e3
      simp only at e3 ⊢
      rw [e3, e2b]
  · exact e2 db2 (by rw [h2])

theorem indexedL1Headers_pos_iff (headers : List Header) (logs : List Log)
    (interest : GoMap Hash Bool)
    (hkeys : ∀ k, (interest.get k).isSome = logs.any (fun log => log.BlockHash == k))
    (hbatch : ∀ log ∈ logs, ∃ header ∈ headers, header.Hash = log.BlockHash) :
    (indexedL1Headers headers interest).length > 0 ↔ logs.length > 0 := by
  rw [indexedL1Headers_eq, List.length_map]
  constructor
  · intro h
    obtain ⟨header, hmem⟩ := List.exists_mem_of_length_pos h
    have hf := (List.mem_filter.mp hmem).2
    rw [hkeys] at hf
    obtain ⟨log, hlog, _⟩ := List.any_eq_true.mp hf
    exact List.length_pos_of_mem hlog
  · intro h
    obtain ⟨log, hlog⟩ := List.exists_mem_of_length_pos h
    obtain ⟨header, hmem, heq⟩ := hbatch log hlog
    apply List.length_pos_of_mem (a := header)
    apply List.mem_filter.mpr
    refine ⟨hmem, ?_⟩
    rw [hkeys]
    exact List.any_eq_true.mpr ⟨log, hlog, by simp [heq]⟩

/-! ## Lemmas on the rows a run inserts -/

theorem initiatedByEventOf_eventsOfLogs (guid : Nat → UUID) (headerMap : GoMap Hash Header)
    (logs : List Log) (i : Nat) (ev : ContractEvent)
    (h : ev ∈ eventsOfLogs guid headerMap i logs) :
    initiatedByEventOf (eventsOfLogs guid headerMap i logs) logs ev.GUID = true := by
  induction logs generalizing i with
  | nil => cases h
  | cons log rest ih =>
    simp only [eventsOfLogs, List.mem_cons] at h
    unfold initiatedByEventOf
    simp only [eventsOfLogs, List.zip_cons_cons, List.any_cons, Bool.or_eq_true]
    rcases h with rfl | h
    · left
      simp [eventOfLog, ProcessedContractEvents.AddLog]
    · right
      exact ih (i + 1) h

theorem buildRange_mem {α β : Type} (body : Nat → α → Res β) (i : Nat) (xs : List α)
    (ys : List β) (h : buildRange body i xs = .ok ys) :
    ∀ y ∈ ys, ∃ j x, x ∈ xs ∧ body j x = .ok y := by
  induction xs generalizing i ys with
  | nil =>
    simp only [buildRange] at h
    cases h
    intro y hy
    cases hy
  | cons x rest ih =>
    simp only [buildRange] at h
    rcases hb : body i x with y0 | e | r
    · rw [hb] at h
      rcases hr : buildRange body (i + 1) rest with ys0 | e | r
      · rw [hr] at h
        cases h
        intro y hy
        rcases List.mem_cons.mp hy with rfl | hy
        · exact ⟨i, x, List.mem_cons_self _ _, hb⟩
        · obtain ⟨j, x2, hx2, hbody⟩ := ih (i + 1) ys0 hr y hy
          exact ⟨j, x2, List.mem_cons_of_mem _ hx2, hbody⟩
      · rw [hr] at h; cases h
      · rw [hr] at h; cases h
    · rw [hb] at h; cases h
    · rw [hb] at h; cases h

theorem l1BridgeDeposit_initiated (env : L1Env) (events : ProcessedContractEvents) (i : Nat)
    (ev : StandardBridgeInitiatedEvent) (d : BridgeDeposit)
    (h : l1BridgeDeposit env events i ev = .ok d) :
    d.InitiatedL1EventGUID = ev.RawEvent.GUID := by
  unfold l1BridgeDeposit at h
  rcases h1 : events.eventLog.get ev.RawEvent.GUID with _ | log
  · rw [h1] at h; cases h
  · rw [h1] at h
    dsimp only at h
    rcases h2 : events.eventByLogIndex.get (log.BlockHash, (log.Index + 1) % 2 ^ 64)
      with _ | adjacent
    · rw [h2] at h; cases h
    · rw [h2] at h
      dsimp only at h
      rcases h3 : env.UnmarshalDepositLogEvent (events.eventLog.get adjacent.GUID)
        with tx | e | r
      · rw [h3] at h
        cases h
        rfl
      · rw [h3] at h; cases h
      · rw [h3] at h; cases h

theorem l2BridgeWithdrawal_initiated (env : L2Env) (events : ProcessedContractEvents)
    (i : Nat) (ev : StandardBridgeInitiatedEvent) (w : BridgeWithdrawal)
    (h : l2BridgeWithdrawal env events i ev = .ok w) :
    w.InitiatedL2EventGUID = ev.RawEvent.GUID := by
  unfold l2BridgeWithdrawal at h
  rcases h1 : events.eventLog.get ev.RawEvent.GUID with _ | log
  · rw [h1] at h; cases h
  · rw [h1] at h
    dsimp only at h
    rcases h2 : events.eventByLogIndex.get (log.BlockHash, (log.Index + 1) % 2 ^ 64)
      with _ | adjacent
    · rw [h2] at h; cases h
    · rw [h2] at h
      dsimp only at h
      rcases h3 : env.UnpackMessagePassed (events.eventLog.get adjacent.GUID) with m | e | r
      · rw [h3] at h
        cases h
        rfl
      · rw [h3] at h; cases h
      · rw [h3] at h; cases h

theorem gormCreate_cases {α κ : Type} [DecidableEq κ] (pk : α → κ) (rows table : List α) :
    (∃ e, gormCreate pk rows table = .error e) ∨ gormCreate pk rows table = .ok (table ++ rows) := by
  rcases h : gormCreate pk rows table with e | out
  · exact Or.inl ⟨e, rfl⟩
  · exact Or.inr (by rw [gormCreate_ok h])

theorem StoreTransactionDeposits_cases (rows : List TransactionDeposit) (db : DB) :
    (StoreTransactionDeposits rows db).1 = db ∨
      (StoreTransactionDeposits rows db).1 =
        { db with transaction_deposits := db.transaction_deposits ++ rows } := by
  unfold StoreTransactionDeposits
  rcases gormCreate_cases (fun d => d.DepositHash) rows db.transaction_deposits
    with ⟨e, h⟩ | h
  · rw [h]; exact Or.inl rfl
  · rw [h]; exact Or.inr rfl

theorem StoreTransactionWithdrawals_cases (rows : List TransactionWithdrawal) (db : DB) :
    (StoreTransactionWithdrawals rows db).1 = db ∨
      (StoreTransactionWithdrawals rows db).1 =
        { db with transaction_withdrawals := db.transaction_withdrawals ++ rows } := by
  unfold StoreTransactionWithdrawals
  rcases gormCreate_cases (fun w => w.WithdrawalHash) rows db.transaction_withdrawals
    with ⟨e, h⟩ | h
  · rw [h]; exact Or.inl rfl
  · rw [h]; exact Or.inr rfl

theorem StoreBridgeDeposits_cases (rows : List BridgeDeposit) (db : DB) :
    (∃ e, StoreBridgeDeposits rows db = (db, some e)) ∨
      StoreBridgeDeposits rows db =
        ({ db with bridge_deposits := db.bridge_deposits ++ rows }, none) := by
  unfold StoreBridgeDeposits
  rcases gormCreate_cases (fun d => d.GUID) rows db.bridge_deposits with ⟨e, h⟩ | h
  · rw [h]; exact Or.inl ⟨e, rfl⟩
  · rw [h]; exact Or.inr rfl

theorem StoreBridgeWithdrawals_cases (rows : List BridgeWithdrawal) (db : DB) :
    (∃ e, StoreBridgeWithdrawals rows db = (db, some e)) ∨
      StoreBridgeWithdrawals rows db =
        ({ db with bridge_withdrawals := db.bridge_withdrawals ++ rows }, none) := by
  unfold StoreBridgeWithdrawals
  rcases gormCreate_cases (fun w => w.GUID) rows db.bridge_withdrawals with ⟨e, h⟩ | h
  · rw [h]; exact Or.inl ⟨e, rfl⟩
  · rw [h]; exact Or.inr rfl

theorem afterDeposits_td_append (portalDeposits : List OptimismPortalTransactionDepositEvent)
    (db : DB) :
    ∃ rows, (afterDeposits portalDeposits db).transaction_deposits =
        db.transaction_deposits ++ rows ∧
      ∀ row ∈ rows, ∃ ev ∈ portalDeposits, row.InitiatedL1EventGUID = ev.RawEvent.GUID := by
  unfold afterDeposits
  split
  · rcases StoreTransactionDeposits_cases (portalDeposits.map l1TransactionDeposit) db
      with h | h
    · rw [h]
      exact ⟨[], by simp, fun _ hr => by cases hr⟩
    · rw [h]
      refine ⟨portalDeposits.map l1TransactionDeposit, rfl, ?_⟩
      intro row hrow
      obtain ⟨ev, hev, rfl⟩ := List.mem_map.mp hrow
      exact ⟨ev, hev, rfl⟩
  · exact ⟨[], by simp, fun _ hr => by cases hr⟩

theorem afterDeposits_bd (portalDeposits : List OptimismPortalTransactionDepositEvent)
    (db : DB) : (afterDeposits portalDeposits db).bridge_deposits = db.bridge_deposits := by
  unfold afterDeposits
  split
  · rcases StoreTransactionDeposits_cases (portalDeposits.map l1TransactionDeposit) db
      with h | h <;> rw [h]
  · rfl

theorem MarkTransactionWithdrawalProvenEvent_bd (h : Hash) (g : UUID) (db : DB) :
    (MarkTransactionWithdrawalProvenEvent h g db).1.bridge_deposits = db.bridge_deposits := by
  obtain ⟨table, ht⟩ := MarkTransactionWithdrawalProvenEvent_frame h g db
  rw [ht]

theorem MarkTransactionWithdrawalFinalizedEvent_bd (h : Hash) (g : UUID) (db : DB) :
    (MarkTransactionWithdrawalFinalizedEvent h g db).1.bridge_deposits =
      db.bridge_deposits := by
  obtain ⟨table, ht⟩ := MarkTransactionWithdrawalFinalizedEvent_frame h g db
  rw [ht]

theorem l1ProveWithdrawal_bd (env : L1Env) (c : L1Contracts) (latest : Option L2BlockHeader)
    (ev : OptimismPortalWithdrawalProvenEvent) (db : DB) :
    (l1ProveWithdrawal env c latest ev db).1.bridge_deposits = db.bridge_deposits := by
  have hm := MarkTransactionWithdrawalProvenEvent_bd ev.WithdrawalHash ev.RawEvent.GUID db
  unfold l1ProveWithdrawal
  dsimp only
  rcases hl : TransactionWithdrawalByHash ev.WithdrawalHash db with e | _ | w
  · cases latest <;> rfl
  · rcases hq : env.OptimismPortalQueryProvenWithdrawal c.OptimismPortal ev.WithdrawalHash
      with e | a
    · cases latest <;> simp only [hq]
    · cases latest with
      | none => simp only [hq]
      | some l => simp only [hq]; split <;> rfl
  · rcases hmk : MarkTransactionWithdrawalProvenEvent ev.WithdrawalHash ev.RawEvent.GUID db
      with ⟨d, _ | e⟩ <;> rw [hmk] at hm <;> cases latest <;> simp only [hmk] <;> exact hm

theorem l1FinalizeWithdrawal_bd (ev : OptimismPortalWithdrawalFinalizedEvent) (db : DB) :
    (l1FinalizeWithdrawal ev db).1.bridge_deposits = db.bridge_deposits := by
  have hm := MarkTransactionWithdrawalFinalizedEvent_bd ev.WithdrawalHash ev.RawEvent.GUID db
  unfold l1FinalizeWithdrawal
  dsimp only
  rcases hl : TransactionWithdrawalByHash ev.WithdrawalHash db with e | _ | w
  · rfl
  · rfl
  · rcases hmk : MarkTransactionWithdrawalFinalizedEvent ev.WithdrawalHash ev.RawEvent.GUID db
      with ⟨d, _ | e⟩ <;> rw [hmk] at hm <;> simp only [hmk] <;> exact hm

theorem l1ProcessContractEventsBridgeTransactions_bd (env : L1Env) (c : L1Contracts)
    (events : ProcessedContractEvents) (db : DB) :
    (l1ProcessContractEventsBridgeTransactions env c events db).1.bridge_deposits =
      db.bridge_deposits := by
  rcases hd : env.OptimismPortalTransactionDepositEvents events with e | portalDeposits
  · unfold l1ProcessContractEventsBridgeTransactions
    rw [hd]
  · rw [l1ProcessContractEventsBridgeTransactions_eq env c events db portalDeposits hd]
    have h0 := afterDeposits_bd portalDeposits db
    rcases hl : env.LatestL2BlockHeader with e | latest
    · exact h0
    · rcases hp : env.OptimismPortalWithdrawalProvenEvents events with e | proven
      · exact h0
      · have h1 := forRange_preserves (fun d => d.bridge_deposits) _
          (l1ProveWithdrawal_bd env c latest) proven (afterDeposits portalDeposits db)
        simp only
        rcases hfr : forRange (l1ProveWithdrawal env c latest) proven
          (afterDeposits portalDeposits db) with ⟨db2, o⟩
        rw [hfr] at h1
        simp only at h1
        cases o with
        | nil =>
          simp only
          rcases hf : env.OptimismPortalWithdrawalFinalizedEvents events with e | fin
          · simp only; rw [h1, h0]
          · simp only
            rw [forRange_preserves (fun d => d.bridge_deposits) _ l1FinalizeWithdrawal_bd,
              h1, h0]
        | err e => simp only; rw [h1, h0]
        | panic r => simp only; rw [h1, h0]

theorem l1ProcessContractEventsStandardBridge_bd_append (env : L1Env)
    (events : ProcessedContractEvents) (db : DB) :
    ∃ rows, (l1ProcessContractEventsStandardBridge env events db).1.bridge_deposits =
        db.bridge_deposits ++ rows ∧
      ∀ row ∈ rows, ∃ initiated ev, env.StandardBridgeInitiatedEvents events = .ok initiated ∧
        ev ∈ initiated ∧ row.InitiatedL1EventGUID = ev.RawEvent.GUID := by
  unfold l1ProcessContractEventsStandardBridge
  rcases hi : env.StandardBridgeInitiatedEvents events with e | initiated
  · exact ⟨[], by simp, fun _ hr => by cases hr⟩
  · simp only
    rcases hb : buildRange (l1BridgeDeposit env events) 0 initiated with deposits | e | r
    · simp only
      have hrows : ∀ row ∈ deposits, ∃ initiated2 ev,
          Except.ok (ε := GoError) initiated = .ok initiated2 ∧
          ev ∈ initiated2 ∧ row.InitiatedL1EventGUID = ev.RawEvent.GUID := by
        intro row hrow
        obtain ⟨j, ev, hev, hbody⟩ := buildRange_mem _ 0 initiated deposits hb row hrow
        exact ⟨initiated, ev, rfl, hev, l1BridgeDeposit_initiated env events j ev row hbody⟩
      by_cases hpos : deposits.length > 0
      · rw [if_pos hpos]
        rcases StoreBridgeDeposits_cases deposits db with ⟨e, hs⟩ | hs
        · rw [hs]
          exact ⟨[], by simp, fun _ hr => by cases hr⟩
        · rw [hs]
          simp only
          rcases hf : env.StandardBridgeFinalizedEvents events with e | fin
          · exact ⟨deposits, rfl, hrows⟩
          · simp only
            refine ⟨deposits, ?_, hrows⟩
            rw [forRange_preserves (fun d => d.bridge_deposits) _
              l1FinalizeBridgeWithdrawal_bridge_deposits]
      · rw [if_neg hpos]
        simp only
        rcases hf : env.StandardBridgeFinalizedEvents events with e | fin
        · exact ⟨[], by simp, fun _ hr => by cases hr⟩
        · simp only
          refine ⟨[], ?_, fun _ hr => by cases hr⟩
          rw [forRange_preserves (fun d => d.bridge_deposits) _
            l1FinalizeBridgeWithdrawal_bridge_deposits]
          simp
    · exact ⟨[], by simp, fun _ hr => by cases hr⟩
    · exact ⟨[], by simp, fun _ hr => by cases hr⟩

theorem DB_store_eq (r : List StoreCall → StoreCall → Option GoError) (call : StoreCall)
    (db : DB) :
    db.store r call = ({ db with calls := db.calls ++ [call] }, r db.calls call) := rfl

theorem l1UpdateDatabase_rows (env : L1Env) (c : L1Contracts)
    (indexed : List L1BlockHeader) (logs : L1Logs) (db after : DB)
    (hrun : l1UpdateDatabase env c indexed logs db = (after, .nil)) :
    after = db ∨
      (after.storedL1Events = db.storedL1Events ++ logs.l1ContractEvents ∧
        ∃ deposits bridgeDeposits,
          after.transaction_deposits = db.transaction_deposits ++ deposits ∧
          after.bridge_deposits = db.bridge_deposits ++ bridgeDeposits ∧
          (∀ row ∈ deposits, ∃ portalDeposits ev,
            env.OptimismPortalTransactionDepositEvents logs.processedContractEvents =
              .ok portalDeposits ∧
            ev ∈ portalDeposits ∧ row.InitiatedL1EventGUID = ev.RawEvent.GUID) ∧
          (∀ row ∈ bridgeDeposits, ∃ initiated ev,
            env.StandardBridgeInitiatedEvents logs.processedContractEvents = .ok initiated ∧
            ev ∈ initiated ∧ row.InitiatedL1EventGUID = ev.RawEvent.GUID)) := by
  unfold l1UpdateDatabase at hrun
  by_cases hpos : indexed.length > 0
  · rw [if_pos hpos] at hrun
    right
    rw [DB_store_eq] at hrun
    rcases hs1 : env.storeResult db.calls (.StoreL1BlockHeaders indexed) with _ | e
    · rw [hs1] at hrun
      simp only at hrun
      rw [DB_store_eq] at hrun
      rcases hs2 : env.storeResult (db.calls ++ [.StoreL1BlockHeaders indexed])
        (.StoreL1ContractEvents logs.l1ContractEvents) with _ | e
      · rw [hs2] at hrun
        simp only at hrun
        -- the database after the two or three store calls
        obtain ⟨db3, h3, hcalls3, htd3, hbd3⟩ : ∃ db3,
            (if logs.outputProposals.length > 0 then
              ({ db with calls := db.calls ++ [.StoreL1BlockHeaders indexed] ++
                  [.StoreL1ContractEvents logs.l1ContractEvents] } : DB).store env.storeResult
                (.StoreOutputProposals logs.outputProposals)
              else (({ db with calls := db.calls ++ [.StoreL1BlockHeaders indexed] ++
                  [.StoreL1ContractEvents logs.l1ContractEvents] } : DB), none)).1 = db3 ∧
            db3.storedL1Events = db.storedL1Events ++ logs.l1ContractEvents ∧
            db3.transaction_deposits = db.transaction_deposits ∧
            db3.bridge_deposits = db.bridge_deposits := by
          refine ⟨_, rfl, ?_, ?_, ?_⟩
          · split <;> simp [DB.storedL1Events, DB.store, StoreCall.l1Events]
          · split <;> rfl
          · split <;> rfl
        rcases hst : (if logs.outputProposals.length > 0 then
            ({ db with calls := db.calls ++ [.StoreL1BlockHeaders indexed] ++
                [.StoreL1ContractEvents logs.l1ContractEvents] } : DB).store env.storeResult
              (.StoreOutputProposals logs.outputProposals)
            else (({ db with calls := db.calls ++ [.StoreL1BlockHeaders indexed] ++
                [.StoreL1ContractEvents logs.l1ContractEvents] } : DB), none))
          with ⟨db3b, _ | e⟩
        · rw [hst] at hrun h3
          simp only at hrun h3
          subst h3
          rcases hd : env.OptimismPortalTransactionDepositEvents logs.processedContractEvents
            with e | portalDeposits
          · have hfail : l1ProcessContractEventsBridgeTransactions env c
                logs.processedContractEvents db3b = (db3b, .err e) := by
              unfold l1ProcessContractEventsBridgeTransactions
              rw [hd]
            rw [hfail] at hrun
            simp only at hrun
            cases hrun
          · have htd4 := l1ProcessContractEventsBridgeTransactions_td_after env c
              logs.processedContractEvents db3b portalDeposits hd
            have hbd4 := l1ProcessContractEventsBridgeTransactions_bd env c
              logs.processedContractEvents db3b
            have hc4 := l1ProcessContractEventsBridgeTransactions_calls env c
              logs.processedContractEvents db3b
            rcases h4 : l1ProcessContractEventsBridgeTransactions env c
              logs.processedContractEvents db3b with ⟨db4, o⟩
            rw [h4] at hrun htd4 hbd4 hc4
            simp only at htd4 hbd4 hc4
            cases o with
            | nil =>
              simp only at hrun
              have htd5 := l1ProcessContractEventsStandardBridge_td env
                logs.processedContractEvents db4
              have hc5 := l1ProcessContractEventsStandardBridge_calls env
                logs.processedContractEvents db4
              obtain ⟨bridgeDeposits, hbd5, hrows5⟩ :=
                l1ProcessContractEventsStandardBridge_bd_append env
                  logs.processedContractEvents db4
              rw [hrun] at htd5 hc5 hbd5
              simp only at htd5 hc5 hbd5
              obtain ⟨deposits, htd, hrows⟩ := afterDeposits_td_append portalDeposits db3b
              refine ⟨?_, deposits, bridgeDeposits, ?_, ?_, ?_, hrows5⟩
              · rw [storedL1Events_of_calls hc5, storedL1Events_of_calls hc4, hcalls3]
              · rw [htd5, htd4, htd, htd3]
              · rw [hbd5, hbd4, hbd3]
              · intro row hrow
                obtain ⟨ev, hev, hg⟩ := hrows row hrow
                exact ⟨portalDeposits, ev, rfl, hev, hg⟩
            | err e => simp only at hrun; cases hrun
            | panic r => simp only at hrun; cases hrun
        · rw [hst] at hrun
          simp only at hrun
          cases hrun
      · rw [hs2] at hrun
        simp only at hrun
        cases hrun
    · rw [hs1] at hrun
      simp only at hrun
      cases hrun
  · rw [if_neg hpos] at hrun
    left
    cases hrun
    rfl

theorem l1ProcessFn_rows (env : L1Env) (c : L1Contracts) (headers : List Header)
    (db after : DB)
    (hdeposits : ∀ events portalDeposits,
      env.OptimismPortalTransactionDepositEvents events = .ok portalDeposits →
      ∀ ev ∈ portalDeposits, ev.RawEvent ∈ events.events)
    (hinitiated : ∀ events initiated,
      env.StandardBridgeInitiatedEvents events = .ok initiated →
      ∀ ev ∈ initiated, ev.RawEvent ∈ events.events)
    (hrun : l1ProcessFn env c headers db = (after, .nil)) :
    L1RowsResolve env c headers db after := by
  unfold l1ProcessFn at hrun
  dsimp only at hrun
  rcases hh : headers.head? with _ | first
  · rw [hh] at hrun; simp only at hrun; cases hrun
  · rcases hl : headers.getLast? with _ | last
    · rw [hh, hl] at hrun; simp only at hrun; cases hrun
    · rw [hh, hl] at hrun
      simp only at hrun
      rcases hf : env.FilterLogs first.Number last.Number c.ToSlice with e | logs
      · rw [hf] at hrun; simp only at hrun; cases hrun
      · rw [hf] at hrun
        simp only at hrun
        rcases hp : l1ProcessLogs env (headerMapOf headers) 0 logs
          ⟨NewProcessedContractEvents, [], [], [], []⟩ with e | acc
        · rw [hp] at hrun; simp only at hrun; cases hrun
        · rw [hp] at hrun
          simp only at hrun
          obtain ⟨hpce, hevs⟩ := l1ProcessLogs_events env (headerMapOf headers) logs 0 _ acc hp
          simp only [List.nil_append] at hevs
          have hevents : acc.processedContractEvents.events =
              eventsOfLogs env.eventGUID (headerMapOf headers) 0 logs := by
            rw [hpce, registerLogs_events]
            rfl
          rcases l1UpdateDatabase_rows env c _ acc db after hrun with hsame | ⟨hst, hrows⟩
          · subst hsame
            exact ⟨first, last, logs, [], [], [], hh, hl, hf, by simp, by simp, by simp,
              fun _ hr => (by cases hr), fun _ hr => by cases hr⟩
          · obtain ⟨deposits, bridgeDeposits, htd, hbd, hr1, hr2⟩ := hrows
            refine ⟨first, last, logs, eventsOfLogs env.eventGUID (headerMapOf headers) 0 logs,
              deposits, bridgeDeposits, hh, hl, hf, ?_, htd, hbd, ?_, ?_⟩
            · rw [hst, hevs]
            · intro row hrow
              obtain ⟨pd, ev, hpd, hev, hg⟩ := hr1 row hrow
              have hmem := hdeposits _ pd hpd ev hev
              rw [hevents] at hmem
              rw [hg]
              exact initiatedByEventOf_eventsOfLogs _ _ _ _ _ hmem
            · intro row hrow
              obtain ⟨initiated, ev, hin, hev, hg⟩ := hr2 row hrow
              have hmem := hinitiated _ initiated hin ev hev
              rw [hevents] at hmem
              rw [hg]
              exact initiatedByEventOf_eventsOfLogs _ _ _ _ _ hmem

theorem MarkFinalizedBridgeDepositEvent_preserves {β : Type} (f : DB → β)
    (hf : ∀ (db : DB) (t : List BridgeDeposit), f { db with bridge_deposits := t } = f db)
    (g e : UUID) (db : DB) : f (MarkFinalizedBridgeDepositEvent g e db).1 = f db := by
  unfold MarkFinalizedBridgeDepositEvent
  split
  · rfl
  · exact hf _ _

theorem l2FinalizeBridgeDeposit_preserves {β : Type} (f : DB → β)
    (hf : ∀ (db : DB) (t : List BridgeDeposit), f { db with bridge_deposits := t } = f db)
    (ev : StandardBridgeFinalizedEvent) (db : DB) :
    f (l2FinalizeBridgeDeposit ev db).1 = f db := by
  unfold l2FinalizeBridgeDeposit
  dsimp only
  rcases hl : BridgeDepositByMessageNonce ev.CrossDomainMessengerNonce db with e | _ | d
  · rfl
  · simp only [LatestBridgeDepositMessageNonce_error]
  · have hm := MarkFinalizedBridgeDepositEvent_preserves f hf d.GUID ev.RawEvent.GUID db
    rcases hmk : MarkFinalizedBridgeDepositEvent d.GUID ev.RawEvent.GUID db
      with ⟨d2, _ | e⟩ <;> rw [hmk] at hm <;> simp only [hmk] <;> exact hm

theorem l2ProcessContractEventsBridgeTransactions_rows (env : L2Env)
    (events : ProcessedContractEvents) (db : DB) :
    (l2ProcessContractEventsBridgeTransactions env events db).1.bridge_withdrawals =
      db.bridge_withdrawals ∧
    ∃ rows, (l2ProcessContractEventsBridgeTransactions env events db).1.transaction_withdrawals =
        db.transaction_withdrawals ++ rows ∧
      ∀ row ∈ rows, ∃ messagesPassed ev,
        env.L2ToL1MessagePasserMessagesPassed events = .ok messagesPassed ∧
        ev ∈ messagesPassed ∧ row.InitiatedL2EventGUID = ev.RawEvent.GUID := by
  unfold l2ProcessContractEventsBridgeTransactions
  rcases hm : env.L2ToL1MessagePasserMessagesPassed events with e | messagesPassed
  · exact ⟨rfl, [], by simp, fun _ hr => by cases hr⟩
  · simp only
    by_cases hpos : (messagesPassed.map l2TransactionWithdrawal).length > 0
    · rw [if_pos hpos]
      rcases StoreTransactionWithdrawals_cases (messagesPassed.map l2TransactionWithdrawal) db
        with h | h
      · rw [h]
        exact ⟨rfl, [], by simp, fun _ hr => by cases hr⟩
      · rw [h]
        refine ⟨rfl, messagesPassed.map l2TransactionWithdrawal, rfl, ?_⟩
        intro row hrow
        obtain ⟨ev, hev, rfl⟩ := List.mem_map.mp hrow
        exact ⟨messagesPassed, ev, rfl, hev, rfl⟩
    · rw [if_neg hpos]
      exact ⟨rfl, [], by simp, fun _ hr => by cases hr⟩

theorem l2ProcessContractEventsStandardBridge_rows (env : L2Env)
    (events : ProcessedContractEvents) (db : DB) :
    (l2ProcessContractEventsStandardBridge env events db).1.transaction_withdrawals =
      db.transaction_withdrawals ∧
    ∃ rows, (l2ProcessContractEventsStandardBridge env events db).1.bridge_withdrawals =
        db.bridge_withdrawals ++ rows ∧
      ∀ row ∈ rows, ∃ initiated ev, env.StandardBridgeInitiatedEvents events = .ok initiated ∧
        ev ∈ initiated ∧ row.InitiatedL2EventGUID = ev.RawEvent.GUID := by
  unfold l2ProcessContractEventsStandardBridge
  rcases ha : env.GetAbi with _ | e
  · simp only
    rcases hi : env.StandardBridgeInitiatedEvents events with e | initiated
    · exact ⟨rfl, [], by simp, fun _ hr => by cases hr⟩
    · simp only
      rcases hb : buildRange (l2BridgeWithdrawal env events) 0 initiated with ws | e | r
      · simp only
        have hrows : ∀ row ∈ ws, ∃ initiated2 ev,
            Except.ok (ε := GoError) initiated = .ok initiated2 ∧
            ev ∈ initiated2 ∧ row.InitiatedL2EventGUID = ev.RawEvent.GUID := by
          intro row hrow
          obtain ⟨j, ev, hev, hbody⟩ := buildRange_mem _ 0 initiated ws hb row hrow
          exact ⟨initiated, ev, rfl, hev, l2BridgeWithdrawal_initiated env events j ev row hbody⟩
        by_cases hpos : ws.length > 0
        · rw [if_pos hpos]
          rcases StoreBridgeWithdrawals_cases ws db with ⟨e, hs⟩ | hs
          · rw [hs]
            exact ⟨rfl, [], by simp, fun _ hr => by cases hr⟩
          · rw [hs]
            simp only
            rcases hf : env.StandardBridgeFinalizedEvents events with e | fin
            · exact ⟨rfl, ws, rfl, hrows⟩
            · simp only
              refine ⟨?_, ws, ?_, hrows⟩
              · rw [forRange_preserves (fun d => d.transaction_withdrawals) _
                  (l2FinalizeBridgeDeposit_preserves _ (fun _ _ => rfl))]
              · rw [forRange_preserves (fun d => d.bridge_withdrawals) _
                  (l2FinalizeBridgeDeposit_preserves _ (fun _ _ => rfl))]
        · rw [if_neg hpos]
          simp only
          rcases hf : env.StandardBridgeFinalizedEvents events with e | fin
          · exact ⟨rfl, [], by simp, fun _ hr => by cases hr⟩
          · simp only
            refine ⟨?_, [], ?_, fun _ hr => by cases hr⟩
            · rw [forRange_preserves (fun d => d.transaction_withdrawals) _
                (l2FinalizeBridgeDeposit_preserves _ (fun _ _ => rfl))]
            · rw [forRange_preserves (fun d => d.bridge_withdrawals) _
                (l2FinalizeBridgeDeposit_preserves _ (fun _ _ => rfl))]
              simp
      · exact ⟨rfl, [], by simp, fun _ hr => by cases hr⟩
      · exact ⟨rfl, [], by simp, fun _ hr => by cases hr⟩
  · exact ⟨rfl, [], by simp, fun _ hr => by cases hr⟩

theorem l2UpdateDatabase_rows (env : L2Env) (l2Headers : List L2BlockHeader) (logs : L2Logs)
    (db after : DB) (hrun : l2UpdateDatabase env l2Headers logs db = (after, .nil)) :
    after.storedL2Events = db.storedL2Events ++ logs.l2ContractEvents ∧
      ∃ withdrawals bridgeWithdrawals,
        after.transaction_withdrawals = db.transaction_withdrawals ++ withdrawals ∧
        after.bridge_withdrawals = db.bridge_withdrawals ++ bridgeWithdrawals ∧
        (∀ row ∈ withdrawals, ∃ messagesPassed ev,
          env.L2ToL1MessagePasserMessagesPassed logs.processedContractEvents =
            .ok messagesPassed ∧
          ev ∈ messagesPassed ∧ row.InitiatedL2EventGUID = ev.RawEvent.GUID) ∧
        (∀ row ∈ bridgeWithdrawals, ∃ initiated ev,
          env.StandardBridgeInitiatedEvents logs.processedContractEvents = .ok initiated ∧
          ev ∈ initiated ∧ row.InitiatedL2EventGUID = ev.RawEvent.GUID) := by
  unfold l2UpdateDatabase at hrun
  rw [DB_store_eq] at hrun
  rcases hs1 : env.storeResult db.calls (.StoreL2BlockHeaders l2Headers) with _ | e
  · rw [hs1] at hrun
    simp only at hrun
    by_cases hpos : logs.l2ContractEvents.length > 0
    · rw [if_pos hpos, DB_store_eq] at hrun
      rcases hs2 : env.storeResult (db.calls ++ [.StoreL2BlockHeaders l2Headers])
        (.StoreL2ContractEvents logs.l2ContractEvents) with _ | e
      · rw [hs2] at hrun
        simp only at hrun
        have hc3 := l2ProcessContractEventsBridgeTransactions_calls env
          logs.processedContractEvents
          { db with calls := db.calls ++ [.StoreL2BlockHeaders l2Headers] ++
              [.StoreL2ContractEvents logs.l2ContractEvents] }
        obtain ⟨hbw3, withdrawals, htw3, hrows3⟩ :=
          l2ProcessContractEventsBridgeTransactions_rows env logs.processedContractEvents
            { db with calls := db.calls ++ [.StoreL2BlockHeaders l2Headers] ++
                [.StoreL2ContractEvents logs.l2ContractEvents] }
        rcases h3 : l2ProcessContractEventsBridgeTransactions env
          logs.processedContractEvents
          { db with calls := db.calls ++ [.StoreL2BlockHeaders l2Headers] ++
              [.StoreL2ContractEvents logs.l2ContractEvents] } with ⟨db3, o⟩
        rw [h3] at hrun hc3 hbw3 htw3
        simp only at hc3 hbw3 htw3
        cases o with
        | nil =>
          simp only at hrun
          have hc4 := l2ProcessContractEventsStandardBridge_calls env
            logs.processedContractEvents db3
          obtain ⟨htw4, bridgeWithdrawals, hbw4, hrows4⟩ :=
            l2ProcessContractEventsStandardBridge_rows env logs.processedContractEvents db3
          rw [hrun] at hc4 htw4 hbw4
          simp only at hc4 htw4 hbw4
          refine ⟨?_, withdrawals, bridgeWithdrawals, ?_, ?_, hrows3, hrows4⟩
          · rw [storedL2Events_of_calls hc4]
            unfold DB.storedL2Events
            rw [hc3]
            simp [StoreCall.l2Events]
          · rw [htw4, htw3]
          · rw [hbw4, hbw3]
        | err e => simp only at hrun; cases hrun
        | panic r => simp only at hrun; cases hrun
      · rw [hs2] at hrun
        simp only at hrun
        cases hrun
    · rw [if_neg hpos] at hrun
      cases hrun
      have hnil : logs.l2ContractEvents = [] := by
        cases hl : logs.l2ContractEvents with
        | nil => rfl
        | cons a b => rw [hl] at hpos; simp at hpos
      refine ⟨?_, [], [], by simp, by simp, fun _ hr => (by cases hr), fun _ hr => by cases hr⟩
      rw [hnil]
      simp [DB.storedL2Events, StoreCall.l2Events]
  · rw [hs1] at hrun
    simp only at hrun
    cases hrun

theorem l2ProcessFn_rows (env : L2Env) (c : L2Contracts) (headers : List Header)
    (db after : DB)
    (hmessages : ∀ events messagesPassed,
      env.L2ToL1MessagePasserMessagesPassed events = .ok messagesPassed →
      ∀ ev ∈ messagesPassed, ev.RawEvent ∈ events.events)
    (hinitiated : ∀ events initiated,
      env.StandardBridgeInitiatedEvents events = .ok initiated →
      ∀ ev ∈ initiated, ev.RawEvent ∈ events.events)
    (hrun : l2ProcessFn env c headers db = (after, .nil)) :
    L2RowsResolve env c headers db after := by
  unfold l2ProcessFn at hrun
  dsimp only at hrun
  rcases hh : headers.head? with _ | first
  · rw [hh] at hrun; simp only at hrun; cases hrun
  · rcases hl : headers.getLast? with _ | last
    · rw [hh, hl] at hrun; simp only at hrun; cases hrun
    · rw [hh, hl] at hrun
      simp only at hrun
      rcases hf : env.FilterLogs first.Number last.Number c.ToSlice with e | logs
      · rw [hf] at hrun; simp only at hrun; cases hrun
      · rw [hf] at hrun
        simp only at hrun
        rcases hp : l2ProcessLogs env (headerMapOf headers) 0 logs
          ⟨NewProcessedContractEvents, []⟩ with e | acc
        · rw [hp] at hrun; simp only at hrun; cases hrun
        · rw [hp] at hrun
          simp only at hrun
          obtain ⟨hpce, hevs⟩ := l2ProcessLogs_events env (headerMapOf headers) logs 0 _ acc hp
          simp only [List.nil_append] at hevs
          have hevents : acc.processedContractEvents.events =
              eventsOfLogs env.eventGUID (headerMapOf headers) 0 logs := by
            rw [hpce, registerLogs_events]
            rfl
          obtain ⟨hst, withdrawals, bridgeWithdrawals, htw, hbw, hr1, hr2⟩ :=
            l2UpdateDatabase_rows env _ acc db after hrun
          refine ⟨first, last, logs, eventsOfLogs env.eventGUID (headerMapOf headers) 0 logs,
            withdrawals, bridgeWithdrawals, hh, hl, hf, ?_, htw, hbw, ?_, ?_⟩
          · rw [hst, hevs]
          · intro row hrow
            obtain ⟨mp, ev, hmp, hev, hg⟩ := hr1 row hrow
            have hmem := hmessages _ mp hmp ev hev
            rw [hevents] at hmem
            rw [hg]
            exact initiatedByEventOf_eventsOfLogs _ _ _ _ _ hmem
          · intro row hrow
            obtain ⟨initiated, ev, hin, hev, hg⟩ := hr2 row hrow
            have hmem := hinitiated _ initiated hin ev hev
            rw [hevents] at hmem
            rw [hg]
            exact initiatedByEventOf_eventsOfLogs _ _ _ _ _ hmem

/-! ## Claims -/

/-- C1 (what the code does at the all-zero hash): the table holds an unproven row with the
all-zero hash behind a proven row with hash 9.  `MarkTransactionWithdrawalFinalizedEvent` called
with the all-zero hash returns `nil`: its `Take` has no condition and finds the row with hash 9,
which it finalizes by GUID 99. -/
theorem finalize_zero_hash_finalizes_first_row :
    (provenAheadOfZeroHashDB.transaction_withdrawals.map (fun w => w.WithdrawalHash)).Nodup ∧
    (∃ w ∈ provenAheadOfZeroHashDB.transaction_withdrawals,
      w.WithdrawalHash = emptyHash ∧ w.ProvenL1EventGUID = none) ∧
    MarkTransactionWithdrawalFinalizedEvent emptyHash 99 provenAheadOfZeroHashDB =
      ({ provenAheadOfZeroHashDB with
          transaction_withdrawals :=
            [⟨9, 3100, some 1500, some 99, 4, ⟨10, 11, 5, [1], 120⟩, 100000⟩,
             ⟨0, 3101, none, none, 5, ⟨10, 11, 5, [1], 121⟩, 100000⟩] }, none) := by
  decide

/-- C1 (amended): for a withdrawal hash `h` other than the all-zero hash, in a table with unique
withdrawal hashes whose row for `h` has no proven back-reference,
`MarkTransactionWithdrawalFinalizedEvent h g` returns an error for every GUID `g` and the
database it leaves is the database it was given, so the row is found afterwards as it was,
its finalized back-reference included. -/
theorem finalize_unproven_fails (db : DB) (h : Hash) (g : UUID) (w : TransactionWithdrawal)
    (hh : h ≠ emptyHash)
    (hpk : (db.transaction_withdrawals.map (fun w => w.WithdrawalHash)).Nodup)
    (hw : w ∈ db.transaction_withdrawals) (hwh : w.WithdrawalHash = h)
    (hnull : w.ProvenL1EventGUID = none) :
    MarkTransactionWithdrawalFinalizedEvent h g db =
        (db, some (.Errorf "cannot mark unproven withdrawal %s as finalized" h)) ∧
      TransactionWithdrawalByHash h (MarkTransactionWithdrawalFinalizedEvent h g db).1 =
        .ok (some w) := by
  have hrow : TransactionWithdrawalByHash h db = .ok (some w) := by
    rw [← hwh]
    exact TransactionWithdrawalByHash_of_mem db w hpk hw (by rw [hwh]; exact hh)
  have key : MarkTransactionWithdrawalFinalizedEvent h g db =
      (db, some (.Errorf "cannot mark unproven withdrawal %s as finalized" h)) := by
    have hrow2 := hrow
    unfold TransactionWithdrawalByHash at hrow2
    unfold MarkTransactionWithdrawalFinalizedEvent
    rw [gormWhereTake_of_ne _ hh] at hrow2 ⊢
    cases ht : gormTake (fun w => w.WithdrawalHash == h) db.transaction_withdrawals with
    | error e =>
      rw [ht] at hrow2
      obtain ⟨rfl, _⟩ := gormTake_error ht
      simp at hrow2
    | ok withdrawal =>
      rw [ht] at hrow2
      simp only [Except.ok.injEq, Option.some.injEq] at hrow2
      subst hrow2
      simp [hnull, hwh]
  exact ⟨key, by rw [key]; exact hrow⟩

/-- A database with one unproven withdrawal: finalizing it fails and changes nothing. -/
theorem finalize_unproven_fails_witness :
    MarkTransactionWithdrawalFinalizedEvent 7 99
        ⟨[], [], [⟨7, 1, none, none, 0, ⟨10, 11, 5, [1], 3⟩, 100000⟩], [], []⟩ =
      (⟨[], [], [⟨7, 1, none, none, 0, ⟨10, 11, 5, [1], 3⟩, 100000⟩], [], []⟩,
        some (.Errorf "cannot mark unproven withdrawal %s as finalized" 7)) ∧
    TransactionWithdrawalByHash 7 (MarkTransactionWithdrawalFinalizedEvent 7 99
        ⟨[], [], [⟨7, 1, none, none, 0, ⟨10, 11, 5, [1], 3⟩, 100000⟩], [], []⟩).1 =
      .ok (some ⟨7, 1, none, none, 0, ⟨10, 11, 5, [1], 3⟩, 100000⟩) :=
  finalize_unproven_fails _ 7 99 ⟨7, 1, none, none, 0, ⟨10, 11, 5, [1], 3⟩, 100000⟩
    (by decide) (by decide) (by decide) rfl rfl

/-- C2: in every database reached from the empty one by a sequence of withdrawal inserts (rows
built as the L2 processor builds them), proven markings and finalized markings, every
transaction withdrawal whose finalized back-reference is set has its proven back-reference
set. -/
theorem finalized_implies_proven_reachable (ops : List WithdrawalOp)
    (w : TransactionWithdrawal) (hw : w ∈ (runWithdrawalOps ops).transaction_withdrawals)
    (hfin : w.FinalizedL1EventGUID ≠ none) : w.ProvenL1EventGUID ≠ none :=
  FinalizedImpliesProven_foldl ops DB.empty (fun _ h => by cases h) w hw hfin

/-- A history that inserts a withdrawal, proves it and finalizes it: the row ends with both
back-references set. -/
theorem finalized_implies_proven_reachable_witness :
    (⟨7, 1, some 20, some 30, 0, ⟨10, 11, 5, [1], 3⟩, 100000⟩ : TransactionWithdrawal) ∈
        (runWithdrawalOps [.store [⟨⟨1, 2, 3, 4, 0, 3⟩, 7, 0, 10, 11, 5, 100000, [1]⟩],
          .markFinalized 7 29, .markProven 7 20, .markFinalized 7 30]).transaction_withdrawals ∧
      (some 20 : Option UUID) ≠ none :=
  ⟨by decide,
    finalized_implies_proven_reachable
      [.store [⟨⟨1, 2, 3, 4, 0, 3⟩, 7, 0, 10, 11, 5, 100000, [1]⟩],
        .markFinalized 7 29, .markProven 7 20, .markFinalized 7 30]
      ⟨7, 1, some 20, some 30, 0, ⟨10, 11, 5, [1], 3⟩, 100000⟩ (by decide) (by decide)⟩

/-- C3: when `l1ProcessContractEventsBridgeTransactions` reaches a `WithdrawalProven` event whose
withdrawal hash has no row, and the portal answers the query for that hash, the handler returns
"waiting for L2Processor to catch up" exactly when no L2 header is indexed or the answered L2
output index is greater than the number of the latest indexed L2 header; when the output index
is at most that number it returns "withdrawal missing!".  In both cases the database is the one
the handler held when it reached the event, and the hash still has no row. -/
theorem proven_without_row_waits_or_is_missing (env : L1Env) (l1Contracts : L1Contracts) (events : ProcessedContractEvents)
    (db db1 : DB) (portalDeposits : List OptimismPortalTransactionDepositEvent)
    (latest : Option L2BlockHeader)
    (pre post : List OptimismPortalWithdrawalProvenEvent)
    (ev : OptimismPortalWithdrawalProvenEvent) (answer : OptimismPortalProvenWithdrawal)
    (hdeposits : env.OptimismPortalTransactionDepositEvents events = .ok portalDeposits)
    (hlatest : env.LatestL2BlockHeader = .ok latest)
    (hproven : env.OptimismPortalWithdrawalProvenEvents events = .ok (pre ++ ev :: post))
    (hpre : forRange (l1ProveWithdrawal env l1Contracts latest) pre
      (afterDeposits portalDeposits db) = (db1, .nil))
    (habsent : TransactionWithdrawalByHash ev.WithdrawalHash db1 = .ok none)
    (hquery : env.OptimismPortalQueryProvenWithdrawal l1Contracts.OptimismPortal
      ev.WithdrawalHash = .ok answer) :
    ((l1ProcessContractEventsBridgeTransactions env l1Contracts events db).2 =
        .err (.New "waiting for L2Processor to catch up") ↔
      (latest = none ∨
        ∃ header, latest = some header ∧ answer.L2OutputIndex > header.BlockHeader.Number)) ∧
    ((∃ header, latest = some header ∧ answer.L2OutputIndex ≤ header.BlockHeader.Number) →
      (l1ProcessContractEventsBridgeTransactions env l1Contracts events db).2 =
        .err (.New "withdrawal missing!")) ∧
    (l1ProcessContractEventsBridgeTransactions env l1Contracts events db).1 = db1 ∧
    TransactionWithdrawalByHash ev.WithdrawalHash
      (l1ProcessContractEventsBridgeTransactions env l1Contracts events db).1 = .ok none := by
  have hbody : l1ProveWithdrawal env l1Contracts latest ev db1 =
      (db1, .err (.New (if latest = none ∨ ∃ header, latest = some header ∧
        answer.L2OutputIndex > header.BlockHeader.Number then
          "waiting for L2Processor to catch up" else "withdrawal missing!"))) := by
    unfold l1ProveWithdrawal
    simp only [habsent, hquery]
    cases latest with
    | none => simp
    | some header =>
      by_cases hgt : answer.L2OutputIndex > header.BlockHeader.Number
      · simp [hgt]
      · simp [hgt]
  have hrun : l1ProcessContractEventsBridgeTransactions env l1Contracts events db =
      (db1, .err (.New (if latest = none ∨ ∃ header, latest = some header ∧
        answer.L2OutputIndex > header.BlockHeader.Number then
          "waiting for L2Processor to catch up" else "withdrawal missing!"))) := by
    have happ := forRange_append (l1ProveWithdrawal env l1Contracts latest) pre ev post
      (afterDeposits portalDeposits db) db1 hpre
    rw [hbody] at happ
    unfold afterDeposits at happ
    unfold l1ProcessContractEventsBridgeTransactions
    simp only [hdeposits, hlatest, hproven]
    rw [happ]
  rw [hrun]
  refine ⟨?_, ?_, rfl, habsent⟩
  · by_cases hc : latest = none ∨ ∃ header, latest = some header ∧
        answer.L2OutputIndex > header.BlockHeader.Number
    · simp [hc]
    · simp only [hc, if_false, iff_false]
      decide
  · rintro ⟨header, rfl, hle⟩
    have : ¬ (some header = none ∨ ∃ h2, some header = some h2 ∧
        answer.L2OutputIndex > h2.BlockHeader.Number) := by
      rintro (h | ⟨h2, h, hgt⟩)
      · cases h
      · cases h; exact (Nat.not_lt.mpr hle) hgt
    simp only [this, if_false]

/-- One `WithdrawalProven` event for hash 7 on an empty database, latest L2 header number 10,
output index 11: the handler waits. -/
theorem proven_without_row_waits_or_is_missing_witness :
    (l1ProcessContractEventsBridgeTransactions
      { L1Env.idle with
        LatestL2BlockHeader := .ok (some ⟨⟨5, 4, 10, 9⟩⟩)
        OptimismPortalWithdrawalProvenEvents := fun _ => .ok [⟨⟨40, 1, 2, 3, 0, 9⟩, 7⟩]
        OptimismPortalQueryProvenWithdrawal := fun _ _ => .ok ⟨0, 0, 11⟩ }
      DevL1Contracts NewProcessedContractEvents DB.empty).2 =
        .err (.New "waiting for L2Processor to catch up") :=
  (proven_without_row_waits_or_is_missing
    { L1Env.idle with
      LatestL2BlockHeader := .ok (some ⟨⟨5, 4, 10, 9⟩⟩)
      OptimismPortalWithdrawalProvenEvents := fun _ => .ok [⟨⟨40, 1, 2, 3, 0, 9⟩, 7⟩]
      OptimismPortalQueryProvenWithdrawal := fun _ _ => .ok ⟨0, 0, 11⟩ }
    DevL1Contracts NewProcessedContractEvents DB.empty DB.empty [] (some ⟨⟨5, 4, 10, 9⟩⟩) [] []
    ⟨⟨40, 1, 2, 3, 0, 9⟩, 7⟩ ⟨0, 0, 11⟩ rfl rfl rfl rfl rfl rfl).1.mpr
    (Or.inr ⟨⟨⟨5, 4, 10, 9⟩⟩, rfl, by decide⟩)

/-- C4 (what the code does): when `l2ProcessContractEventsStandardBridge` reaches a
`DepositFinalized` event whose nonce has no bridge deposit, it returns the error of the query
`LatestBridgeDepositMessageNonce`, which orders by a column the table does not have; the result
is neither "waiting for L1Processor to catch up" nor "missing deposit message", whatever the
stored nonces are.  The database is the one the handler held when it reached the event. -/
theorem deposit_finalized_without_row_returns_query_error (env : L2Env)
    (events : ProcessedContractEvents) (db db1 db2 : DB)
    (initiated : List StandardBridgeInitiatedEvent) (withdrawals : List BridgeWithdrawal)
    (pre post : List StandardBridgeFinalizedEvent) (ev : StandardBridgeFinalizedEvent)
    (habi : env.GetAbi = none)
    (hinit : env.StandardBridgeInitiatedEvents events = .ok initiated)
    (hbuild : buildRange (l2BridgeWithdrawal env events) 0 initiated = .ok withdrawals)
    (hstore : (if withdrawals.length > 0 then StoreBridgeWithdrawals withdrawals db
      else (db, none)) = (db1, none))
    (hfinalized : env.StandardBridgeFinalizedEvents events = .ok (pre ++ ev :: post))
    (hpre : forRange l2FinalizeBridgeDeposit pre db1 = (db2, .nil))
    (habsent : BridgeDepositByMessageNonce ev.CrossDomainMessengerNonce db2 = .ok none) :
    l2ProcessContractEventsStandardBridge env events db =
      (db2, .err (.sql "column cross_domain_messager_nonce does not exist")) := by
  have happ := forRange_append l2FinalizeBridgeDeposit pre ev post db1 db2 hpre
  rw [l2FinalizeBridgeDeposit_absent ev db2 habsent] at happ
  unfold l2ProcessContractEventsStandardBridge
  simp only [habi, hinit, hbuild, hstore, hfinalized]
  exact happ

/-- No bridge deposit is stored and a `DepositFinalized` event with nonce 5 arrives: the
handler returns the query error, not "waiting for L1Processor to catch up". -/
theorem deposit_finalized_without_row_returns_query_error_witness :
    l2ProcessContractEventsStandardBridge
        { L2Env.idle with StandardBridgeFinalizedEvents := fun _ => .ok [⟨⟨60, 1, 2, 3, 0, 9⟩, 5⟩] }
        NewProcessedContractEvents DB.empty =
      (DB.empty, .err (.sql "column cross_domain_messager_nonce does not exist")) :=
  deposit_finalized_without_row_returns_query_error
    { L2Env.idle with StandardBridgeFinalizedEvents := fun _ => .ok [⟨⟨60, 1, 2, 3, 0, 9⟩, 5⟩] }
    NewProcessedContractEvents DB.empty DB.empty DB.empty [] [] [] [] ⟨⟨60, 1, 2, 3, 0, 9⟩, 5⟩
    rfl rfl rfl rfl rfl rfl rfl

/-- C5: when `l1ProcessContractEventsBridgeTransactions` reaches a `WithdrawalFinalized` event
whose withdrawal hash has no row, it returns "withdrawal missing!", whatever the latest indexed
L2 header is (none, or any header); the result is never the "waiting for L2Processor to catch
up" error, and the database is the one the handler held when it reached the event. -/
theorem finalized_without_row_is_fatal (env : L1Env) (l1Contracts : L1Contracts)
    (events : ProcessedContractEvents) (db db1 db2 : DB)
    (portalDeposits : List OptimismPortalTransactionDepositEvent)
    (latest : Option L2BlockHeader) (proven : List OptimismPortalWithdrawalProvenEvent)
    (pre post : List OptimismPortalWithdrawalFinalizedEvent)
    (ev : OptimismPortalWithdrawalFinalizedEvent)
    (hdeposits : env.OptimismPortalTransactionDepositEvents events = .ok portalDeposits)
    (hlatest : env.LatestL2BlockHeader = .ok latest)
    (hproven : env.OptimismPortalWithdrawalProvenEvents events = .ok proven)
    (hprove : forRange (l1ProveWithdrawal env l1Contracts latest) proven
      (afterDeposits portalDeposits db) = (db1, .nil))
    (hfinalized : env.OptimismPortalWithdrawalFinalizedEvents events = .ok (pre ++ ev :: post))
    (hpre : forRange l1FinalizeWithdrawal pre db1 = (db2, .nil))
    (habsent : TransactionWithdrawalByHash ev.WithdrawalHash db2 = .ok none) :
    l1ProcessContractEventsBridgeTransactions env l1Contracts events db =
        (db2, .err (.New "withdrawal missing!")) ∧
      (l1ProcessContractEventsBridgeTransactions env l1Contracts events db).2 ≠
        .err (.New "waiting for L2Processor to catch up") := by
  have hbody : l1FinalizeWithdrawal ev db2 = (db2, .err (.New "withdrawal missing!")) := by
    unfold l1FinalizeWithdrawal
    simp only [habsent]
  have happ := forRange_append l1FinalizeWithdrawal pre ev post db1 db2 hpre
  rw [hbody] at happ
  have hrun : l1ProcessContractEventsBridgeTransactions env l1Contracts events db =
      (db2, .err (.New "withdrawal missing!")) := by
    unfold afterDeposits at hprove
    unfold l1ProcessContractEventsBridgeTransactions
    simp only [hdeposits, hlatest, hproven, hprove, hfinalized]
    exact happ
  refine ⟨hrun, ?_⟩
  rw [hrun]
  simp

/-- One `WithdrawalFinalized` event for hash 7 on an empty database while no L2 header is
indexed: the handler reports the withdrawal missing. -/
theorem finalized_without_row_is_fatal_witness :
    l1ProcessContractEventsBridgeTransactions
        { L1Env.idle with
          OptimismPortalWithdrawalFinalizedEvents := fun _ => .ok [⟨⟨41, 1, 2, 3, 0, 9⟩, 7⟩] }
        DevL1Contracts NewProcessedContractEvents DB.empty =
      (DB.empty, .err (.New "withdrawal missing!")) :=
  (finalized_without_row_is_fatal
    { L1Env.idle with
      OptimismPortalWithdrawalFinalizedEvents := fun _ => .ok [⟨⟨41, 1, 2, 3, 0, 9⟩, 7⟩] }
    DevL1Contracts NewProcessedContractEvents DB.empty DB.empty DB.empty [] none [] [] []
    ⟨⟨41, 1, 2, 3, 0, 9⟩, 7⟩ rfl rfl rfl rfl rfl rfl rfl).1

/-- C6: for a non-empty batch of L1 headers and fetched logs whose block hashes all belong to
the batch (the checkpoint logs among them unpacking without error), the L1 headers that
`l1ProcessFn` hands to `StoreL1BlockHeaders` are, after those handed over before the run,
exactly the headers of the batch, in batch order, whose hash is the block hash of at least one
log. -/
theorem l1_stores_exactly_headers_with_logs (env : L1Env) (l1Contracts : L1Contracts) (headers : List Header) (db : DB)
    (logs : List Log) (hne : headers ≠ [])
    (hfilter : env.FilterLogs (headers.head hne).Number (headers.getLast hne).Number
      l1Contracts.ToSlice = .ok logs)
    (hbatch : ∀ log ∈ logs, ∃ header ∈ headers, header.Hash = log.BlockHash)
    (hdecode : checkpointsDecode env logs = true) :
    (l1ProcessFn env l1Contracts headers db).1.storedL1Headers =
      db.storedL1Headers ++
        (headers.filter (fun header => logs.any (fun log => log.BlockHash == header.Hash))).map
          (fun header => ⟨BlockHeaderFromGethHeader header⟩) := by
  obtain ⟨hh, hl⟩ := head?_getLast?_of_ne_nil headers hne
  have hfound : ∀ log ∈ logs, ((headerMapOf headers).get log.BlockHash).isSome = true := by
    intro log hlog
    rw [headerMapOf_get_isSome]
    obtain ⟨header, hmem, heq⟩ := hbatch log hlog
    exact List.any_eq_true.mpr ⟨header, hmem, by simp [heq]⟩
  obtain ⟨out, hout, hkeys, _⟩ := l1ProcessLogs_ok env (headerMapOf headers) logs 0
    ⟨NewProcessedContractEvents, [], [], [], []⟩ hfound hdecode
  unfold l1ProcessFn
  simp only [hh, hl, hfilter, hout]
  rw [l1UpdateDatabase_storedL1Headers, indexedL1Headers_eq]
  congr 2
  apply List.filter_congr
  intro header _
  rw [hkeys]
  simp [GoMap.get]

set_option maxRecDepth 100000 in
/-- A batch of 500 headers with logs on two of them: exactly those two headers are stored. -/
theorem l1_stores_exactly_headers_with_logs_witness :
    (l1ProcessFn { L1Env.idle with FilterLogs := fun _ _ _ => .ok twoLogs } DevL1Contracts
        batch500 DB.empty).1.storedL1Headers =
      [⟨⟨1017, 1016, 17, 204⟩⟩, ⟨⟨1342, 1341, 342, 4104⟩⟩] :=
  (l1_stores_exactly_headers_with_logs
    { L1Env.idle with FilterLogs := fun _ _ _ => .ok twoLogs } DevL1Contracts batch500 DB.empty
    twoLogs (by decide) rfl (by decide) (by decide)).trans (by decide)

/-- C7: for a non-empty batch of L2 headers and fetched logs (possibly none) whose block hashes
all belong to the batch, the L2 headers that `l2ProcessFn` hands to `StoreL2BlockHeaders` are,
after those handed over before the run, exactly one row per header of the batch, in batch order,
with hash, parent hash, number and timestamp copied from the header. -/
theorem l2_stores_every_header (env : L2Env) (l2Contracts : L2Contracts)
    (headers : List Header) (db : DB) (logs : List Log) (hne : headers ≠ [])
    (hfilter : env.FilterLogs (headers.head hne).Number (headers.getLast hne).Number
      l2Contracts.ToSlice = .ok logs)
    (hbatch : ∀ log ∈ logs, ∃ header ∈ headers, header.Hash = log.BlockHash) :
    (l2ProcessFn env l2Contracts headers db).1.storedL2Headers =
      db.storedL2Headers ++ headers.map (fun header =>
        ⟨{ Hash := header.Hash, ParentHash := header.ParentHash, Number := header.Number,
           Timestamp := header.Time }⟩) := by
  obtain ⟨hh, hl⟩ := head?_getLast?_of_ne_nil headers hne
  have hfound : ∀ log ∈ logs, ((headerMapOf headers).get log.BlockHash).isSome = true := by
    intro log hlog
    rw [headerMapOf_get_isSome]
    obtain ⟨header, hmem, heq⟩ := hbatch log hlog
    exact List.any_eq_true.mpr ⟨header, hmem, by simp [heq]⟩
  obtain ⟨out, hout, _⟩ := l2ProcessLogs_ok env (headerMapOf headers) logs 0
    ⟨NewProcessedContractEvents, []⟩ hfound
  unfold l2ProcessFn
  simp only [hh, hl, hfilter, hout]
  rw [l2UpdateDatabase_storedL2Headers]
  rfl

/-- A batch of three L2 headers without any log: all three headers are stored. -/
theorem l2_stores_every_header_witness :
    (l2ProcessFn L2Env.idle L2ContractPredeploys
        [⟨11, 10, 1, 100⟩, ⟨12, 11, 2, 102⟩, ⟨13, 12, 3, 104⟩] DB.empty).1.storedL2Headers =
      [⟨⟨11, 10, 1, 100⟩⟩, ⟨⟨12, 11, 2, 102⟩⟩, ⟨⟨13, 12, 3, 104⟩⟩] :=
  l2_stores_every_header L2Env.idle L2ContractPredeploys
    [⟨11, 10, 1, 100⟩, ⟨12, 11, 2, 102⟩, ⟨13, 12, 3, 104⟩] DB.empty [] (by decide) rfl
    (fun _ h => by cases h)

/-- C8: if a fetched log has a block hash that is the hash of no header of the batch, then
`l1ProcessFn` returns an error and the database is the one it was given (no call to a store,
no row written), the error being "parsed log with a block hash not in this batch" when the
checkpoint logs unpack without error; and `l2ProcessFn` returns the error "parsed log with a
block hash not in this batch" with the database it was given. -/
theorem log_outside_batch_is_rejected (env1 : L1Env) (l1Contracts : L1Contracts)
    (env2 : L2Env) (l2Contracts : L2Contracts) (headers1 headers2 : List Header)
    (db1 db2 : DB) (logs1 logs2 : List Log) (hne1 : headers1 ≠ []) (hne2 : headers2 ≠ [])
    (hfilter1 : env1.FilterLogs (headers1.head hne1).Number (headers1.getLast hne1).Number
      l1Contracts.ToSlice = .ok logs1)
    (hfilter2 : env2.FilterLogs (headers2.head hne2).Number (headers2.getLast hne2).Number
      l2Contracts.ToSlice = .ok logs2)
    (hout1 : ∃ log ∈ logs1, ∀ header ∈ headers1, header.Hash ≠ log.BlockHash)
    (hout2 : ∃ log ∈ logs2, ∀ header ∈ headers2, header.Hash ≠ log.BlockHash) :
    ((l1ProcessFn env1 l1Contracts headers1 db1).1 = db1 ∧
      (∃ e, (l1ProcessFn env1 l1Contracts headers1 db1).2 = .err e) ∧
      (checkpointsDecode env1 logs1 = true →
        (l1ProcessFn env1 l1Contracts headers1 db1).2 =
          .err (.New "parsed log with a block hash not in this batch"))) ∧
    l2ProcessFn env2 l2Contracts headers2 db2 =
      (db2, .err (.New "parsed log with a block hash not in this batch")) := by
  constructor
  · obtain ⟨hh, hl⟩ := head?_getLast?_of_ne_nil headers1 hne1
    obtain ⟨log, hmem, hlog⟩ := hout1
    obtain ⟨e, he, hmsg⟩ := l1ProcessLogs_error env1 (headerMapOf headers1) logs1 0
      ⟨NewProcessedContractEvents, [], [], [], []⟩
      ⟨log, hmem, headerMapOf_get_none headers1 log.BlockHash hlog⟩
    have hrun : l1ProcessFn env1 l1Contracts headers1 db1 = (db1, .err e) := by
      unfold l1ProcessFn
      simp only [hh, hl, hfilter1, he]
    rw [hrun]
    exact ⟨rfl, ⟨e, rfl⟩, fun hd => by rw [hmsg hd]⟩
  · obtain ⟨hh, hl⟩ := head?_getLast?_of_ne_nil headers2 hne2
    obtain ⟨log, hmem, hlog⟩ := hout2
    have he := l2ProcessLogs_error env2 (headerMapOf headers2) logs2 0
      ⟨NewProcessedContractEvents, []⟩
      ⟨log, hmem, headerMapOf_get_none headers2 log.BlockHash hlog⟩
    unfold l2ProcessFn
    simp only [hh, hl, hfilter2, he]

/-- A batch of one header with hash 11 and two fetched logs, the second in a block with hash
999: both process functions reject the batch and leave the database untouched. -/
theorem log_outside_batch_is_rejected_witness :
    l1ProcessFn
        { L1Env.idle with FilterLogs := fun _ _ _ => .ok strayLogs }
        DevL1Contracts [⟨11, 10, 1, 100⟩] DB.empty =
      (DB.empty, .err (.New "parsed log with a block hash not in this batch")) ∧
    l2ProcessFn
        { L2Env.idle with FilterLogs := fun _ _ _ => .ok strayLogs }
        L2ContractPredeploys [⟨11, 10, 1, 100⟩] DB.empty =
      (DB.empty, .err (.New "parsed log with a block hash not in this batch")) :=
  have h := log_outside_batch_is_rejected
    { L1Env.idle with FilterLogs := fun _ _ _ => .ok strayLogs }
    DevL1Contracts
    { L2Env.idle with FilterLogs := fun _ _ _ => .ok strayLogs }
    L2ContractPredeploys [⟨11, 10, 1, 100⟩] [⟨11, 10, 1, 100⟩] DB.empty DB.empty
    strayLogs strayLogs
    (by decide) (by decide) rfl rfl (by decide) (by decide)
  ⟨Prod.ext h.1.1 (h.1.2.2 (by decide)), h.2⟩

/-- C9: when every `DepositInitiated` event of the batch has its log registered, the slot
(same block hash, log index + 1) holds an event, and the log of that event decodes to a deposit
transaction (the GUIDs drawn for the new rows being fresh), then
`l1ProcessContractEventsStandardBridge` appends to the bridge-deposit table one row per event,
in event order, whose `DepositHash` is the source hash of the deposit transaction decoded from
the adjacent log and whose `InitiatedL1EventGUID` is the GUID of the `DepositInitiated`
event. -/
theorem bridge_deposit_hash_from_adjacent_log (env : L1Env) (events : ProcessedContractEvents) (db : DB)
    (initiated : List StandardBridgeInitiatedEvent)
    (adjacentTx : StandardBridgeInitiatedEvent → DepositTx)
    (hinit : env.StandardBridgeInitiatedEvents events = .ok initiated)
    (hadj : ∀ ev ∈ initiated, ∃ log adjacent txLog,
      events.eventLog.get ev.RawEvent.GUID = some log ∧ log.Index + 1 < 2 ^ 64 ∧
      events.eventByLogIndex.get (log.BlockHash, log.Index + 1) = some adjacent ∧
      events.eventLog.get adjacent.GUID = some txLog ∧
      env.UnmarshalDepositLogEvent (some txLog) = .ok (adjacentTx ev))
    (hdistinct : ((List.range initiated.length).map env.bridgeGUID).Nodup)
    (hnew : ∀ i < initiated.length, ∀ d ∈ db.bridge_deposits, d.GUID ≠ env.bridgeGUID i) :
    ∃ deposits,
      (l1ProcessContractEventsStandardBridge env events db).1.bridge_deposits =
        db.bridge_deposits ++ deposits ∧
      deposits.map (fun d => (d.DepositHash, d.InitiatedL1EventGUID)) =
        initiated.map (fun ev => ((adjacentTx ev).SourceHash, ev.RawEvent.GUID)) := by
  obtain ⟨deposits, hbuild, hmap, hguid⟩ :=
    buildRange_l1BridgeDeposit env events adjacentTx initiated 0 hadj
  refine ⟨deposits, ?_, hmap⟩
  rw [← List.range_eq_range'] at hguid
  have hstore : (if deposits.length > 0 then StoreBridgeDeposits deposits db else (db, none)) =
      ({ db with bridge_deposits := db.bridge_deposits ++ deposits }, none) := by
    by_cases hpos : deposits.length > 0
    · rw [if_pos hpos]
      unfold StoreBridgeDeposits
      rw [gormCreate_fresh (fun d => d.GUID) deposits db.bridge_deposits]
      · intro h; rw [h] at hpos; simp at hpos
      · rw [hguid]; exact hdistinct
      · intro k hk hk2
        rw [hguid] at hk
        obtain ⟨i, hi, rfl⟩ := List.mem_map.mp hk
        obtain ⟨d, hd, hdk⟩ := List.mem_map.mp hk2
        exact hnew i (List.mem_range.mp hi) d hd hdk
    · rw [if_neg hpos]
      have : deposits = [] := by
        cases deposits with
        | nil => rfl
        | cons a b => simp at hpos
      simp [this]
  unfold l1ProcessContractEventsStandardBridge
  simp only [hinit, hbuild, hstore]
  rcases hf : env.StandardBridgeFinalizedEvents events with e | fin
  · rfl
  · simp only
    rw [forRange_preserves (fun d => d.bridge_deposits) _
      l1FinalizeBridgeWithdrawal_bridge_deposits]

/-- One `DepositInitiated` event at index 4 whose neighbour at index 5 decodes to a deposit
with source hash 555: the stored bridge deposit carries 555 and the GUID of the event. -/
theorem bridge_deposit_hash_from_adjacent_log_witness :
    (l1ProcessContractEventsStandardBridge depositEnv depositEvents
        DB.empty).1.bridge_deposits.map (fun d => (d.DepositHash, d.InitiatedL1EventGUID)) =
      [(555, 1000)] :=
  match bridge_deposit_hash_from_adjacent_log depositEnv depositEvents DB.empty
      [⟨⟨1000, 11, 9001, 77, 4, 100⟩, 0, 0, 0, 10, 10, 5, [1]⟩]
      (fun _ => ⟨555, 10, some 10, 5, 5, 200000, [1]⟩) rfl
      (fun ev hev => by
        simp only [List.mem_singleton] at hev
        subst hev
        exact ⟨⟨3, [77], [], 11, 9001, 4⟩, ⟨1001, 11, 9001, 78, 5, 100⟩,
          ⟨0, [78], [555], 11, 9001, 5⟩, rfl, by decide, rfl, rfl, rfl⟩)
      (by decide) (fun _ _ _ hd => by cases hd) with
  | ⟨deposits, hstored, hrows⟩ => by
    rw [hstored]
    simpa [DB.empty] using hrows

/-- What `l1TransactionDeposit` writes into the two address columns: the sender, twice. -/
theorem l1TransactionDeposit_addresses (depositEvent : OptimismPortalTransactionDepositEvent) :
    (l1TransactionDeposit depositEvent).Tx.FromAddress = depositEvent.DepositTx.From ∧
      (l1TransactionDeposit depositEvent).Tx.ToAddress = depositEvent.DepositTx.From :=
  ⟨rfl, rfl⟩

/-- C10 (what the code does): for a portal deposit sent by address 10 to address 11,
`l1ProcessContractEventsBridgeTransactions` stores a transaction deposit whose `FromAddress`
is 10 and whose `ToAddress` is also 10, the sender, not the recipient 11. -/
theorem portal_deposit_to_address_is_sender :
    portalDepositToOther.DepositTx.From = 10 ∧ portalDepositToOther.DepositTx.To = some 11 ∧
    ((l1ProcessContractEventsBridgeTransactions
        { L1Env.idle with
          OptimismPortalTransactionDepositEvents := fun _ => .ok [portalDepositToOther] }
        DevL1Contracts NewProcessedContractEvents DB.empty).1.transaction_deposits.map
      (fun d => (d.Tx.FromAddress, d.Tx.ToAddress))) = [(10, 10)] := by
  decide

/-- What `l2BridgeWithdrawal` writes into the token pair: the local token of the event as
`L1TokenAddress` and its remote token as `L2TokenAddress`. -/
theorem l2BridgeWithdrawal_token_pair (env : L2Env) (events : ProcessedContractEvents) (i : Nat)
    (ev : StandardBridgeInitiatedEvent) (w : BridgeWithdrawal)
    (h : l2BridgeWithdrawal env events i ev = .ok w) :
    w.TokenPair = { L1TokenAddress := ev.LocalToken, L2TokenAddress := ev.RemoteToken } := by
  unfold l2BridgeWithdrawal at h
  rcases h1 : events.eventLog.get ev.RawEvent.GUID with _ | log
  · rw [h1] at h; cases h
  · rw [h1] at h
    dsimp only at h
    rcases h2 : events.eventByLogIndex.get (log.BlockHash, (log.Index + 1) % 2 ^ 64)
      with _ | adjacent
    · rw [h2] at h; cases h
    · rw [h2] at h
      dsimp only at h
      rcases h3 : env.UnpackMessagePassed (events.eventLog.get adjacent.GUID) with d | e | r
      · rw [h3] at h
        cases h
        rfl
      · rw [h3] at h; cases h
      · rw [h3] at h; cases h

/-- C11 (what the code does): for a `WithdrawalInitiated` event on L2 whose local token (the
L2-side token) is address 20 and whose remote token (the L1-side token) is address 30,
`l2ProcessContractEventsStandardBridge` stores a bridge withdrawal with `L1TokenAddress` 20
and `L2TokenAddress` 30: the two sides are exchanged with respect to the event. -/
theorem l2_withdrawal_token_pair_is_local_remote :
    (l2ProcessContractEventsStandardBridge withdrawalEnv depositEvents
        DB.empty).1.bridge_withdrawals.map (fun w => w.TokenPair) =
      [{ L1TokenAddress := 20, L2TokenAddress := 30 }] := by
  decide

/-- C12: `l2ProcessContractEventsBridgeTransactions` hands to `StoreTransactionWithdrawals`
(when there is at least one `MessagePassed` event) the list with one row per event, in event
order, whose withdrawal hash, nonce, gas limit, sender, target, value, data and timestamp are
those of the event, whose `InitiatedL2EventGUID` is the GUID of the event and whose two
back-references are unset; when the hashes are distinct and new the rows are appended to the
table. -/
theorem message_passed_rows_copy_event_fields (env : L2Env) (events : ProcessedContractEvents) (db : DB)
    (messagesPassed : List L2ToL1MessagePasserMessagePassed)
    (hevents : env.L2ToL1MessagePasserMessagesPassed events = .ok messagesPassed) :
    l2ProcessContractEventsBridgeTransactions env events db =
      (if messagesPassed.length > 0 then
        (StoreTransactionWithdrawals (messagesPassed.map l2TransactionWithdrawal) db).1
        else db, .nil) ∧
    (messagesPassed.map l2TransactionWithdrawal).length = messagesPassed.length ∧
    (∀ i (h : i < messagesPassed.length),
      (messagesPassed.map l2TransactionWithdrawal)[i]? =
        some { WithdrawalHash := messagesPassed[i].WithdrawalHash
               InitiatedL2EventGUID := messagesPassed[i].RawEvent.GUID
               ProvenL1EventGUID := none
               FinalizedL1EventGUID := none
               Nonce := messagesPassed[i].Nonce
               GasLimit := messagesPassed[i].GasLimit
               Tx := { FromAddress := messagesPassed[i].Sender
                       ToAddress := messagesPassed[i].Target
                       Amount := messagesPassed[i].Value
                       Data := messagesPassed[i].Data
                       Timestamp := messagesPassed[i].RawEvent.Timestamp } }) ∧
    ((messagesPassed.map (fun ev => ev.WithdrawalHash)).Nodup →
      (∀ ev ∈ messagesPassed, ∀ w ∈ db.transaction_withdrawals,
        w.WithdrawalHash ≠ ev.WithdrawalHash) →
      (l2ProcessContractEventsBridgeTransactions env events db).1.transaction_withdrawals =
        db.transaction_withdrawals ++ messagesPassed.map l2TransactionWithdrawal) := by
  have hrun : l2ProcessContractEventsBridgeTransactions env events db =
      (if messagesPassed.length > 0 then
        (StoreTransactionWithdrawals (messagesPassed.map l2TransactionWithdrawal) db).1
        else db, .nil) := by
    unfold l2ProcessContractEventsBridgeTransactions
    simp only [hevents, List.length_map]
  refine ⟨hrun, List.length_map _ _, ?_, ?_⟩
  · intro i h
    rw [List.getElem?_map, List.getElem?_eq_getElem h]
    rfl
  · intro hnodup hnew
    rw [hrun]
    by_cases hpos : messagesPassed.length > 0
    · simp only [hpos, if_true]
      have h1 : messagesPassed.map l2TransactionWithdrawal ≠ [] := by
        intro h
        rw [List.map_eq_nil_iff] at h
        rw [h] at hpos
        simp at hpos
      have h2 : ((messagesPassed.map l2TransactionWithdrawal).map
          (fun w => w.WithdrawalHash)).Nodup := by
        rw [List.map_map]
        exact hnodup
      have h3 : ∀ k ∈ (messagesPassed.map l2TransactionWithdrawal).map
          (fun w => w.WithdrawalHash),
          k ∉ db.transaction_withdrawals.map (fun w => w.WithdrawalHash) := by
        intro k hk hk2
        rw [List.map_map] at hk
        obtain ⟨ev, hev, rfl⟩ := List.mem_map.mp hk
        obtain ⟨w, hw, hwk⟩ := List.mem_map.mp hk2
        exact hnew ev hev w hw hwk
      unfold StoreTransactionWithdrawals
      rw [gormCreate_fresh (fun w : TransactionWithdrawal => w.WithdrawalHash)
        (messagesPassed.map l2TransactionWithdrawal) db.transaction_withdrawals h1 h2 h3]
    · have : messagesPassed = [] := by
        cases messagesPassed with
        | nil => rfl
        | cons x xs => simp at hpos
      subst this
      simp

/-- One `MessagePassed` event with hash 7 on an empty database: the row is stored with both
back-references unset. -/
theorem message_passed_rows_copy_event_fields_witness :
    l2ProcessContractEventsBridgeTransactions
        messagePassedEnv NewProcessedContractEvents DB.empty =
      ({ DB.empty with transaction_withdrawals :=
          [⟨7, 3100, none, none, 4, ⟨10, 11, 5, [1], 120⟩, 100000⟩] }, .nil) :=
  (message_passed_rows_copy_event_fields messagePassedEnv NewProcessedContractEvents DB.empty
    [⟨⟨3100, 22, 9102, 91, 2, 120⟩, 7, 4, 10, 11, 5, 100000, [1]⟩] rfl).1

/-- C13 (what the code does at the all-zero hash): in a table with unique hashes that holds a
row with the all-zero hash behind a row with hash 9, `MarkTransactionWithdrawalProvenEvent`
called with the all-zero hash sets the back-reference of the row with hash 9 and leaves the row
with the all-zero hash as it was; when the row with the all-zero hash is the first row, the call
returns the error of the refused `INSERT`. -/
theorem mark_proven_zero_hash_misses_its_row :
    (zeroHashDB.transaction_withdrawals.map (fun w => w.WithdrawalHash)).Nodup ∧
    (∃ w ∈ zeroHashDB.transaction_withdrawals, w.WithdrawalHash = emptyHash) ∧
    MarkTransactionWithdrawalProvenEvent emptyHash 42 zeroHashDB =
      ({ zeroHashDB with
          transaction_withdrawals :=
            [⟨9, 3100, some 42, none, 4, ⟨10, 11, 5, [1], 120⟩, 100000⟩,
             ⟨0, 3101, none, none, 5, ⟨10, 11, 5, [1], 121⟩, 100000⟩] }, none) ∧
    MarkTransactionWithdrawalProvenEvent emptyHash 42
        { DB.empty with
          transaction_withdrawals :=
            [⟨0, 3101, none, none, 5, ⟨10, 11, 5, [1], 121⟩, 100000⟩] } =
      ({ DB.empty with
          transaction_withdrawals :=
            [⟨0, 3101, none, none, 5, ⟨10, 11, 5, [1], 121⟩, 100000⟩] },
        some (.sql "duplicate key value violates unique constraint")) := by
  decide

/-- C13 (amended): for a withdrawal hash `h` other than the all-zero hash, in a table with unique
withdrawal hashes that holds a row with hash `h`, `MarkTransactionWithdrawalProvenEvent h g`
returns no error and the new table is the old one with `ProvenL1EventGUID` of the row with hash
`h` set to `g`: every other field of that row and every other row are as before, the other
tables are as before, and the number of rows is the same. -/
theorem mark_proven_sets_only_proven (db : DB) (h : Hash) (g : UUID)
    (hh : h ≠ emptyHash)
    (hpk : (db.transaction_withdrawals.map (fun w => w.WithdrawalHash)).Nodup)
    (hrow : ∃ w ∈ db.transaction_withdrawals, w.WithdrawalHash = h) :
    MarkTransactionWithdrawalProvenEvent h g db =
      ({ db with transaction_withdrawals := db.transaction_withdrawals.map (fun w =>
          if w.WithdrawalHash = h then { w with ProvenL1EventGUID := some g } else w) },
        none) ∧
    (MarkTransactionWithdrawalProvenEvent h g db).1.transaction_withdrawals.length =
      db.transaction_withdrawals.length := by
  have key : MarkTransactionWithdrawalProvenEvent h g db =
      ({ db with transaction_withdrawals := db.transaction_withdrawals.map (fun w =>
          if w.WithdrawalHash = h then { w with ProvenL1EventGUID := some g } else w) },
        none) :=
    MarkTransactionWithdrawalProvenEvent_map db h g hh hpk hrow
  exact ⟨key, by rw [key]; simp⟩

/-- Marking hash 777 of `queryDB` proven by GUID 42 changes only that back-reference. -/
theorem mark_proven_sets_only_proven_witness :
    MarkTransactionWithdrawalProvenEvent 777 42 queryDB =
      ({ queryDB with transaction_withdrawals :=
          [⟨777, 3100, some 42, some 1600, 0, ⟨10, 10, 5, [1], 120⟩, 100000⟩] }, none) :=
  (mark_proven_sets_only_proven queryDB 777 42 (by decide) (by decide) (by decide)).1

/-- C14 (what the code does at the all-zero hash): no row of the table has the all-zero hash, and the
table is not empty.  `MarkTransactionWithdrawalProvenEvent` called with the all-zero hash
returns `nil` and sets the proven back-reference of the first row;
`MarkTransactionWithdrawalFinalizedEvent` called with the all-zero hash then returns `nil` and
sets the finalized back-reference of that row. -/
theorem mark_absent_zero_hash_marks_first_row :
    (∀ w ∈ noZeroHashDB.transaction_withdrawals, w.WithdrawalHash ≠ emptyHash) ∧
    MarkTransactionWithdrawalProvenEvent emptyHash 42 noZeroHashDB =
      ({ noZeroHashDB with
          transaction_withdrawals :=
            [⟨9, 3100, some 42, none, 4, ⟨10, 11, 5, [1], 120⟩, 100000⟩] }, none) ∧
    MarkTransactionWithdrawalFinalizedEvent emptyHash 43
        (MarkTransactionWithdrawalProvenEvent emptyHash 42 noZeroHashDB).1 =
      ({ noZeroHashDB with
          transaction_withdrawals :=
            [⟨9, 3100, some 42, some 43, 4, ⟨10, 11, 5, [1], 120⟩, 100000⟩] }, none) := by
  decide

/-- C14 (amended): for a withdrawal hash `h` other than the all-zero hash, when no row has
withdrawal hash `h`, both `MarkTransactionWithdrawalProvenEvent h g` and
`MarkTransactionWithdrawalFinalizedEvent h g` return an error (record not found) and the
database is the one they were given: no row is created. -/
theorem mark_without_row_fails (db : DB) (h : Hash) (g : UUID)
    (hh : h ≠ emptyHash)
    (habsent : ∀ w ∈ db.transaction_withdrawals, w.WithdrawalHash ≠ h) :
    MarkTransactionWithdrawalProvenEvent h g db = (db, some .ErrRecordNotFound) ∧
    MarkTransactionWithdrawalFinalizedEvent h g db = (db, some .ErrRecordNotFound) := by
  have ht : gormWhereTake (fun w => w.WithdrawalHash) emptyHash h db.transaction_withdrawals =
      .error .ErrRecordNotFound := by
    rw [gormWhereTake_of_ne _ hh]
    unfold gormTake
    have : db.transaction_withdrawals.find? (fun w => w.WithdrawalHash == h) = none := by
      rw [List.find?_eq_none]
      intro w hw
      simpa using habsent w hw
    rw [this]
  constructor
  · unfold MarkTransactionWithdrawalProvenEvent
    rw [ht]
  · unfold MarkTransactionWithdrawalFinalizedEvent
    rw [ht]

/-- Hash 8 has no row in `queryDB`: both markings fail and leave `queryDB` as it is. -/
theorem mark_without_row_fails_witness :
    MarkTransactionWithdrawalProvenEvent 8 42 queryDB = (queryDB, some .ErrRecordNotFound) ∧
    MarkTransactionWithdrawalFinalizedEvent 8 42 queryDB = (queryDB, some .ErrRecordNotFound) :=
  mark_without_row_fails queryDB 8 42 (by decide) (by decide)

/-- C15 (what the code does at the all-zero hash): no row of the table has the all-zero hash, and
`TransactionWithdrawalByHash` called with the all-zero hash returns the first row of the table,
whose hash is 9. -/
theorem lookup_zero_hash_returns_first_row :
    (∀ w ∈ noZeroHashDB.transaction_withdrawals, w.WithdrawalHash ≠ emptyHash) ∧
    TransactionWithdrawalByHash emptyHash noZeroHashDB =
      .ok (some ⟨9, 3100, none, none, 4, ⟨10, 11, 5, [1], 120⟩, 100000⟩) := by
  decide

/-- C15 (amended): for a withdrawal hash `h` other than the all-zero hash,
`TransactionWithdrawalByHash h` returns a stored row whose withdrawal hash is `h`, with no
error, when there is one, and returns `(nil, nil)` when no stored row has hash `h`: the
`gorm.ErrRecordNotFound` of `Take` is not passed on as an error. -/
theorem withdrawal_by_hash_found_or_nil (db : DB) (h : Hash) (hh : h ≠ emptyHash) :
    ((∃ w ∈ db.transaction_withdrawals, w.WithdrawalHash = h) →
      ∃ w ∈ db.transaction_withdrawals, w.WithdrawalHash = h ∧
        TransactionWithdrawalByHash h db = .ok (some w)) ∧
    ((∀ w ∈ db.transaction_withdrawals, w.WithdrawalHash ≠ h) →
      TransactionWithdrawalByHash h db = .ok none) := by
  rcases ht : gormTake (fun w => w.WithdrawalHash == h) db.transaction_withdrawals
    with e | found
  · obtain ⟨rfl, hall⟩ := gormTake_error ht
    have hlook : TransactionWithdrawalByHash h db = .ok none := by
      unfold TransactionWithdrawalByHash
      rw [gormWhereTake_of_ne _ hh, ht]
      rfl
    refine ⟨?_, fun _ => hlook⟩
    rintro ⟨w, hw, hwh⟩
    have := hall w hw
    simp [hwh] at this
  · obtain ⟨hmem, hh1⟩ := gormTake_ok_mem ht
    have hh2 : found.WithdrawalHash = h := by simpa using hh1
    have hlook : TransactionWithdrawalByHash h db = .ok (some found) := by
      unfold TransactionWithdrawalByHash
      rw [gormWhereTake_of_ne _ hh, ht]
    refine ⟨fun _ => ⟨found, hmem, hh2, hlook⟩, ?_⟩
    intro hall
    exact absurd hh2 (hall found hmem)

/-- In `queryDB` the lookup of hash 777 returns the stored row, and the lookup of hash 8, which
no row has, returns `(nil, nil)`. -/
theorem withdrawal_by_hash_found_or_nil_witness :
    TransactionWithdrawalByHash 777 queryDB =
      .ok (some ⟨777, 3100, some 1500, some 1600, 0, ⟨10, 10, 5, [1], 120⟩, 100000⟩) ∧
    TransactionWithdrawalByHash 8 queryDB = .ok none :=
  ⟨by
      obtain ⟨w, hw, _, hlook⟩ :=
        (withdrawal_by_hash_found_or_nil queryDB 777 (by decide)).1 (by decide)
      have hw2 : w = ⟨777, 3100, some 1500, some 1600, 0, ⟨10, 10, 5, [1], 120⟩, 100000⟩ := by
        simpa [queryDB] using hw
      rw [← hw2]
      exact hlook,
    (withdrawal_by_hash_found_or_nil queryDB 8 (by decide)).2 (by decide)⟩

/-- C16 (what the code does): when no stored bridge deposit has `FromAddress` equal to the
queried address, `BridgeDepositsByAddress` returns without error the slice it made before the
query ran, one hundred `nil` entries, not the empty list. -/
theorem deposits_by_address_without_match_returns_placeholders (tables : ContractEventTables) (a : Address) (db : DB)
    (hnone : ∀ d ∈ db.bridge_deposits, d.Tx.FromAddress ≠ a) :
    BridgeDepositsByAddress tables a db = .ok (List.replicate 100 none) := by
  unfold BridgeDepositsByAddress
  have hfilter : (leftJoin (leftJoin db.bridge_deposits tables.l1_contract_events
      (fun d e => d.InitiatedL1EventGUID == e.ContractEvent.GUID)) tables.l2_contract_events
      (fun r e => r.1.FinalizedL2EventGUID == some e.ContractEvent.GUID)).filter
      (fun r => r.1.1.Tx.FromAddress == a) = [] := by
    rw [List.filter_eq_nil_iff]
    rintro ⟨⟨d, o1⟩, o2⟩ hr
    have h1 := (mem_leftJoin hr).1
    have h2 := (mem_leftJoin h1).1
    simpa using hnone d h2
  simp only [hfilter]
  rfl

/-- Address 99 has no deposit in `queryDB`: the result is one hundred `nil` entries. -/
theorem deposits_by_address_without_match_returns_placeholders_witness :
    BridgeDepositsByAddress queryTables 99 queryDB = .ok (List.replicate 100 none) ∧
    (List.replicate 100 (none : Option BridgeDepositWithTransactionHashes)).length = 100 :=
  ⟨deposits_by_address_without_match_returns_placeholders queryTables 99 queryDB (by decide),
    by decide⟩

/-- C17: with GUIDs unique in both event tables, every row that `BridgeDepositsByAddress`
returns has `L1TransactionHash` equal to the transaction hash of the L1 event whose GUID is the
`InitiatedL1EventGUID` of the deposit, and has `FinalizedL2TransactionHash` equal to the
all-zero hash when `FinalizedL2EventGUID` is unset and to the transaction hash of the L2 event
with that GUID otherwise. -/
theorem deposit_rows_carry_event_hashes (tables : ContractEventTables) (a : Address) (db : DB)
    (rows : List (Option BridgeDepositWithTransactionHashes))
    (row : BridgeDepositWithTransactionHashes)
    (hl1 : (tables.l1_contract_events.map (fun e => e.ContractEvent.GUID)).Nodup)
    (hl2 : (tables.l2_contract_events.map (fun e => e.ContractEvent.GUID)).Nodup)
    (hres : BridgeDepositsByAddress tables a db = .ok rows) (hrow : some row ∈ rows) :
    (∀ e ∈ tables.l1_contract_events,
      e.ContractEvent.GUID = row.BridgeDeposit.InitiatedL1EventGUID →
        row.L1TransactionHash = e.ContractEvent.TransactionHash) ∧
    (row.BridgeDeposit.FinalizedL2EventGUID = none →
      row.FinalizedL2TransactionHash = emptyHash) ∧
    (∀ g, row.BridgeDeposit.FinalizedL2EventGUID = some g →
      ∀ e ∈ tables.l2_contract_events, e.ContractEvent.GUID = g →
        row.FinalizedL2TransactionHash = e.ContractEvent.TransactionHash) := by
  obtain ⟨d, o1, o2, rfl, hmem, _⟩ := BridgeDepositsByAddress_row hres hrow
  obtain ⟨hmem1, h2⟩ := mem_leftJoin hmem
  obtain ⟨_, h1⟩ := mem_leftJoin hmem1
  refine ⟨?_, ?_, ?_⟩
  · intro e he hg
    rcases h1 with ⟨_, hno⟩ | ⟨r, rfl, hr, hc⟩
    · have := hno e he
      simp [hg] at this
    · have hgr : r.ContractEvent.GUID = e.ContractEvent.GUID := by
        simp only [beq_iff_eq] at hc
        rw [← hc, hg]
      have := eq_of_nodup_map hl1 hr he hgr
      subst this
      rfl
  · intro hnone
    rcases h2 with ⟨rfl, _⟩ | ⟨r, rfl, hr, hc⟩
    · rfl
    · simp only at hnone hc
      rw [hnone] at hc
      simp at hc
  · intro g hg e he heg
    rcases h2 with ⟨_, hno⟩ | ⟨r, rfl, hr, hc⟩
    · have := hno e he
      simp only at hg this
      rw [hg, heg] at this
      simp at this
    · simp only at hg hc
      rw [hg] at hc
      have hgr : r.ContractEvent.GUID = e.ContractEvent.GUID := by
        have : some g = some r.ContractEvent.GUID := by simpa using hc
        cases this
        exact heg.symm
      have := eq_of_nodup_map hl2 hr he hgr
      subst this
      rfl

/-- The deposit of address 10 in `queryDB` comes back with the transaction hash 9001 of L1
event 1000 and the transaction hash 9101 of L2 event 3000. -/
theorem deposit_rows_carry_event_hashes_witness :
    BridgeDepositsByAddress queryTables 10 queryDB =
      .ok [some ⟨⟨2000, 1000, 0, 555, some 3000, ⟨10, 10, 5, [1], 100⟩, ⟨0, 0⟩⟩, 9001, 9101⟩] ∧
    (∀ e ∈ queryTables.l1_contract_events, e.ContractEvent.GUID = 1000 →
      (9001 : Hash) = e.ContractEvent.TransactionHash) :=
  ⟨by decide,
    (deposit_rows_carry_event_hashes queryTables 10 queryDB
      [some ⟨⟨2000, 1000, 0, 555, some 3000, ⟨10, 10, 5, [1], 100⟩, ⟨0, 0⟩⟩, 9001, 9101⟩]
      ⟨⟨2000, 1000, 0, 555, some 3000, ⟨10, 10, 5, [1], 100⟩, ⟨0, 0⟩⟩, 9001, 9101⟩
      (by decide) (by decide) (by decide) (by decide)).1⟩

/-- C18: with GUIDs unique in the L1 event table and withdrawal hashes unique in the
transaction-withdrawal table, every row that `BridgeWithdrawalsByAddress` returns has
`ProvenL1TransactionHash` equal to the transaction hash of the L1 event referenced by
`ProvenL1EventGUID` of the transaction withdrawal with the same withdrawal hash (the all-zero
hash when that reference is unset), and has `FinalizedL1TransactionHash` equal to the
transaction hash of the L1 event referenced by `FinalizedL1EventGUID` of the bridge withdrawal
(the all-zero hash when it is unset). -/
theorem withdrawal_rows_carry_event_hashes (tables : ContractEventTables) (a : Address) (db : DB)
    (rows : List (Option BridgeWithdrawalWithTransactionHashes))
    (row : BridgeWithdrawalWithTransactionHashes)
    (hl1 : (tables.l1_contract_events.map (fun e => e.ContractEvent.GUID)).Nodup)
    (htw : (db.transaction_withdrawals.map (fun t => t.WithdrawalHash)).Nodup)
    (hres : BridgeWithdrawalsByAddress tables a db = .ok rows) (hrow : some row ∈ rows) :
    (∀ t ∈ db.transaction_withdrawals,
      t.WithdrawalHash = row.BridgeWithdrawal.WithdrawalHash →
        (t.ProvenL1EventGUID = none → row.ProvenL1TransactionHash = emptyHash) ∧
        (∀ g, t.ProvenL1EventGUID = some g →
          ∀ e ∈ tables.l1_contract_events, e.ContractEvent.GUID = g →
            row.ProvenL1TransactionHash = e.ContractEvent.TransactionHash)) ∧
    (row.BridgeWithdrawal.FinalizedL1EventGUID = none →
      row.FinalizedL1TransactionHash = emptyHash) ∧
    (∀ g, row.BridgeWithdrawal.FinalizedL1EventGUID = some g →
      ∀ e ∈ tables.l1_contract_events, e.ContractEvent.GUID = g →
        row.FinalizedL1TransactionHash = e.ContractEvent.TransactionHash) := by
  obtain ⟨w, o1, o2, o3, o4, rfl, hmem, _⟩ := BridgeWithdrawalsByAddress_row hres hrow
  obtain ⟨hmem3, h4⟩ := mem_leftJoin hmem
  obtain ⟨hmem2, h3⟩ := mem_leftJoin hmem3
  obtain ⟨_, h2⟩ := mem_leftJoin hmem2
  refine ⟨?_, ?_, ?_⟩
  · intro t ht hth
    have ho3 : o3 = some t := by
      rcases h3 with ⟨_, hno⟩ | ⟨r, rfl, hr, hc⟩
      · have := hno t ht
        simp only at hth this
        rw [hth] at this
        simp at this
      · have hrt : r.WithdrawalHash = t.WithdrawalHash := by
          simp only [beq_iff_eq] at hc
          simp only at hth
          rw [← hc, hth]
        rw [eq_of_nodup_map htw hr ht hrt]
    subst ho3
    refine ⟨?_, ?_⟩
    · intro hnone
      rcases h4 with ⟨rfl, _⟩ | ⟨r, rfl, hr, hc⟩
      · rfl
      · simp only [Option.bind, hnone] at hc
        simp at hc
    · intro g hg e he heg
      rcases h4 with ⟨_, hno⟩ | ⟨r, rfl, hr, hc⟩
      · have := hno e he
        simp only [Option.bind, hg, heg] at this
        simp at this
      · simp only [Option.bind, hg] at hc
        have hgr : r.ContractEvent.GUID = e.ContractEvent.GUID := by
          have : some g = some r.ContractEvent.GUID := by simpa using hc
          cases this
          exact heg.symm
        have := eq_of_nodup_map hl1 hr he hgr
        subst this
        rfl
  · intro hnone
    rcases h2 with ⟨rfl, _⟩ | ⟨r, rfl, hr, hc⟩
    · rfl
    · simp only at hnone hc
      rw [hnone] at hc
      simp at hc
  · intro g hg e he heg
    rcases h2 with ⟨_, hno⟩ | ⟨r, rfl, hr, hc⟩
    · have := hno e he
      simp only at hg this
      rw [hg, heg] at this
      simp at this
    · simp only at hg hc
      rw [hg] at hc
      have hgr : r.ContractEvent.GUID = e.ContractEvent.GUID := by
        have : some g = some r.ContractEvent.GUID := by simpa using hc
        cases this
        exact heg.symm
      have := eq_of_nodup_map hl1 hr he hgr
      subst this
      rfl

/-- The withdrawal of address 10 in `queryDB` comes back with the transaction hash 9005 of the
proving L1 event 1500 and the transaction hash 9006 of the finalizing L1 event 1600. -/
theorem withdrawal_rows_carry_event_hashes_witness :
    BridgeWithdrawalsByAddress queryTables 10 queryDB =
      .ok [some ⟨⟨4000, 3100, 1, 777, some 1600, ⟨10, 10, 5, [1], 120⟩, ⟨0, 0⟩⟩,
        9102, 9005, 9006⟩] ∧
    (∀ e ∈ queryTables.l1_contract_events, e.ContractEvent.GUID = 1600 →
      (9006 : Hash) = e.ContractEvent.TransactionHash) :=
  ⟨by decide,
    (withdrawal_rows_carry_event_hashes queryTables 10 queryDB
      [some ⟨⟨4000, 3100, 1, 777, some 1600, ⟨10, 10, 5, [1], 120⟩, ⟨0, 0⟩⟩, 9102, 9005, 9006⟩]
      ⟨⟨4000, 3100, 1, 777, some 1600, ⟨10, 10, 5, [1], 120⟩, ⟨0, 0⟩⟩, 9102, 9005, 9006⟩
      (by decide) (by decide) (by decide) (by decide)).2.2 1600 rfl⟩

/-- C19 (what the code does): `LatestBridgeDepositMessageNonce` returns an error for every
database, whether or not a bridge deposit is stored: it orders by the column name
`cross_domain_messager_nonce`, and the nonce column of `bridge_deposits` is
`cross_domain_messenger_nonce`. -/
theorem latest_deposit_nonce_query_fails (db : DB) :
    LatestBridgeDepositMessageNonce db =
        .error (.sql "column cross_domain_messager_nonce does not exist") ∧
      (bridge_deposits_column "cross_domain_messenger_nonce").isSome = true :=
  ⟨LatestBridgeDepositMessageNonce_error db, rfl⟩

/-- C27: for every `L1Contracts` value `ToSlice` has length 5 and lists the five addresses in
field declaration order (portal, output oracle, L1 messenger, L1 standard bridge, L1 ERC721
bridge); for every `L2Contracts` value it has length 4 and lists L2 messenger, L2 standard
bridge, L2 ERC721 bridge, message passer; and `DevL1Contracts().ToSlice()` is the five
addresses `0x69..00` to `0x69..04` in this order. -/
theorem to_slice_lists_fields_in_declaration_order (c1 : L1Contracts) (c2 : L2Contracts) :
    c1.ToSlice.length = 5 ∧
    c1.ToSlice = [c1.OptimismPortal, c1.L2OutputOracle, c1.L1CrossDomainMessenger,
      c1.L1StandardBridge, c1.L1ERC721Bridge] ∧
    c2.ToSlice.length = 4 ∧
    c2.ToSlice = [c2.L2CrossDomainMessenger, c2.L2StandardBridge, c2.L2ERC721Bridge,
      c2.L2ToL1MessagePasser] ∧
    DevL1Contracts.ToSlice =
      [0x6900000000000000000000000000000000000000, 0x6900000000000000000000000000000000000001,
       0x6900000000000000000000000000000000000002, 0x6900000000000000000000000000000000000003,
       0x6900000000000000000000000000000000000004] := by
  have h1 : ∀ c : L1Contracts, c.ToSlice = [c.OptimismPortal, c.L2OutputOracle,
      c.L1CrossDomainMessenger, c.L1StandardBridge, c.L1ERC721Bridge] := by
    intro c
    simp [L1Contracts.ToSlice, L1Contracts.reflect, VisibleFields, FieldByName, List.enum,
      List.enumFrom]
  have h2 : c2.ToSlice = [c2.L2CrossDomainMessenger, c2.L2StandardBridge, c2.L2ERC721Bridge,
      c2.L2ToL1MessagePasser] := by
    simp [L2Contracts.ToSlice, L2Contracts.reflect, VisibleFields, FieldByName, List.enum,
      List.enumFrom]
  refine ⟨by rw [h1]; rfl, h1 c1, by rw [h2]; rfl, h2, ?_⟩
  rw [h1]
  rfl

/-- C26: for a flag whose value is not empty, `parseAddress` returns an error exactly when the
value is not a hex address (`common.IsHexAddress`), and then the address it returns is the zero
address; when the value is a hex address it returns no error and the address
`common.HexToAddress` gives, which is the number denoted by the 40 hex digits of the value
(after its optional `0x` prefix). -/
theorem parse_address_fails_iff_not_hex_address (ctx : String → String) (name : String)
    (hne : ctx name ≠ "") :
    ((parseAddress ctx name).2 ≠ none ↔ IsHexAddress (ctx name).data = false) ∧
    (IsHexAddress (ctx name).data = false →
      parseAddress ctx name = (0, some (.New ("invalid address: " ++ ctx name)))) ∧
    (IsHexAddress (ctx name).data = true →
      parseAddress ctx name = (HexToAddress (ctx name).data, none) ∧
      (hexDigits (ctx name)).length = 40 ∧
      (hexDigits (ctx name)).all isHexCharacter = true ∧
      HexToAddress (ctx name).data = hexNumber (hexDigits (ctx name))) := by
  have hrun : parseAddress ctx name =
      if IsHexAddress (ctx name).data = true then (HexToAddress (ctx name).data, none)
      else (0, some (.New ("invalid address: " ++ ctx name))) := by
    unfold parseAddress
    simp only [hne, if_false]
    cases IsHexAddress (ctx name).data <;> rfl
  rw [hrun]
  cases hv : IsHexAddress (ctx name).data with
  | false =>
    refine ⟨by simp, fun _ => by simp, fun hc => (by cases hc)⟩
  | true =>
    refine ⟨by simp, fun hc => (by cases hc), fun _ => ⟨by simp, ?_⟩⟩
    exact HexToAddress_of_IsHexAddress (ctx name) hv

/-- The flag value `0x6900000000000000000000000000000000000003` parses to the address of the
L1 standard bridge of the dev network, and the value `0x69` is rejected. -/
theorem parse_address_fails_iff_not_hex_address_witness :
    parseAddress (fun _ => "0x6900000000000000000000000000000000000003") "l1-standard-bridge" =
      (DevL1Contracts.L1StandardBridge, none) ∧
    parseAddress (fun _ => "0x69") "l1-standard-bridge" =
      (0, some (.New "invalid address: 0x69")) :=
  ⟨((parse_address_fails_iff_not_hex_address
      (fun _ => "0x6900000000000000000000000000000000000003") "l1-standard-bridge"
      (by decide)).2.2 (by decide)).1.trans (by decide),
   (parse_address_fails_iff_not_hex_address (fun _ => "0x69") "l1-standard-bridge"
      (by decide)).2.1 (by decide)⟩

/-- C25: `NewL1Processor` and `NewL2Processor` fail when the lookup of the latest stored header
fails, and when a header is stored and fetching the chain header by its hash fails.  When a
header is stored and the fetch answers, the processor is built (for L1: given the two ABIs
load) with its header traversal seeded with the fetched header; when no header is stored it is
built with the traversal seeded with no header. -/
theorem new_processor_recovers_cursor (start1 : L1Startup) (env1 : L1Env)
    (l1Contracts : L1Contracts) (start2 : L2Startup) (env2 : L2Env)
    (l2Contracts : L2Contracts) :
    ((∀ err, start1.LatestL1BlockHeader = .error err →
        ∃ e, NewL1Processor start1 env1 l1Contracts = .error e) ∧
      (∀ stored err, start1.LatestL1BlockHeader = .ok (some stored) →
        start1.BlockHeaderByHash stored.BlockHeader.Hash = .error err →
        ∃ e, NewL1Processor start1 env1 l1Contracts = .error e) ∧
      (start1.L2OutputOracleGetAbi = none → start1.StateCommitmentChainGetAbi = none →
        (∀ stored fetched, start1.LatestL1BlockHeader = .ok (some stored) →
          start1.BlockHeaderByHash stored.BlockHeader.Hash = .ok fetched →
          ∃ p, NewL1Processor start1 env1 l1Contracts = .ok p ∧
            p.processor.headerTraversal = NewHeaderTraversal fetched ∧
            p.processor.processFn = l1ProcessFn env1 l1Contracts) ∧
        (start1.LatestL1BlockHeader = .ok none →
          ∃ p, NewL1Processor start1 env1 l1Contracts = .ok p ∧
            p.processor.headerTraversal = NewHeaderTraversal none ∧
            p.processor.processFn = l1ProcessFn env1 l1Contracts))) ∧
    ((∀ err, start2.LatestL2BlockHeader = .error err →
        NewL2Processor start2 env2 l2Contracts = .error err) ∧
      (∀ stored err, start2.LatestL2BlockHeader = .ok (some stored) →
        start2.BlockHeaderByHash stored.BlockHeader.Hash = .error err →
        NewL2Processor start2 env2 l2Contracts = .error err) ∧
      (∀ stored fetched, start2.LatestL2BlockHeader = .ok (some stored) →
        start2.BlockHeaderByHash stored.BlockHeader.Hash = .ok fetched →
        ∃ p, NewL2Processor start2 env2 l2Contracts = .ok p ∧
          p.processor.headerTraversal = NewHeaderTraversal fetched ∧
          p.processor.processFn = l2ProcessFn env2 l2Contracts) ∧
      (start2.LatestL2BlockHeader = .ok none →
        ∃ p, NewL2Processor start2 env2 l2Contracts = .ok p ∧
          p.processor.headerTraversal = NewHeaderTraversal none ∧
          p.processor.processFn = l2ProcessFn env2 l2Contracts)) := by
  refine ⟨⟨?_, ?_, ?_⟩, ?_, ?_, ?_, ?_⟩
  · intro err hl
    unfold NewL1Processor
    rcases start1.L2OutputOracleGetAbi with _ | e1
    · rcases start1.StateCommitmentChainGetAbi with _ | e2
      · exact ⟨err, by simp only [hl]⟩
      · exact ⟨e2, rfl⟩
    · exact ⟨e1, rfl⟩
  · intro stored err hl hf
    unfold NewL1Processor
    rcases start1.L2OutputOracleGetAbi with _ | e1
    · rcases start1.StateCommitmentChainGetAbi with _ | e2
      · exact ⟨err, by simp only [hl, hf]⟩
      · exact ⟨e2, rfl⟩
    · exact ⟨e1, rfl⟩
  · intro ha1 ha2
    constructor
    · intro stored fetched hl hf
      unfold NewL1Processor
      simp only [ha1, ha2, hl, hf]
      exact ⟨_, rfl, rfl, rfl⟩
    · intro hl
      unfold NewL1Processor
      simp only [ha1, ha2, hl]
      exact ⟨_, rfl, rfl, rfl⟩
  · intro err hl
    unfold NewL2Processor
    simp only [hl]
  · intro stored err hl hf
    unfold NewL2Processor
    simp only [hl, hf]
  · intro stored fetched hl hf
    unfold NewL2Processor
    simp only [hl, hf]
    exact ⟨_, rfl, rfl, rfl⟩
  · intro hl
    unfold NewL2Processor
    simp only [hl]
    exact ⟨_, rfl, rfl, rfl⟩

/-- A warm start of the L1 processor resumes from the header fetched for the stored hash 1342;
a cold start of the L2 processor has no header to resume from. -/
theorem new_processor_recovers_cursor_witness :
    (∃ p, NewL1Processor warmL1Startup L1Env.idle DevL1Contracts = .ok p ∧
      p.processor.headerTraversal = NewHeaderTraversal (some ⟨1342, 1341, 342, 4104⟩) ∧
      p.processor.processFn = l1ProcessFn L1Env.idle DevL1Contracts) ∧
    (∃ p, NewL2Processor coldL2Startup L2Env.idle L2ContractPredeploys = .ok p ∧
      p.processor.headerTraversal = NewHeaderTraversal none ∧
      p.processor.processFn = l2ProcessFn L2Env.idle L2ContractPredeploys) :=
  have h := new_processor_recovers_cursor warmL1Startup L1Env.idle DevL1Contracts
    coldL2Startup L2Env.idle L2ContractPredeploys
  ⟨(h.1.2.2 rfl rfl).1 ⟨⟨1342, 1341, 342, 4104⟩⟩ (some ⟨1342, 1341, 342, 4104⟩) rfl rfl,
   h.2.2.2.2 rfl⟩

/-- C22 (what the code does): when `StoreTransactionDeposits` fails inside
`l1ProcessContractEventsBridgeTransactions`, the handler goes on from the unchanged database as
if the batch held no deposit, and returns `nil` when the batch has no proven and no finalized
withdrawal; when `StoreTransactionWithdrawals` fails inside
`l2ProcessContractEventsBridgeTransactions`, the handler returns `nil` with the database
unchanged.  The error of the store is returned by neither. -/
theorem failed_transaction_store_is_not_reported (env1 : L1Env) (l1Contracts : L1Contracts)
    (events1 : ProcessedContractEvents) (db1 : DB)
    (portalDeposits : List OptimismPortalTransactionDepositEvent) (e1 : GoError)
    (env2 : L2Env) (events2 : ProcessedContractEvents) (db2 : DB)
    (messagesPassed : List L2ToL1MessagePasserMessagePassed) (e2 : GoError)
    (hdeposits : env1.OptimismPortalTransactionDepositEvents events1 = .ok portalDeposits)
    (hfail1 : (StoreTransactionDeposits (portalDeposits.map l1TransactionDeposit) db1).2 =
      some e1)
    (hmessages : env2.L2ToL1MessagePasserMessagesPassed events2 = .ok messagesPassed)
    (hfail2 : (StoreTransactionWithdrawals (messagesPassed.map l2TransactionWithdrawal)
      db2).2 = some e2) :
    l1ProcessContractEventsBridgeTransactions env1 l1Contracts events1 db1 =
      l1ProcessContractEventsBridgeTransactions
        { env1 with OptimismPortalTransactionDepositEvents := fun _ => .ok [] }
        l1Contracts events1 db1 ∧
    (env1.OptimismPortalWithdrawalProvenEvents events1 = .ok [] →
      env1.OptimismPortalWithdrawalFinalizedEvents events1 = .ok [] →
      l1ProcessContractEventsBridgeTransactions env1 l1Contracts events1 db1 = (db1, .nil)) ∧
    l2ProcessContractEventsBridgeTransactions env2 events2 db2 = (db2, .nil) := by
  have hafter := afterDeposits_failed portalDeposits db1 e1 hfail1
  have hrun := l1ProcessContractEventsBridgeTransactions_eq env1 l1Contracts events1 db1
    portalDeposits hdeposits
  rw [hafter] at hrun
  refine ⟨?_, ?_, ?_⟩
  · rw [hrun]
    rw [l1ProcessContractEventsBridgeTransactions_eq
      { env1 with OptimismPortalTransactionDepositEvents := fun _ => .ok [] }
      l1Contracts events1 db1 [] rfl]
    rfl
  · intro hp hf
    rw [hrun]
    rcases hl : env1.LatestL2BlockHeader with e | latest
    · rfl
    · simp only [hp, hf, forRange]
  · unfold l2ProcessContractEventsBridgeTransactions
    simp only [hmessages]
    split
    · rw [StoreTransactionWithdrawals_failed _ _ e2 hfail2]
    · rfl

/-- A batch whose portal deposit (hash 555) is already stored, and a batch whose message
(hash 7) is already stored: both inserts are refused and both handlers return `nil`. -/
theorem failed_transaction_store_is_not_reported_witness :
    (StoreTransactionDeposits [l1TransactionDeposit portalDepositToOther] depositStoredDB).2 =
      some (.sql "duplicate key value violates unique constraint") ∧
    l1ProcessContractEventsBridgeTransactions portalDepositEnv DevL1Contracts
      NewProcessedContractEvents depositStoredDB = (depositStoredDB, .nil) ∧
    l2ProcessContractEventsBridgeTransactions messagePassedEnv NewProcessedContractEvents
      withdrawalStoredDB = (withdrawalStoredDB, .nil) :=
  have h := failed_transaction_store_is_not_reported portalDepositEnv DevL1Contracts
    NewProcessedContractEvents depositStoredDB [portalDepositToOther]
    (.sql "duplicate key value violates unique constraint")
    messagePassedEnv NewProcessedContractEvents withdrawalStoredDB
    [⟨⟨3100, 22, 9102, 91, 2, 120⟩, 7, 4, 10, 11, 5, 100000, [1]⟩]
    (.sql "duplicate key value violates unique constraint") rfl (by decide) rfl (by decide)
  ⟨by decide, h.2.1 rfl rfl, h.2.2⟩

/-- C23 (what the code does): when reading the latest indexed L2 header fails,
`l1ProcessContractEventsBridgeTransactions` returns `nil` right after the deposit step: the
transaction-withdrawal table is the one it was given, so no `WithdrawalProven` and no
`WithdrawalFinalized` event of the batch has been applied. -/
theorem latest_l2_header_error_returns_nil (env : L1Env) (l1Contracts : L1Contracts)
    (events : ProcessedContractEvents) (db : DB)
    (portalDeposits : List OptimismPortalTransactionDepositEvent) (err : GoError)
    (hdeposits : env.OptimismPortalTransactionDepositEvents events = .ok portalDeposits)
    (hlatest : env.LatestL2BlockHeader = .error err) :
    l1ProcessContractEventsBridgeTransactions env l1Contracts events db =
      (afterDeposits portalDeposits db, .nil) ∧
    (l1ProcessContractEventsBridgeTransactions env l1Contracts events
      db).1.transaction_withdrawals = db.transaction_withdrawals := by
  have hrun : l1ProcessContractEventsBridgeTransactions env l1Contracts events db =
      (afterDeposits portalDeposits db, .nil) := by
    rw [l1ProcessContractEventsBridgeTransactions_eq env l1Contracts events db portalDeposits
      hdeposits]
    simp only [hlatest]
  exact ⟨hrun, by rw [hrun]; exact afterDeposits_tw _ _⟩

/-- The batch proves and finalizes the stored withdrawal 7 while the read of the latest L2
header fails: the handler returns `nil` and the row is still neither proven nor finalized. -/
theorem latest_l2_header_error_returns_nil_witness :
    l1ProcessContractEventsBridgeTransactions headerReadFailsEnv DevL1Contracts
      NewProcessedContractEvents withdrawalStoredDB = (withdrawalStoredDB, .nil) :=
  (latest_l2_header_error_returns_nil headerReadFailsEnv DevL1Contracts
    NewProcessedContractEvents withdrawalStoredDB [] (.sql "connection refused") rfl rfl).1

/-- C24: `l1ProcessContractEventsBridgeTransactions` hands to `StoreTransactionDeposits` (when
there is at least one portal `TransactionDeposited` event) one row per event, in event order,
whose `DepositHash` is the source hash of the deposit transaction, whose
`InitiatedL1EventGUID` is the GUID of the event, whose `Version` and `OpaqueData` are the
event's, whose `GasLimit` is the gas of the deposit transaction, whose `Amount` is its value,
whose `Data` is its data and whose `Timestamp` is the timestamp of the raw event; when the
deposit hashes are distinct and new, the rows are appended to the transaction-deposit table,
and the later steps of the handler leave that table as the insert left it. -/
theorem portal_deposit_rows_copy_event_fields (env : L1Env) (l1Contracts : L1Contracts)
    (events : ProcessedContractEvents) (db : DB)
    (portalDeposits : List OptimismPortalTransactionDepositEvent)
    (hdeposits : env.OptimismPortalTransactionDepositEvents events = .ok portalDeposits) :
    (l1ProcessContractEventsBridgeTransactions env l1Contracts events
      db).1.transaction_deposits =
      (if portalDeposits.length > 0 then
        (StoreTransactionDeposits (portalDeposits.map l1TransactionDeposit) db).1
        else db).transaction_deposits ∧
    (portalDeposits.map l1TransactionDeposit).length = portalDeposits.length ∧
    (∀ i (h : i < portalDeposits.length), ∃ row,
      (portalDeposits.map l1TransactionDeposit)[i]? = some row ∧
      row.DepositHash = portalDeposits[i].DepositTx.SourceHash ∧
      row.InitiatedL1EventGUID = portalDeposits[i].RawEvent.GUID ∧
      row.Version = portalDeposits[i].Version ∧
      row.OpaqueData = portalDeposits[i].OpaqueData ∧
      row.GasLimit = portalDeposits[i].DepositTx.Gas ∧
      row.Tx.Amount = portalDeposits[i].DepositTx.Value ∧
      row.Tx.Data = portalDeposits[i].DepositTx.Data ∧
      row.Tx.Timestamp = portalDeposits[i].RawEvent.Timestamp) ∧
    ((portalDeposits.map (fun ev => ev.DepositTx.SourceHash)).Nodup →
      (∀ ev ∈ portalDeposits, ∀ d ∈ db.transaction_deposits,
        d.DepositHash ≠ ev.DepositTx.SourceHash) →
      (l1ProcessContractEventsBridgeTransactions env l1Contracts events
        db).1.transaction_deposits =
        db.transaction_deposits ++ portalDeposits.map l1TransactionDeposit) := by
  have hrun : (l1ProcessContractEventsBridgeTransactions env l1Contracts events
      db).1.transaction_deposits =
      (if portalDeposits.length > 0 then
        (StoreTransactionDeposits (portalDeposits.map l1TransactionDeposit) db).1
        else db).transaction_deposits := by
    rw [l1ProcessContractEventsBridgeTransactions_td_after env l1Contracts events db
      portalDeposits hdeposits]
    unfold afterDeposits
    simp only [List.length_map]
  refine ⟨hrun, List.length_map _ _, ?_, ?_⟩
  · intro i h
    refine ⟨l1TransactionDeposit portalDeposits[i], ?_, rfl, rfl, rfl, rfl, rfl, rfl, rfl, rfl⟩
    rw [List.getElem?_map, List.getElem?_eq_getElem h]
    rfl
  · intro hnodup hnew
    rw [hrun]
    by_cases hpos : portalDeposits.length > 0
    · simp only [hpos, if_true]
      have h1 : portalDeposits.map l1TransactionDeposit ≠ [] := by
        intro h
        rw [List.map_eq_nil_iff] at h
        rw [h] at hpos
        simp at hpos
      have h2 : ((portalDeposits.map l1TransactionDeposit).map
          (fun d => d.DepositHash)).Nodup := by
        rw [List.map_map]
        exact hnodup
      have h3 : ∀ k ∈ (portalDeposits.map l1TransactionDeposit).map
          (fun d => d.DepositHash),
          k ∉ db.transaction_deposits.map (fun d => d.DepositHash) := by
        intro k hk hk2
        rw [List.map_map] at hk
        obtain ⟨ev, hev, rfl⟩ := List.mem_map.mp hk
        obtain ⟨d, hd, hdk⟩ := List.mem_map.mp hk2
        exact hnew ev hev d hd hdk
      unfold StoreTransactionDeposits
      rw [gormCreate_fresh (fun d : TransactionDeposit => d.DepositHash)
        (portalDeposits.map l1TransactionDeposit) db.transaction_deposits h1 h2 h3]
    · have : portalDeposits = [] := by
        cases portalDeposits with
        | nil => rfl
        | cons x xs => simp at hpos
      subst this
      simp

/-- One portal deposit with source hash 555, gas 100000 and value 5 on an empty database: the
stored row carries the hash, the GUID 1001 of the event, the gas and the value. -/
theorem portal_deposit_rows_copy_event_fields_witness :
    (l1ProcessContractEventsBridgeTransactions portalDepositEnv DevL1Contracts
      NewProcessedContractEvents DB.empty).1.transaction_deposits.map
        (fun d => (d.DepositHash, d.InitiatedL1EventGUID, d.GasLimit, d.Tx.Amount)) =
      [(555, 1001, 100000, 5)] :=
  ((portal_deposit_rows_copy_event_fields portalDepositEnv DevL1Contracts
    NewProcessedContractEvents DB.empty [portalDepositToOther] rfl).2.2.2
    (by decide) (fun _ _ _ hd => by cases hd)) ▸ (by decide)

/-- C29 (what the code does at the all-zero hash): the table holds the row with hash 9 and,
behind it, the row with the all-zero hash, both back-references of both rows unset; the batch
holds one `WithdrawalProven` event (GUID 1500) and one `WithdrawalFinalized` event (GUID 1600)
that carry the all-zero hash.  Every database operation succeeds and
`l1ProcessContractEventsBridgeTransactions` returns `nil`; afterwards the row with the all-zero
hash has no back-reference, and the row with hash 9 has both. -/
theorem zero_hash_batch_marks_first_row :
    zeroHashProveAndFinalizeEnv.OptimismPortalWithdrawalProvenEvents
        NewProcessedContractEvents = .ok [⟨⟨1500, 12, 9005, 80, 0, 130⟩, emptyHash⟩] ∧
    zeroHashProveAndFinalizeEnv.OptimismPortalWithdrawalFinalizedEvents
        NewProcessedContractEvents = .ok [⟨⟨1600, 12, 9006, 81, 1, 130⟩, emptyHash⟩] ∧
    (zeroHashDB.transaction_withdrawals.map (fun w => w.WithdrawalHash)).Nodup ∧
    (∃ w ∈ zeroHashDB.transaction_withdrawals, w.WithdrawalHash = emptyHash ∧
      w.ProvenL1EventGUID = none ∧ w.FinalizedL1EventGUID = none) ∧
    l1ProcessContractEventsBridgeTransactions zeroHashProveAndFinalizeEnv DevL1Contracts
        NewProcessedContractEvents zeroHashDB =
      ({ zeroHashDB with
          transaction_withdrawals :=
            [⟨9, 3100, some 1500, some 1600, 4, ⟨10, 11, 5, [1], 120⟩, 100000⟩,
             ⟨0, 3101, none, none, 5, ⟨10, 11, 5, [1], 121⟩, 100000⟩] }, .nil) := by
  decide

/-- C29 (amended): let no `WithdrawalProven` or `WithdrawalFinalized` event of the batch carry
the all-zero hash; let the transaction-withdrawal table have unique hashes and hold a row for
the hash `h` (with both back-references unset, or with any others); let the batch hold exactly
one `WithdrawalProven` event and exactly one `WithdrawalFinalized` event for `h`, and let every
database operation succeed
(the latest L2 header is read, every proven event of the batch has its row, every finalized
event of the batch has a row that is proven already or is proven by the batch).  Then
`l1ProcessContractEventsBridgeTransactions` returns `nil`, and afterwards the row of `h` is
the old row with `ProvenL1EventGUID` set to the GUID of the proven event and
`FinalizedL1EventGUID` set to the GUID of the finalized event. -/
theorem prove_and_finalize_in_one_batch (env : L1Env) (l1Contracts : L1Contracts)
    (events : ProcessedContractEvents) (db : DB)
    (portalDeposits : List OptimismPortalTransactionDepositEvent)
    (latest : Option L2BlockHeader)
    (proven : List OptimismPortalWithdrawalProvenEvent)
    (finalized : List OptimismPortalWithdrawalFinalizedEvent)
    (row : TransactionWithdrawal) (provenEvent : OptimismPortalWithdrawalProvenEvent)
    (finalizedEvent : OptimismPortalWithdrawalFinalizedEvent)
    (hdeposits : env.OptimismPortalTransactionDepositEvents events = .ok portalDeposits)
    (hlatest : env.LatestL2BlockHeader = .ok latest)
    (hproven : env.OptimismPortalWithdrawalProvenEvents events = .ok proven)
    (hfinalized : env.OptimismPortalWithdrawalFinalizedEvents events = .ok finalized)
    (hprovenHash : ∀ x ∈ proven, x.WithdrawalHash ≠ emptyHash)
    (hfinalizedHash : ∀ x ∈ finalized, x.WithdrawalHash ≠ emptyHash)
    (hpk : (db.transaction_withdrawals.map (fun w => w.WithdrawalHash)).Nodup)
    (hrow : row ∈ db.transaction_withdrawals)
    (honeProven : proven.filter (fun x => x.WithdrawalHash == row.WithdrawalHash) =
      [provenEvent])
    (honeFinalized : finalized.filter (fun x => x.WithdrawalHash == row.WithdrawalHash) =
      [finalizedEvent])
    (hprovenRows : ∀ x ∈ proven, ∃ w ∈ db.transaction_withdrawals,
      w.WithdrawalHash = x.WithdrawalHash)
    (hfinalizedRows : ∀ x ∈ finalized, ∃ w ∈ db.transaction_withdrawals,
      w.WithdrawalHash = x.WithdrawalHash ∧
        (w.ProvenL1EventGUID ≠ none ∨ ∃ y ∈ proven, y.WithdrawalHash = x.WithdrawalHash)) :
    (l1ProcessContractEventsBridgeTransactions env l1Contracts events db).2 = .nil ∧
    TransactionWithdrawalByHash row.WithdrawalHash
        (l1ProcessContractEventsBridgeTransactions env l1Contracts events db).1 =
      .ok (some { row with
        ProvenL1EventGUID := some provenEvent.RawEvent.GUID
        FinalizedL1EventGUID := some finalizedEvent.RawEvent.GUID }) := by
  have htw := afterDeposits_tw portalDeposits db
  have hpk1 : ((afterDeposits portalDeposits db).transaction_withdrawals.map
      (fun w => w.WithdrawalHash)).Nodup := by rw [htw]; exact hpk
  have h1 := forRange_l1ProveWithdrawal env l1Contracts latest proven
    (afterDeposits portalDeposits db) hprovenHash hpk1 (by rw [htw]; exact hprovenRows)
  rw [htw] at h1
  have hhash2 : (db.transaction_withdrawals.map (provenBy proven)).map
      (fun w => w.WithdrawalHash) = db.transaction_withdrawals.map (fun w => w.WithdrawalHash) := by
    rw [List.map_map]
    apply List.map_congr_left
    intro w _
    exact provenBy_hash proven w
  have h2 := forRange_l1FinalizeWithdrawal finalized
    { afterDeposits portalDeposits db with
      transaction_withdrawals := db.transaction_withdrawals.map (provenBy proven) }
    hfinalizedHash
    (by show ((db.transaction_withdrawals.map (provenBy proven)).map
          (fun w => w.WithdrawalHash)).Nodup
        rw [hhash2]; exact hpk)
    (by
      intro x hx
      obtain ⟨w, hw, hwh, hwp⟩ := hfinalizedRows x hx
      refine ⟨provenBy proven w, List.mem_map_of_mem _ hw, ?_, ?_⟩
      · rw [provenBy_hash]; exact hwh
      · apply provenBy_proven
        rcases hwp with hwp | ⟨y, hy, hyh⟩
        · exact Or.inl hwp
        · exact Or.inr ⟨y, hy, hyh.trans hwh.symm⟩)
  have hrun := l1ProcessContractEventsBridgeTransactions_eq env l1Contracts events db
    portalDeposits hdeposits
  simp only [hlatest, hproven, h1, hfinalized, h2] at hrun
  rw [hrun]
  refine ⟨rfl, ?_⟩
  have hfinal : finalizedBy finalized (provenBy proven row) =
      { row with
        ProvenL1EventGUID := some provenEvent.RawEvent.GUID
        FinalizedL1EventGUID := some finalizedEvent.RawEvent.GUID } := by
    rw [provenBy_of_one_event proven row provenEvent honeProven]
    exact finalizedBy_of_one_event finalized
      { row with ProvenL1EventGUID := some provenEvent.RawEvent.GUID } finalizedEvent
      honeFinalized
  have hmem : finalizedBy finalized (provenBy proven row) ∈
      (db.transaction_withdrawals.map (provenBy proven)).map (finalizedBy finalized) :=
    List.mem_map_of_mem _ (List.mem_map_of_mem _ hrow)
  have hpk3 : (((db.transaction_withdrawals.map (provenBy proven)).map
      (finalizedBy finalized)).map (fun w => w.WithdrawalHash)).Nodup := by
    have : ((db.transaction_withdrawals.map (provenBy proven)).map
        (finalizedBy finalized)).map (fun w => w.WithdrawalHash) =
        db.transaction_withdrawals.map (fun w => w.WithdrawalHash) := by
      rw [List.map_map, List.map_map]
      apply List.map_congr_left
      intro w _
      show (finalizedBy finalized (provenBy proven w)).WithdrawalHash = w.WithdrawalHash
      rw [finalizedBy_hash, provenBy_hash]
    rw [this]; exact hpk
  have hlook := TransactionWithdrawalByHash_of_mem
    { afterDeposits portalDeposits db with
      transaction_withdrawals := (db.transaction_withdrawals.map (provenBy proven)).map
        (finalizedBy finalized) }
    (finalizedBy finalized (provenBy proven row)) hpk3 hmem
    (by
      rw [finalizedBy_hash, provenBy_hash]
      have hmemp : provenEvent ∈ proven.filter
          (fun x => x.WithdrawalHash == row.WithdrawalHash) := by
        rw [honeProven]; exact List.mem_singleton_self _
      obtain ⟨hp1, hp2⟩ := List.mem_filter.mp hmemp
      have hp3 : provenEvent.WithdrawalHash = row.WithdrawalHash := by simpa using hp2
      rw [← hp3]
      exact hprovenHash provenEvent hp1)
  rw [finalizedBy_hash, provenBy_hash] at hlook
  rw [← hfinal]
  exact hlook

/-- The stored, unproven withdrawal 7 is proven (event 1500) and finalized (event 1600) by the
same batch: the handler returns `nil` and the row carries both GUIDs. -/
theorem prove_and_finalize_in_one_batch_witness :
    (l1ProcessContractEventsBridgeTransactions proveAndFinalizeEnv DevL1Contracts
      NewProcessedContractEvents withdrawalStoredDB).2 = .nil ∧
    TransactionWithdrawalByHash 7
        (l1ProcessContractEventsBridgeTransactions proveAndFinalizeEnv DevL1Contracts
          NewProcessedContractEvents withdrawalStoredDB).1 =
      .ok (some ⟨7, 3100, some 1500, some 1600, 4, ⟨10, 11, 5, [1], 120⟩, 100000⟩) :=
  prove_and_finalize_in_one_batch proveAndFinalizeEnv DevL1Contracts
    NewProcessedContractEvents withdrawalStoredDB [] (some ⟨⟨21, 20, 9, 110⟩⟩)
    [⟨⟨1500, 12, 9005, 80, 0, 130⟩, 7⟩] [⟨⟨1600, 12, 9006, 81, 1, 130⟩, 7⟩]
    ⟨7, 3100, none, none, 4, ⟨10, 11, 5, [1], 120⟩, 100000⟩
    ⟨⟨1500, 12, 9005, 80, 0, 130⟩, 7⟩ ⟨⟨1600, 12, 9006, 81, 1, 130⟩, 7⟩
    rfl rfl rfl rfl (by decide) (by decide) (by decide) (by decide) (by decide) (by decide)
    (by decide) (by decide)

/-- C30: let the processed events be those the log loop of `l1ProcessFn` (of `l2ProcessFn`)
registered for the fetched logs, under distinct GUIDs, and let a standard-bridge initiated
event be one of them, at (block hash `b`, log index `i`); the key the handlers look up is
(`b`, `i + 1`) in Go `uint` arithmetic.  If a fetched log is at (`b`, `i + 1`), the lookups of
`l1ProcessContractEventsStandardBridge` (of `l2ProcessContractEventsStandardBridge`) find the
log of the event, the adjacent event and the log of the adjacent event, which is at
(`b`, `i + 1`), and the decoder is reached with that log: no lookup dereferences `nil`.  If no
fetched log is at (`b`, `i + 1`), the lookup of (`b`, `i + 1`) finds nothing and the body of
the loop panics on the `nil` entry. -/
theorem adjacent_lookup_finds_iff_log_registered (env1 : L1Env) (env2 : L2Env)
    (headerMap1 headerMap2 : GoMap Hash Header) (logs1 logs2 : List Log)
    (acc1 : L1Logs) (acc2 : L2Logs) (n1 n2 : Nat) (ev1 ev2 : StandardBridgeInitiatedEvent)
    (hloop1 : l1ProcessLogs env1 headerMap1 0 logs1
      ⟨NewProcessedContractEvents, [], [], [], []⟩ = .ok acc1)
    (hloop2 : l2ProcessLogs env2 headerMap2 0 logs2 ⟨NewProcessedContractEvents, []⟩ =
      .ok acc2)
    (hguid1 : ((List.range logs1.length).map env1.eventGUID).Nodup)
    (hguid2 : ((List.range logs2.length).map env2.eventGUID).Nodup)
    (hev1 : ev1.RawEvent ∈ acc1.processedContractEvents.events)
    (hev2 : ev2.RawEvent ∈ acc2.processedContractEvents.events) :
    ((∃ log ∈ logs1, log.BlockHash = ev1.RawEvent.BlockHash ∧
        log.Index = (ev1.RawEvent.LogIndex + 1) % 2 ^ 64) →
      ∃ log adjacent txLog,
        acc1.processedContractEvents.eventLog.get ev1.RawEvent.GUID = some log ∧
        acc1.processedContractEvents.eventByLogIndex.get
          (log.BlockHash, (log.Index + 1) % 2 ^ 64) = some adjacent ∧
        acc1.processedContractEvents.eventLog.get adjacent.GUID = some txLog ∧
        txLog.BlockHash = ev1.RawEvent.BlockHash ∧
        txLog.Index = (ev1.RawEvent.LogIndex + 1) % 2 ^ 64 ∧
        (∀ e, env1.UnmarshalDepositLogEvent (some txLog) = .err e →
          l1BridgeDeposit env1 acc1.processedContractEvents n1 ev1 = .err e) ∧
        (∀ depositTx, env1.UnmarshalDepositLogEvent (some txLog) = .ok depositTx →
          ∃ deposit, l1BridgeDeposit env1 acc1.processedContractEvents n1 ev1 = .ok deposit ∧
            deposit.DepositHash = depositTx.SourceHash)) ∧
    ((¬ ∃ log ∈ logs1, log.BlockHash = ev1.RawEvent.BlockHash ∧
        log.Index = (ev1.RawEvent.LogIndex + 1) % 2 ^ 64) →
      ∃ log, acc1.processedContractEvents.eventLog.get ev1.RawEvent.GUID = some log ∧
        acc1.processedContractEvents.eventByLogIndex.get
          (log.BlockHash, (log.Index + 1) % 2 ^ 64) = none ∧
        l1BridgeDeposit env1 acc1.processedContractEvents n1 ev1 =
          .panic "nil pointer dereference") ∧
    ((∃ log ∈ logs2, log.BlockHash = ev2.RawEvent.BlockHash ∧
        log.Index = (ev2.RawEvent.LogIndex + 1) % 2 ^ 64) →
      ∃ log adjacent msgPassedLog,
        acc2.processedContractEvents.eventLog.get ev2.RawEvent.GUID = some log ∧
        acc2.processedContractEvents.eventByLogIndex.get
          (log.BlockHash, (log.Index + 1) % 2 ^ 64) = some adjacent ∧
        acc2.processedContractEvents.eventLog.get adjacent.GUID = some msgPassedLog ∧
        msgPassedLog.BlockHash = ev2.RawEvent.BlockHash ∧
        msgPassedLog.Index = (ev2.RawEvent.LogIndex + 1) % 2 ^ 64 ∧
        (∀ e, env2.UnpackMessagePassed (some msgPassedLog) = .err e →
          l2BridgeWithdrawal env2 acc2.processedContractEvents n2 ev2 = .err e) ∧
        (∀ msgPassedData, env2.UnpackMessagePassed (some msgPassedLog) = .ok msgPassedData →
          ∃ withdrawal,
            l2BridgeWithdrawal env2 acc2.processedContractEvents n2 ev2 = .ok withdrawal ∧
            withdrawal.WithdrawalHash = msgPassedData.WithdrawalHash)) ∧
    ((¬ ∃ log ∈ logs2, log.BlockHash = ev2.RawEvent.BlockHash ∧
        log.Index = (ev2.RawEvent.LogIndex + 1) % 2 ^ 64) →
      ∃ log, acc2.processedContractEvents.eventLog.get ev2.RawEvent.GUID = some log ∧
        acc2.processedContractEvents.eventByLogIndex.get
          (log.BlockHash, (log.Index + 1) % 2 ^ 64) = none ∧
        l2BridgeWithdrawal env2 acc2.processedContractEvents n2 ev2 =
          .panic "nil pointer dereference") := by
  have hp1 := (l1ProcessLogs_events env1 headerMap1 logs1 0 _ acc1 hloop1).1
  have hp2 := (l2ProcessLogs_events env2 headerMap2 logs2 0 _ acc2 hloop2).1
  simp only at hp1 hp2
  rw [hp1] at hev1 ⊢
  rw [hp2] at hev2 ⊢
  obtain ⟨log1, hlog1, hpos1, hneg1⟩ :=
    adjacent_of_registerLogs env1.eventGUID headerMap1 logs1 hguid1 ev1.RawEvent hev1
  obtain ⟨log2, hlog2, hpos2, hneg2⟩ :=
    adjacent_of_registerLogs env2.eventGUID headerMap2 logs2 hguid2 ev2.RawEvent hev2
  refine ⟨?_, ?_, ?_, ?_⟩
  · intro h
    obtain ⟨adjacent, txLog, hadj, htx, hb, hi⟩ := hpos1 h
    refine ⟨log1, adjacent, txLog, hlog1, hadj, htx, hb, hi, ?_, ?_⟩
    · intro e he
      unfold l1BridgeDeposit
      simp only [hlog1, hadj, htx, he]
    · intro depositTx hd
      unfold l1BridgeDeposit
      simp only [hlog1, hadj, htx, hd]
      exact ⟨_, rfl, rfl⟩
  · intro h
    refine ⟨log1, hlog1, hneg1 h, ?_⟩
    unfold l1BridgeDeposit
    simp only [hlog1, hneg1 h]
  · intro h
    obtain ⟨adjacent, txLog, hadj, htx, hb, hi⟩ := hpos2 h
    refine ⟨log2, adjacent, txLog, hlog2, hadj, htx, hb, hi, ?_, ?_⟩
    · intro e he
      unfold l2BridgeWithdrawal
      simp only [hlog2, hadj, htx, he]
    · intro msgPassedData hd
      unfold l2BridgeWithdrawal
      simp only [hlog2, hadj, htx, hd]
      exact ⟨_, rfl, rfl⟩
  · intro h
    refine ⟨log2, hlog2, hneg2 h, ?_⟩
    unfold l2BridgeWithdrawal
    simp only [hlog2, hneg2 h]

/-- On L1 the `DepositInitiated` log at index 4 is followed by a log at index 5: the body of
the loop builds the deposit.  On L2 the `WithdrawalInitiated` log at index 4 has no log at
index 5 (the next one is at index 6): the body of the loop panics. -/
theorem adjacent_lookup_finds_iff_log_registered_witness :
    (∃ deposit, l1BridgeDeposit depositEnv depositLoop.processedContractEvents 0
      ⟨⟨1000, 11, 9001, 77, 4, 100⟩, 0, 0, 0, 10, 10, 5, [1]⟩ = .ok deposit) ∧
    l2BridgeWithdrawal withdrawalEnv lonelyLoop.processedContractEvents 0
      ⟨⟨3000, 11, 9001, 77, 4, 100⟩, 0, 20, 30, 10, 10, 5, [1]⟩ =
        .panic "nil pointer dereference" :=
  have h := adjacent_lookup_finds_iff_log_registered depositEnv withdrawalEnv
    (headerMapOf [⟨11, 10, 1, 100⟩]) (headerMapOf [⟨11, 10, 1, 100⟩]) depositLogs lonelyLogs
    depositLoop lonelyLoop 0 0
    ⟨⟨1000, 11, 9001, 77, 4, 100⟩, 0, 0, 0, 10, 10, 5, [1]⟩
    ⟨⟨3000, 11, 9001, 77, 4, 100⟩, 0, 20, 30, 10, 10, 5, [1]⟩
    (by decide) (by decide) (by decide) (by decide) (by decide) (by decide)
  ⟨match h.1 ⟨⟨0, [78], [555], 11, 9001, 5⟩, by decide, rfl, rfl⟩ with
    | ⟨_, _, _, _, _, _, _, _, _, hok⟩ => (hok _ rfl).imp (fun _ hd => hd.1),
   match h.2.2.2 (by decide) with
    | ⟨_, _, _, hpanic⟩ => hpanic⟩

/-- C28: for a non-empty batch of L1 headers and fetched logs whose block hashes all belong to
the batch (the checkpoint logs among them unpacking without error), the log loop of
`l1ProcessFn` completes, and the number of headers selected for indexing is greater than zero
exactly when the number of logs is.  The event list it builds has one entry per log, in log
order, the entry of a log being the contract event `AddLog` builds for it.  With at least one
log (and the header store accepting the headers) that list is handed to
`StoreL1ContractEvents`; with no log `l1ProcessFn` returns `nil` without any call to a store. -/
theorem l1_events_stored_iff_logs (env : L1Env) (l1Contracts : L1Contracts)
    (headers : List Header) (db : DB) (logs : List Log) (hne : headers ≠ [])
    (hfilter : env.FilterLogs (headers.head hne).Number (headers.getLast hne).Number
      l1Contracts.ToSlice = .ok logs)
    (hbatch : ∀ log ∈ logs, ∃ header ∈ headers, header.Hash = log.BlockHash)
    (hdecode : checkpointsDecode env logs = true)
    (hstore : ∀ calls stored, env.storeResult calls (.StoreL1BlockHeaders stored) = none) :
    ∃ acc, l1ProcessLogs env (headerMapOf headers) 0 logs
        ⟨NewProcessedContractEvents, [], [], [], []⟩ = .ok acc ∧
      ((indexedL1Headers headers acc.l1HeadersOfInterest).length > 0 ↔ logs.length > 0) ∧
      acc.l1ContractEvents.length = logs.length ∧
      (∀ j (h : j < logs.length), acc.l1ContractEvents[j]? =
        some ⟨eventOfLog (env.eventGUID j) logs[j]
          (blockTime (headerMapOf headers) logs[j].BlockHash)⟩) ∧
      (logs.length > 0 →
        (l1ProcessFn env l1Contracts headers db).1.storedL1Events =
          db.storedL1Events ++ acc.l1ContractEvents) ∧
      (logs.length = 0 → l1ProcessFn env l1Contracts headers db = (db, .nil)) := by
  obtain ⟨hh, hl⟩ := head?_getLast?_of_ne_nil headers hne
  have hfound : ∀ log ∈ logs, ((headerMapOf headers).get log.BlockHash).isSome = true := by
    intro log hlog
    rw [headerMapOf_get_isSome]
    obtain ⟨header, hmem, heq⟩ := hbatch log hlog
    exact List.any_eq_true.mpr ⟨header, hmem, by simp [heq]⟩
  obtain ⟨acc, hacc, hkeys, hlen⟩ := l1ProcessLogs_ok env (headerMapOf headers) logs 0
    ⟨NewProcessedContractEvents, [], [], [], []⟩ hfound hdecode
  obtain ⟨_, hevents⟩ := l1ProcessLogs_events env (headerMapOf headers) logs 0 _ acc hacc
  simp only [List.nil_append] at hevents
  have hkeys2 : ∀ k, (acc.l1HeadersOfInterest.get k).isSome =
      logs.any (fun log => log.BlockHash == k) := by
    intro k
    rw [hkeys k]
    simp [GoMap.get]
  have hiff := indexedL1Headers_pos_iff headers logs acc.l1HeadersOfInterest hkeys2 hbatch
  have hrun : l1ProcessFn env l1Contracts headers db =
      l1UpdateDatabase env l1Contracts (indexedL1Headers headers acc.l1HeadersOfInterest)
        acc db := by
    unfold l1ProcessFn
    simp only [hh, hl, hfilter, hacc]
  refine ⟨acc, hacc, hiff, by simpa using hlen, ?_, ?_, ?_⟩
  · intro j h
    rw [hevents, List.getElem?_map, eventsOfLogs_getElem?, List.getElem?_eq_getElem h]
    simp
  · intro hpos
    rw [hrun]
    exact l1UpdateDatabase_storedL1Events env l1Contracts _ acc db (hiff.mpr hpos)
      (hstore _ _)
  · intro hzero
    rw [hrun]
    have hnot : ¬ (indexedL1Headers headers acc.l1HeadersOfInterest).length > 0 := by
      intro hc
      have := hiff.mp hc
      omega
    unfold l1UpdateDatabase
    rw [if_neg hnot]

set_option maxRecDepth 100000 in
/-- A batch of 500 headers with logs on two of them: the two events are handed to the event
store, the first one carrying the transaction hash 9001 of the first log. -/
theorem l1_events_stored_iff_logs_witness :
    (l1ProcessFn { L1Env.idle with FilterLogs := fun _ _ _ => .ok twoLogs } DevL1Contracts
        batch500 DB.empty).1.storedL1Events =
      [⟨⟨1000, 1017, 9001, 77, 0, 204⟩⟩, ⟨⟨1001, 1342, 9002, 78, 3, 4104⟩⟩] :=
  match l1_events_stored_iff_logs
    { L1Env.idle with FilterLogs := fun _ _ _ => .ok twoLogs } DevL1Contracts batch500 DB.empty
    twoLogs (by decide) rfl (by decide) (by decide) (fun _ _ => rfl) with
  | ⟨_, hacc, _, _, _, hstored, _⟩ =>
    (hstored (by decide)).trans
      (by
        have hval : l1ProcessLogs { L1Env.idle with FilterLogs := fun _ _ _ => .ok twoLogs }
            (headerMapOf batch500) 0 twoLogs ⟨NewProcessedContractEvents, [], [], [], []⟩ =
            .ok ⟨((NewProcessedContractEvents.AddLog 1000 twoLogs[0] 204).1.AddLog 1001
                twoLogs[1] 4104).1, [(1342, true), (1017, true)],
              [⟨⟨1000, 1017, 9001, 77, 0, 204⟩⟩, ⟨⟨1001, 1342, 9002, 78, 3, 4104⟩⟩], [],
              []⟩ := by decide
        rw [hval] at hacc
        cases hacc
        rfl)

/-- C21: after a run of `l1ProcessFn` that returns `nil`, the rows the run has appended to the
transaction-deposit and bridge-deposit tables have an initiating event GUID that is the GUID
of a contract event the same run handed to `StoreL1ContractEvents`, and this event carries the
transaction hash (and block hash and log index) of the fetched log it was built from; the same
holds for `l2ProcessFn`, the transaction-withdrawal and bridge-withdrawal tables and
`StoreL2ContractEvents`.  The event extractors are taken to return events of the batch. -/
theorem inserted_rows_resolve_to_stored_events (env1 : L1Env) (l1Contracts : L1Contracts)
    (headers1 : List Header) (before1 after1 : DB) (env2 : L2Env) (l2Contracts : L2Contracts)
    (headers2 : List Header) (before2 after2 : DB)
    (hdeposits : ∀ events portalDeposits,
      env1.OptimismPortalTransactionDepositEvents events = .ok portalDeposits →
      ∀ ev ∈ portalDeposits, ev.RawEvent ∈ events.events)
    (hinitiated1 : ∀ events initiated,
      env1.StandardBridgeInitiatedEvents events = .ok initiated →
      ∀ ev ∈ initiated, ev.RawEvent ∈ events.events)
    (hmessages : ∀ events messagesPassed,
      env2.L2ToL1MessagePasserMessagesPassed events = .ok messagesPassed →
      ∀ ev ∈ messagesPassed, ev.RawEvent ∈ events.events)
    (hinitiated2 : ∀ events initiated,
      env2.StandardBridgeInitiatedEvents events = .ok initiated →
      ∀ ev ∈ initiated, ev.RawEvent ∈ events.events)
    (hrun1 : l1ProcessFn env1 l1Contracts headers1 before1 = (after1, .nil))
    (hrun2 : l2ProcessFn env2 l2Contracts headers2 before2 = (after2, .nil)) :
    L1RowsResolve env1 l1Contracts headers1 before1 after1 ∧
      L2RowsResolve env2 l2Contracts headers2 before2 after2 :=
  ⟨l1ProcessFn_rows env1 l1Contracts headers1 before1 after1 hdeposits hinitiated1 hrun1,
   l2ProcessFn_rows env2 l2Contracts headers2 before2 after2 hmessages hinitiated2 hrun2⟩

/-- The L1 batch with a bridged deposit and the L2 batch with a bridged withdrawal, each
processed from the empty database: each run inserts one transaction row and one bridge row,
initiated by the events 1001 and 1000 (3001 and 3000) of the run. -/
theorem inserted_rows_resolve_to_stored_events_witness :
    (afterFirstRun.transaction_deposits.map (fun d => d.InitiatedL1EventGUID) = [1001] ∧
      afterFirstRun.bridge_deposits.map (fun d => d.InitiatedL1EventGUID) = [1000] ∧
      afterWithdrawalRun.transaction_withdrawals.map (fun w => w.InitiatedL2EventGUID) =
        [3001] ∧
      afterWithdrawalRun.bridge_withdrawals.map (fun w => w.InitiatedL2EventGUID) = [3000]) ∧
    L1RowsResolve (rerunEnv 1000 2000) DevL1Contracts [⟨11, 10, 1, 100⟩] DB.empty
      afterFirstRun ∧
    L2RowsResolve withdrawalRunEnv L2ContractPredeploys [⟨11, 10, 1, 100⟩] DB.empty
      afterWithdrawalRun :=
  ⟨by decide,
   inserted_rows_resolve_to_stored_events (rerunEnv 1000 2000) DevL1Contracts
    [⟨11, 10, 1, 100⟩] DB.empty afterFirstRun withdrawalRunEnv L2ContractPredeploys
    [⟨11, 10, 1, 100⟩] DB.empty afterWithdrawalRun
    (fun events pd h ev hev => by
      have h2 : (events.events.filter (fun e => e.EventSignature == 78)).map
          (fun e => (⟨e, ⟨555, 10, some 10, 5, 5, 200000, [1]⟩, 0, []⟩ :
            OptimismPortalTransactionDepositEvent)) = pd := Except.ok.inj h
      subst h2
      obtain ⟨e, he, rfl⟩ := List.mem_map.mp hev
      exact (List.mem_filter.mp he).1)
    (fun events initiated h ev hev => by
      have h2 : (events.events.filter (fun e => e.EventSignature == 77)).map
          (fun e => (⟨e, 0, 0, 0, 10, 10, 5, [1]⟩ : StandardBridgeInitiatedEvent)) =
          initiated := Except.ok.inj h
      subst h2
      obtain ⟨e, he, rfl⟩ := List.mem_map.mp hev
      exact (List.mem_filter.mp he).1)
    (fun events mp h ev hev => by
      have h2 : (events.events.filter (fun e => e.EventSignature == 78)).map
          (fun e => (⟨e, 7, 4, 10, 11, 5, 100000, [1]⟩ : L2ToL1MessagePasserMessagePassed)) =
          mp := Except.ok.inj h
      subst h2
      obtain ⟨e, he, rfl⟩ := List.mem_map.mp hev
      exact (List.mem_filter.mp he).1)
    (fun events initiated h ev hev => by
      have h2 : (events.events.filter (fun e => e.EventSignature == 77)).map
          (fun e => (⟨e, 4, 20, 30, 10, 11, 5, [1]⟩ : StandardBridgeInitiatedEvent)) =
          initiated := Except.ok.inj h
      subst h2
      obtain ⟨e, he, rfl⟩ := List.mem_map.mp hev
      exact (List.mem_filter.mp he).1)
    (by decide) (by decide)⟩

end Indexer
